import Mathlib

/-!
# Verification of the Ultrathink flat-file knowledge store

A shallow embedding of the Python sources `src/native-host/host.py` and
`src/kb-server.py`.  Strings are modelled as lists of characters
(`Str := List Char`); a text file is modelled either as the full character
string or as its list of lines.  Python's `readlines` keeps the trailing
`"\n"` inside each line; since every mutation in the sources treats that
terminator as an opaque suffix (insertions always add `"...\n"` lines and
comparisons use `startswith` / `in`), we represent a line *without* its
terminator and note that the translation is exact for files whose every
line is newline-terminated, which is how the writer (`append_to_kb`)
produces them.

Python-specific semantics preserved by the model:
* `re` patterns are compiled to deterministic scanners; the character
  classes used (`[^`]`, `[^\]]`, `[^)]`, `[^*]`) exclude the character the
  pattern requires next, so greedy matching with backtracking coincides
  with maximal munch.
* `$` in `re.match` also matches just before a final `"\n"`; the timestamp
  validator models this.  (`\d` additionally accepts non-ASCII Unicode
  digits in Python; the model restricts to ASCII digits, which is the only
  range exercised here.)
* `str.strip()` strips ASCII whitespace; `' '.join(s.split())` collapses
  whitespace runs.
-/

set_option maxRecDepth 10000

abbrev Str := List Char

def str (s : String) : Str := s.data

/-- Python `str.isspace` set for the characters `strip()`/`split()` remove. -/
def isPySpace (c : Char) : Bool :=
  c = ' ' || c = '\t' || c = '\n' || c = '\r' || c = '\x0b' || c = '\x0c'

/-- Python `s.lstrip()`. -/
def lstripWs (s : Str) : Str := s.dropWhile isPySpace

/-- Python `s.strip()`. -/
def stripWs (s : Str) : Str := ((s.dropWhile isPySpace).reverse.dropWhile isPySpace).reverse

/-- Python `s.split(sep)` for a one-character separator: splits on every
occurrence, keeping empty segments (`n` separators give `n+1` parts). -/
def splitOnChar (sep : Char) : Str → List Str
  | [] => [[]]
  | c :: cs =>
    let rest := splitOnChar sep cs
    if c = sep then [] :: rest
    else match rest with
      | [] => [[c]]
      | r :: rs => (c :: r) :: rs

/-- Python `"\n".join(parts)` / more generally `sep.join`. -/
def joinWith (sep : Str) : List Str → Str
  | [] => []
  | [p] => p
  | p :: ps => p ++ sep ++ joinWith sep ps

/-- Python `s.split()` (no argument): whitespace runs as separators,
no empty parts. -/
def splitWs (s : Str) : List Str :=
  (splitOnChar ' ' (s.map (fun c => if isPySpace c then ' ' else c))).filter (· ≠ [])

/-- Python `' '.join(summary.split())` used by `add_summary_to_entry`. -/
def collapseWs (s : Str) : Str := joinWith [' '] (splitWs s)

def isAsciiDigit (c : Char) : Bool := '0' ≤ c && c ≤ '9'

/-- Python substring test `needle in haystack`. -/
def containsSub (haystack needle : Str) : Bool :=
  match haystack with
  | [] => needle.isPrefixOf ([] : Str)
  | _ :: t => needle.isPrefixOf haystack || containsSub t needle

/-! ## `sanitize_filename` (host.py 193-237) -/

/-- `pathlib.Path(s).name`: last path component after dropping empty and
`"."` components (POSIX rules; the host runs the native messaging host on
the user's workstation, and the repository targets macOS/Linux paths). -/
def pathBasename (s : Str) : Str :=
  (((splitOnChar '/' s).filter (fun c => c ≠ [] ∧ c ≠ ['.'])).getLast?).getD []

/-- The whitelist `[a-zA-Z0-9\-_\. ]` of `sanitize_filename`. -/
def allowedFilenameChar (c : Char) : Bool :=
  ('a' ≤ c && c ≤ 'z') || ('A' ≤ c && c ≤ 'Z') || ('0' ≤ c && c ≤ '9') ||
  c = '-' || c = '_' || c = '.' || c = ' '

/-- Python `s.rsplit('.', 1)`: `some (stem, ext)` when a dot is present. -/
def rsplitDot (s : Str) : Option (Str × Str) :=
  let r := s.reverse
  match r.dropWhile (· ≠ '.') with
  | [] => none
  | _ :: stemRev => some (stemRev.reverse, (r.takeWhile (· ≠ '.')).reverse)

/-- `sanitize_filename` (host.py 193-237), character for character:
basename, removal of separators and NULs, `lstrip('.')`, whitelist
substitution, length limiting, and the final emptiness guard. -/
def sanitizeFilename (filename : Str) : Str :=
  if filename = [] then str "unnamed_file" else
  let b0 := pathBasename filename
  let b1 := b0.filter (fun c => c ≠ '/' ∧ c ≠ '\\' ∧ c ≠ '\x00')
  let b2 := b1.dropWhile (· = '.')
  let b3 := b2.map (fun c => if allowedFilenameChar c then c else '_')
  let b4 :=
    if b3.length > 200 then
      match rsplitDot b3 with
      | some (stem, ext) => stem.take 190 ++ ['.'] ++ ext.take 10
      | none => b3.take 200
    else b3
  if b4 = [] ∨ b4 = ['.'] then str "unnamed_file" else b4

/-- The 206-character filename showing the length bound is exceeded. -/
def longFilename : Str := List.replicate 195 'a' ++ ['.'] ++ List.replicate 10 'b'

/-- C9: `sanitize_filename`'s truncation branch emits `stem[:190] + '.' +
ext[:10]`, which is 201 characters when the stem has ≥190 and the
extension ≥10 characters — exceeding the 200-character bound stated by the
claim and by the function's own docstring ("Max 200 characters"). -/
theorem sanitize_filename_length_can_exceed_200 :
    (sanitizeFilename longFilename).length = 201 := by decide

/-! ## Data model: the entry dict handed to `append_to_kb` (host.py) -/

structure TabGroup where
  groupName : Str
  groupColor : Str
deriving DecidableEq, Repr

structure PageMeta where
  description : Str
  ogImage : Str
  author : Str
  publishedDate : Str
  readingTime : Option Int
deriving DecidableEq, Repr

structure Classification where
  entity : Str
  topics : List Str
  people : List Str
deriving DecidableEq, Repr

/-- The entry object.  Keys that Python reads with `entry['k']` or whose
absence `validate_entry` must detect are `Option`; keys read with
`entry.get(k, default)` carry the default through an `Option` as well;
string keys read with `entry.get(k, '')` are plain strings where `[]`
models both absence and the empty string (Python treats both as falsy in
every use below). -/
structure Entry where
  type? : Option Str
  captured? : Option Str
  source? : Option Str
  title? : Option Str
  url : Str
  tabGroup : Option TabGroup
  selectedText : Str
  notes : Str
  parentId : Str
  related : Str
  similar : Str
  pageMetadata : Option PageMeta
  screenshotData? : Option Str
  fileData? : Option Str
deriving DecidableEq, Repr

/-- `url.startswith(('http://', 'https://', 'file://', 'chrome-extension://'))`. -/
def validUrlScheme (url : Str) : Bool :=
  (str "http://").isPrefixOf url || (str "https://").isPrefixOf url ||
  (str "file://").isPrefixOf url || (str "chrome-extension://").isPrefixOf url

/-- `[line.strip() for line in s.split('\n') if line.strip()]`. -/
def strippedLines (s : Str) : List Str :=
  ((splitOnChar '\n' s).map stripWs).filter (· ≠ [])

/-- The head line `- `type` | `source` | `timestamp` | Title...` built by
`format_markdown_entry` (host.py 1358-1377). -/
def mainLine (e : Entry) (ty cap : Str) : Str :=
  let title := e.title?.getD (str "Untitled")
  let source := e.source?.getD (str "browser")
  let base := str "- `" ++ ty ++ str "` | `" ++ source ++ str "` | `" ++ cap ++ str "` | "
  let base := base ++
    (if e.url ≠ [] ∧ validUrlScheme e.url then
      str "[" ++ title ++ str "](" ++ e.url ++ str ")"
    else title)
  match e.tabGroup with
  | none => base
  | some g =>
    if g.groupName ≠ [] then
      base ++ str " | `group: " ++ g.groupName ++ str " (" ++ g.groupColor ++ str ")`"
    else if g.groupColor ≠ [] then
      base ++ str " | `group: (" ++ g.groupColor ++ str ")`"
    else base

/-- Page-metadata lines (host.py 1422-1443). -/
def pageMetaLines : Option PageMeta → List Str
  | none => []
  | some m =>
    let desc := stripWs m.description
    let descOut := if desc.length > 200 then desc.take 197 ++ str "..." else desc
    (if desc ≠ [] then [str "  - Description: " ++ descOut] else [])
    ++ (if stripWs m.ogImage ≠ [] then [str "  - Image: " ++ stripWs m.ogImage] else [])
    ++ (if stripWs m.author ≠ [] then [str "  - Author: " ++ stripWs m.author] else [])
    ++ (if stripWs m.publishedDate ≠ [] then [str "  - Published: " ++ stripWs m.publishedDate] else [])
    ++ (match m.readingTime with
        | some rt => if rt ≠ 0 ∧ 0 < rt then [str "  - ReadTime: " ++ str (toString rt) ++ str " min"] else []
        | none => [])

/-- Classification lines (host.py 1445-1456). -/
def classificationLines : Option Classification → List Str
  | none => []
  | some c =>
    (if c.entity ≠ [] then [str "  - Entity: " ++ c.entity] else [])
    ++ (if c.topics ≠ [] then [str "  - Topics: " ++ joinWith (str ", ") c.topics] else [])
    ++ (if c.people ≠ [] then [str "  - People: " ++ joinWith (str ", ") c.people] else [])

/-- Notes block: `Notes:` head line plus 4-space-indented continuations
(host.py 1395-1405). -/
def notesLines (notes : Str) : List Str :=
  if stripWs notes ≠ [] then
    match strippedLines (stripWs notes) with
    | [] => []
    | l0 :: rest => (str "  - Notes: " ++ l0) :: rest.map (fun l => str "    " ++ l)
  else []

/-- `format_markdown_entry` (host.py 1343-1460) as the list of lines the
Python code joins with `"\n"`; the final `[]` is the trailing empty
element `lines.append('')`.  Requires `entry['type']` and
`entry['captured']` — Python would raise `KeyError` otherwise, so the
missing-key case is `none`. -/
def formatMarkdownEntry (e : Entry) (screenshotPath filePath : Option Str)
    (classification : Option Classification) : Option (List Str) :=
  match e.type?, e.captured? with
  | some ty, some cap =>
    let selectedText := stripWs e.selectedText
    some <|
      [mainLine e ty cap]
      ++ (if selectedText ≠ [] then (strippedLines selectedText).map (fun l => str "  - > " ++ l) else [])
      ++ (match screenshotPath with
          | some p => if p ≠ [] then [str "  - ![Screenshot](" ++ p ++ str ")"] else []
          | none => [])
      ++ (match filePath with
          | some p => if p ≠ [] then [str "  - [Attachment](" ++ p ++ str ")"] else []
          | none => [])
      ++ notesLines e.notes
      ++ (if e.parentId ≠ [] then [str "  - ParentId: " ++ e.parentId] else [])
      ++ (if e.related ≠ [] then [str "  - Related: " ++ e.related] else [])
      ++ (if e.similar ≠ [] then [str "  - Similar: " ++ e.similar] else [])
      ++ pageMetaLines e.pageMetadata
      ++ classificationLines classification
      ++ [[]]
  | _, _ => none

/-- The rendered text of one entry: `'\n'.join(lines)`. -/
def renderEntry (e : Entry) (screenshotPath filePath : Option Str)
    (classification : Option Classification) : Option Str :=
  (formatMarkdownEntry e screenshotPath filePath classification).map (joinWith (str "\n"))

/-! ## Parsing: `parse_kb_markdown` (kb-server.py 120-297) -/

/-- `some (s minus p)` when `p` heads `s` — the literal parts of the
regular expressions (`startswith` plus slicing). -/
def dropStart : Str → Str → Option Str
  | [], s => some s
  | _ :: _, [] => none
  | c :: p, d :: s => if c = d then dropStart p s else none

/-- A `([^c]+)` group followed by the literal `c`: the character class
excludes `c`, so greedy matching is maximal munch; returns the group and
the text after the literal. -/
def takeTo (stop : Char) (s : Str) : Option (Str × Str) :=
  let run := s.takeWhile (· ≠ stop)
  if run = [] then none
  else match s.dropWhile (· ≠ stop) with
    | _ :: tail => some (run, tail)
    | [] => none

/-- Groups of `NEW_ENTRY_PATTERN`
`^- `([^`]+)` \| `([^`]+)` \| `([^`]+)` \| (?:\[([^\]]+)\]\(([^)]+)\)|(.+))$`. -/
structure NewHeader where
  type : Str
  source : Str
  timestamp : Str
  linked : Option (Str × Str)
  plain : Str
deriving DecidableEq, Repr

/-- The `\[([^\]]+)\]\(([^)]+)\)$` alternative: must reach the line end. -/
def linkedTitle (s : Str) : Option (Str × Str) := do
  let rest ← dropStart (str "[") s
  let (t, rest) ← takeTo ']' rest
  let rest ← dropStart (str "(") rest
  let (u, rest) ← takeTo ')' rest
  if rest = [] then some (t, u) else none

def newEntryMatch (line : Str) : Option NewHeader := do
  let rest ← dropStart (str "- `") line
  let (ty, rest) ← takeTo '`' rest
  let rest ← dropStart (str " | `") rest
  let (src, rest) ← takeTo '`' rest
  let rest ← dropStart (str " | `") rest
  let (ts, rest) ← takeTo '`' rest
  let rest ← dropStart (str " | ") rest
  match linkedTitle rest with
  | some (t, u) => some ⟨ty, src, ts, some (t, u), []⟩
  | none => if rest ≠ [] then some ⟨ty, src, ts, none, rest⟩ else none

/-- Groups of `OLD_ENTRY_PATTERN`
`^- \*\*(?:\[([^\]]+)\]\(([^)]+)\)|([^*]+))\*\* - `([^`]+)` - `([^`]+)`(?: - `group: ([^`]+)`)?$`. -/
structure OldHeader where
  linked : Option (Str × Str)
  plain : Str
  type : Str
  timestamp : Str
  group : Option Str
deriving DecidableEq, Repr

/-- The bold title part `(?:\[([^\]]+)\]\(([^)]+)\)|([^*]+))\*\*`:
the linked alternative, falling back (regex backtracking) to a starless
plain title; both must be followed by the literal `**`. -/
def oldTitlePart (s : Str) : Option ((Option (Str × Str) × Str) × Str) :=
  let linkedArm : Option (Str × Str × Str) := do
    let rest ← dropStart (str "[") s
    let (t, rest) ← takeTo ']' rest
    let rest ← dropStart (str "(") rest
    let (u, rest) ← takeTo ')' rest
    let rest ← dropStart (str "**") rest
    some (t, u, rest)
  match linkedArm with
  | some (t, u, rest) => some ((some (t, u), []), rest)
  | none => do
    let (p, rest) ← takeTo '*' s
    let rest ← dropStart (str "*") rest
    some ((none, p), rest)

def oldEntryMatch (line : Str) : Option OldHeader := do
  let rest ← dropStart (str "- **") line
  let ((linked, plain), rest) ← oldTitlePart rest
  let rest ← dropStart (str " - `") rest
  let (ty, rest) ← takeTo '`' rest
  let rest ← dropStart (str " - `") rest
  let (ts, rest) ← takeTo '`' rest
  if rest = [] then some ⟨linked, plain, ty, ts, none⟩
  else do
    let rest ← dropStart (str " - `group: ") rest
    let (g, rest) ← takeTo '`' rest
    if rest = [] then some ⟨linked, plain, ty, ts, some g⟩ else none

/-- `CONTENT_PATTERN = ^  - (.+)$`. -/
def contentMatch (line : Str) : Option Str := do
  let rest ← dropStart (str "  - ") line
  if rest ≠ [] then some rest else none

/-- The continuation pattern `^    ([^-].*)$` (kb-server.py 217). -/
def continuationMatch (line : Str) : Option Str := do
  let rest ← dropStart (str "    ") line
  match rest with
  | [] => none
  | c :: _ => if c ≠ '-' then some rest else none

/-- `SCREENSHOT_PATTERN = !\[Screenshot\]\(([^)]+)\)` anchored at the
start (`re.match`); trailing text is allowed. -/
def screenshotMatchAt (s : Str) : Option Str := do
  let rest ← dropStart (str "![Screenshot](") s
  let (p, _) ← takeTo ')' rest
  some p

/-- `SCREENSHOT_PATTERN.search`: leftmost match anywhere in the line. -/
def screenshotSearch : Str → Option Str
  | [] => none
  | c :: t => (screenshotMatchAt (c :: t)).orElse (fun _ => screenshotSearch t)

/-- `FILE_PATTERN = \[.+\]\(([^)]+)\)` matched at a given `[`: the greedy
`.+` prefers the rightmost `](` whose capture part succeeds.  `body` is
the text after the opening `[`. -/
def fileMatchAfterBracket (body : Str) : Option Str :=
  ((List.range body.length).reverse).findSome? fun k =>
    if 1 ≤ k ∧ body[k]? = some ']' ∧ body[k + 1]? = some '(' then
      let tail := body.drop (k + 2)
      let p := tail.takeWhile (· ≠ ')')
      if p ≠ [] ∧ (tail.drop p.length).head? = some ')' then some p else none
    else none

/-- `FILE_PATTERN.search`: try each start position left to right. -/
def fileSearch : Str → Option Str
  | [] => none
  | c :: t =>
    (if c = '[' then fileMatchAfterBracket t else none).orElse (fun _ => fileSearch t)

/-- The parsed-entry dict built by `parse_kb_markdown`, including the
scratch key `_in_notes`. -/
structure ParsedEntry where
  title : Str
  url : Str
  type : Str
  source : Str
  timestamp : Str
  group : Str
  content : Str
  selectedText : Str
  screenshot : Str
  file : Str
  entity : Str
  topics : List Str
  people : List Str
  category : Str
  description : Str
  ogImage : Str
  author : Str
  publishedDate : Str
  readingTime : Int
  aiSummary : Str
  taskStatus : Str
  inNotes : Bool
deriving DecidableEq, Repr

def emptyParsed : ParsedEntry :=
  ⟨[], [], [], [], [], [], [], [], [], [], [], [], [], [], [], [], [], [], 0, [], [], false⟩

/-- New-format header → fresh entry dict (kb-server.py 146-169). -/
def entryFromNew (h : NewHeader) : ParsedEntry :=
  let (t, u) := match h.linked with
    | some (t, u) => (t, u)
    | none => (h.plain, [])
  { emptyParsed with
    title := stripWs t, url := u, type := h.type, source := h.source,
    timestamp := h.timestamp }

/-- Old-format header → fresh entry dict (kb-server.py 187-210);
`source` defaults to `browser`, `group` keeps the text before `(`. -/
def entryFromOld (h : OldHeader) : ParsedEntry :=
  let (t, u) := match h.linked with
    | some (t, u) => (t, u)
    | none => (h.plain, [])
  { emptyParsed with
    title := stripWs t, url := u, type := h.type, source := str "browser",
    timestamp := h.timestamp,
    group := match h.group with
      | some g => stripWs (g.takeWhile (· ≠ '('))
      | none => [] }

def natFromDigits (ds : Str) : Nat :=
  ds.foldl (fun n c => n * 10 + (c.toNat - '0'.toNat)) 0

/-- Python `s.strip('*')`. -/
def stripStars (s : Str) : Str :=
  ((s.dropWhile (· = '*')).reverse.dropWhile (· = '*')).reverse

/-- The `elif content_match` branch chain (kb-server.py 224-291); Python
resets `_in_notes = False` before the chain, which the caller does. -/
def contentBranch (ce : ParsedEntry) (cl : Str) : ParsedEntry :=
  if let some r := dropStart (str "Notes: ") cl then
    { ce with content := r, inNotes := true }
  else if let some r := dropStart (str "Entity: ") cl then { ce with entity := r }
  else if let some r := dropStart (str "Topics: ") cl then
    { ce with topics := (splitOnChar ',' r).map stripWs }
  else if let some r := dropStart (str "People: ") cl then
    { ce with people := (splitOnChar ',' r).map stripWs }
  else if let some r := dropStart (str "Description: ") cl then { ce with description := r }
  else if let some r := dropStart (str "Image: ") cl then { ce with ogImage := r }
  else if let some r := dropStart (str "Author: ") cl then { ce with author := r }
  else if let some r := dropStart (str "Published: ") cl then { ce with publishedDate := r }
  else if let some r := dropStart (str "ReadTime: ") cl then
    -- `re.match(r'(\d+) min', content_line[10:])`: a digit run then " min",
    -- trailing text permitted; no match leaves the field untouched.
    let ds := r.takeWhile isAsciiDigit
    if ds ≠ [] ∧ (str " min").isPrefixOf (r.drop ds.length) then
      { ce with readingTime := (natFromDigits ds : Int) }
    else ce
  else if let some r := dropStart (str "AI Summary: ") cl then { ce with aiSummary := r }
  else if let some r := dropStart (str "Status: ") cl then { ce with taskStatus := r }
  else if let some r := dropStart (str "Category: ") cl then { ce with category := r }
  else if let some p := screenshotMatchAt cl then { ce with screenshot := p }
  else if (str "[").isPrefixOf cl ∨ (str "![").isPrefixOf cl then
    match fileSearch cl with
    | some p => { ce with file := p }
    | none => ce
  else if let some r := dropStart (str "> ") cl then
    { ce with selectedText :=
        (if ce.selectedText ≠ [] then ce.selectedText ++ ['\n'] else []) ++ r }
  else if (str "**").isPrefixOf cl then
    let t := stripWs (stripStars cl)
    { ce with content := (if ce.content ≠ [] then ce.content ++ ['\n'] else []) ++ t }
  else
    { ce with content := (if ce.content ≠ [] then ce.content ++ ['\n'] else []) ++ cl }

/-- One non-header line applied to the current entry (kb-server.py
213-291): notes continuations first, then the content chain. -/
def contentStep (ce : ParsedEntry) (line : Str) : ParsedEntry :=
  match continuationMatch line with
  | some contLine =>
    if ce.inNotes then
      let cl := stripWs contLine
      if cl ≠ [] ∧ ¬ (str "_(").isPrefixOf cl then
        { ce with content := ce.content ++ ['\n'] ++ cl }
      else ce
    else ce  -- a 4-space line never matches CONTENT_PATTERN, so Python also does nothing
  | none =>
    match contentMatch line with
    | some cl => contentBranch { ce with inNotes := false } cl
    | none => ce

def finishCur : Option ParsedEntry → List ParsedEntry
  | some c => [c]
  | none => []

/-- The scanning loop of `parse_kb_markdown`: header lines close the
current entry and open a new one; other lines feed `contentStep` when an
entry is open and are dead space otherwise. -/
def parseAux : Option ParsedEntry → List Str → List ParsedEntry
  | cur, [] => finishCur cur
  | cur, line :: rest =>
    match newEntryMatch line with
    | some h => finishCur cur ++ parseAux (some (entryFromNew h)) rest
    | none =>
      match oldEntryMatch line with
      | some h => finishCur cur ++ parseAux (some (entryFromOld h)) rest
      | none =>
        match cur with
        | none => parseAux none rest
        | some ce => parseAux (some (contentStep ce line)) rest

/-- `parse_kb_markdown(content)`: split on `'\n'` and scan. -/
def parseKbMarkdown (content : Str) : List ParsedEntry :=
  parseAux none (splitOnChar '\n' content)

/-! ## Validation and the synchronous create path (host.py 240-258, 1560-1632) -/

/-- The core of `^\d{4}-\d{2}-\d{2} \d{2}:\d{2}:\d{2}$`: exactly the
19-character digit/separator shape.  (`\d` is restricted to ASCII.) -/
def tsShape : Str → Bool
  | [a, b, c, d, s1, e, f, s2, g, h, sp, i, j, c1, k, l, c2, m, n] =>
    isAsciiDigit a && isAsciiDigit b && isAsciiDigit c && isAsciiDigit d && s1 = '-' &&
    isAsciiDigit e && isAsciiDigit f && s2 = '-' &&
    isAsciiDigit g && isAsciiDigit h && sp = ' ' &&
    isAsciiDigit i && isAsciiDigit j && c1 = ':' &&
    isAsciiDigit k && isAsciiDigit l && c2 = ':' &&
    isAsciiDigit m && isAsciiDigit n
  | _ => false

/-- What `re.match(r'^...$', s)` actually accepts: Python's `$` also
matches just before a single final newline. -/
def matchTsFormat (s : Str) : Bool :=
  tsShape s || (s.getLast? = some '\n' && tsShape s.dropLast)

/-- `validate_entry` (host.py 240-258): `some errorMessage` on the first
failing check, `none` when valid. -/
def validateEntry (e : Entry) : Option Str :=
  if e.type?.isNone then some (str "Missing required field: type")
  else if e.captured?.isNone then some (str "Missing required field: captured")
  else if e.source?.isNone then some (str "Missing required field: source")
  else if ¬ matchTsFormat (e.captured?.getD []) then some (str "Invalid timestamp format")
  else none

/-- `timestamp.replace(' ', '_').replace(':', '-')` used in side-file
names (host.py 1488, 1538). -/
def tsForFilename (ts : Str) : Str :=
  ts.map (fun c => if c = ' ' then '_' else if c = ':' then '-' else c)

/-- The filename part built by `save_file` (host.py 1531-1540). -/
def saveFileName (filename ts : Str) : Str :=
  let safeBase := sanitizeFilename filename
  match rsplitDot safeBase with
  | some (base, ext) => base ++ ['_'] ++ tsForFilename ts ++ ['.'] ++ ext
  | none => safeBase ++ ['_'] ++ tsForFilename ts

/-- Result of the synchronous create call: success flag, the store file
after the call, and the relative paths of side-files written. -/
structure AppendOutcome where
  ok : Bool
  file : Str
  sideFiles : List Str
deriving DecidableEq, Repr

/-- `append_to_kb` (host.py 1560-1632) as a pure transformation of the
store text.  The project-folder validation and the I/O succeed in the
model; base64 payloads are opaque (only key presence matters).  A missing
`entry['title']` under a present `fileData` raises `KeyError` in Python,
which the enclosing `except` turns into an error return — after the
screenshot was already saved. -/
def appendToKb (e : Entry) (old : Str) : AppendOutcome :=
  match validateEntry e with
  | some _ => ⟨false, old, []⟩
  | none =>
    match e.type?, e.captured? with
    | some ty, some cap =>
      let shotPath : Option Str :=
        if ty = str "screenshot" ∧ e.screenshotData?.isSome then
          some (str "screenshots/screenshot_" ++ tsForFilename cap ++ str ".png")
        else none
      if e.fileData?.isSome ∧ e.title?.isNone then
        ⟨false, old, shotPath.toList⟩
      else
        let filePath : Option Str :=
          if e.fileData?.isSome then some (str "files/" ++ saveFileName (e.title?.getD []) cap)
          else none
        -- classification is `None` on this path (host.py 1601); the
        -- `getD` is never hit since both keys were just matched.
        ⟨true, (renderEntry e shotPath filePath none).getD [] ++ old,
          shotPath.toList ++ filePath.toList⟩
    | _, _ => ⟨false, old, []⟩

/-- A complete, otherwise-valid entry whose timestamp carries a trailing
newline: not of the form `YYYY-MM-DD HH:MM:SS`, yet accepted. -/
def entryNewlineTs : Entry :=
  { type? := some (str "note"), captured? := some (str "2024-01-02 03:04:05\n"),
    source? := some (str "widget"), title? := some (str "T"), url := [],
    tabGroup := none, selectedText := [], notes := [], parentId := [],
    related := [], similar := [], pageMetadata := none,
    screenshotData? := none, fileData? := none }

/-- An entry with no `source` key. -/
def entryNoSource : Entry :=
  { type? := some (str "note"), captured? := some (str "2024-01-02 03:04:05"),
    source? := none, title? := some (str "T"), url := [],
    tabGroup := none, selectedText := [], notes := [], parentId := [],
    related := [], similar := [], pageMetadata := none,
    screenshotData? := none, fileData? := none }

/-- C8 counterexample: a timestamp that does not match
`YYYY-MM-DD HH:MM:SS` (it has 20 characters, ending in a newline) is
nevertheless accepted — `re.match(r'^...$', ts)` lets `$` match before a
final newline — so the create call succeeds and rewrites the store
instead of failing validation. -/
theorem append_accepts_trailing_newline_timestamp :
    tsShape (str "2024-01-02 03:04:05\n") = false ∧
    (appendToKb entryNewlineTs (str "OLD")).ok = true ∧
    (appendToKb entryNewlineTs (str "OLD")).file ≠ str "OLD" := by decide

/-- C8 amended: for an entry missing `type`, `captured` or `source`, or
whose timestamp fails even the newline-tolerant shape test, the create
call fails, leaves the store byte-identical and writes no side-file. -/
theorem append_rejects_invalid_entries (e : Entry) (old : Str)
    (h : e.type? = none ∨ e.captured? = none ∨ e.source? = none ∨
         matchTsFormat (e.captured?.getD []) = false) :
    appendToKb e old = ⟨false, old, []⟩ := by
  rcases hty : e.type? with _ | ty <;>
    rcases hcap : e.captured? with _ | cap <;>
      rcases hsrc : e.source? with _ | src <;>
        simp_all [appendToKb, validateEntry]

/-- C8 witness: the theorem applied to a concrete entry with no source. -/
theorem append_rejects_invalid_entries_witness :
    appendToKb entryNoSource (str "OLD") = ⟨false, str "OLD", []⟩ :=
  append_rejects_invalid_entries entryNoSource (str "OLD") (Or.inr (Or.inr (Or.inl rfl)))

/-! ## Store mutations (host.py upserts; kb-server.py status/delete)

These functions read the file with `readlines()` and rewrite it with
`writelines()`; a file is its list of lines here. -/

/-- Parse a list of lines (the function body of `parse_kb_markdown`
after `content.split('\n')`). -/
def parseKbLines (ls : List Str) : List ParsedEntry := parseAux none ls

/-- `f'`{timestamp}`'`, the location key every mutation searches for. -/
def tsNeedle (ts : Str) : Str := '`' :: (ts ++ ['`'])

/-- Index of the first line containing the backticked timestamp. -/
def findTsIdx (ts : Str) : List Str → Option Nat
  | [] => none
  | l :: rest =>
    if containsSub l (tsNeedle ts) then some 0
    else (findTsIdx ts rest).map (· + 1)

/-- End-of-entry scan shared by `add_summary_to_entry`,
`add_classification_to_entry` and `add_category_to_entry` (host.py
1279-1290, 2598-2609, 2676-2687): offset of the first line that starts a
new entry (`'- '`) or is blank, else the length of the suffix. -/
def entryEndOffset : List Str → Nat
  | [] => 0
  | l :: rest =>
    if (str "- ").isPrefixOf l ∨ stripWs l = [] then 0
    else entryEndOffset rest + 1

/-- Insert a batch of lines at the end of the entry holding `ts`
(`lines.insert(insert_pos + idx, ...)` in sequence is one splice);
`none` when no line contains the backticked timestamp. -/
def insertAtEntryEnd (ts : Str) (newLines : List Str) (lines : List Str) :
    Option (List Str) :=
  match findTsIdx ts lines with
  | none => none
  | some i =>
    let pos := i + 1 + entryEndOffset (lines.drop (i + 1))
    some (lines.take pos ++ newLines ++ lines.drop pos)

/-- `add_summary_to_entry` (host.py 1253-1314): cleans the summary with
`' '.join(summary.split())` and inserts one line at the end of the entry. -/
def addSummaryToEntry (ts summary : Str) (lines : List Str) : Option (List Str) :=
  insertAtEntryEnd ts [str "  - AI Summary: " ++ collapseWs summary] lines

/-- `add_category_to_entry` (host.py 2650-2709). -/
def addCategoryToEntry (ts category : Str) (lines : List Str) : Option (List Str) :=
  insertAtEntryEnd ts [str "  - Category: " ++ category] lines

/-- `add_classification_to_entry` (host.py 2572-2647): Entity (plus a
default Status when the entity is `task`), Topics and People lines. -/
def addClassificationToEntry (ts : Str) (c : Classification) (lines : List Str) :
    Option (List Str) :=
  insertAtEntryEnd ts
    ((if c.entity ≠ [] then
        [str "  - Entity: " ++ c.entity]
        ++ (if c.entity = str "task" then [str "  - Status: not-started"] else [])
      else [])
     ++ (if c.topics ≠ [] then [str "  - Topics: " ++ joinWith (str ", ") c.topics] else [])
     ++ (if c.people ≠ [] then [str "  - People: " ++ joinWith (str ", ") c.people] else []))
    lines

/-- Number of leading lines of a suffix that start with 4 spaces — the
continuation-line skip loops (host.py 1743-1747, 2324-2325, 2384-2385). -/
def contSkipLen : List Str → Nat
  | [] => 0
  | l :: rest => if (str "    ").isPrefixOf l then contSkipLen rest + 1 else 0

/-- The insertion-point scan of `add_relationships_to_entry` /
`add_similar_to_entry` (host.py 2313-2328, 2373-2388): walk the entry,
moving the insertion point past each skip-key line and its 4-space
continuations, stopping at the next entry or an `Entity:`/`Topics:` line.
`all` is the whole file (the inner skip loop reads past the cursor),
`j` the cursor index, `ip` the current insertion point. -/
def relScanAux (isSkipKey : Str → Bool) (all : List Str) :
    List Str → Nat → Nat → Nat
  | [], _, ip => ip
  | l :: rest, j, ip =>
    if (str "- `").isPrefixOf l then ip
    else if isSkipKey l then
      relScanAux isSkipKey all rest (j + 1) (j + 1 + contSkipLen (all.drop (j + 1)))
    else if (str "  - Entity:").isPrefixOf l ∨ (str "  - Topics:").isPrefixOf l then ip
    else relScanAux isSkipKey all rest (j + 1) ip

/-- `add_relationships_to_entry` (host.py 2291-2348); entries rendered
`timestamp (type)`. -/
def addRelationshipsToEntry (ts : Str) (rels : List (Str × Str)) (lines : List Str) :
    Option (List Str) :=
  match findTsIdx ts lines with
  | none => none
  | some i =>
    let skipKey := fun l =>
      (str "  - Notes:").isPrefixOf l || (str "  - ParentId:").isPrefixOf l
    let pos := relScanAux skipKey lines (lines.drop (i + 1)) (i + 1) (i + 1)
    some (lines.insertIdx pos
      (str "  - Related: " ++
        joinWith (str ", ") (rels.map (fun r => r.1 ++ str " (" ++ r.2 ++ str ")"))))

/-- `add_similar_to_entry` (host.py 2351-2408); the caller's integer
scores arrive already rendered. -/
def addSimilarToEntry (ts : Str) (sims : List (Str × Str)) (lines : List Str) :
    Option (List Str) :=
  match findTsIdx ts lines with
  | none => none
  | some i =>
    let skipKey := fun l =>
      (str "  - Notes:").isPrefixOf l || (str "  - ParentId:").isPrefixOf l ||
      (str "  - Related:").isPrefixOf l
    let pos := relScanAux skipKey lines (lines.drop (i + 1)) (i + 1) (i + 1)
    some (lines.insertIdx pos
      (str "  - Similar: " ++
        joinWith (str ", ") (sims.map (fun s => s.1 ++ str " (" ++ s.2 ++ str ")"))))

/-- The notes-locating scan of `update_entry_notes` (host.py 1738-1752):
offset of the first `  - Notes:` line, stopping (`none`) at the next
entry or a blank line. -/
def notesScan : List Str → Option Nat
  | [] => none
  | l :: rest =>
    if (str "  - Notes:").isPrefixOf l then some 0
    else if (str "- ").isPrefixOf l ∨ stripWs l = [] then none
    else (notesScan rest).map (· + 1)

/-- New notes block (host.py 1754-1760). -/
def renderNotesBlock (newNotes : Str) : List Str :=
  match strippedLines newNotes with
  | [] => []
  | l0 :: rest => (str "  - Notes: " ++ l0) :: rest.map (fun l => str "    " ++ l)

/-- Offset skipped before inserting fresh notes (host.py 1768-1774):
past `  - >`, `  - ![` and `  - [` lines. -/
def notesInsOffset : List Str → Nat
  | [] => 0
  | l :: rest =>
    if (str "  - >").isPrefixOf l ∨ (str "  - ![").isPrefixOf l ∨ (str "  - [").isPrefixOf l
    then notesInsOffset rest + 1 else 0

/-- `update_entry_notes` (host.py 1709-1794): replaces the Notes block
(head line plus 4-space continuations) or inserts a fresh one; the file
is written only when something changed, so the unchanged cases return
the input lines. -/
def updateEntryNotes (ts newNotes : Str) (lines : List Str) : Bool × List Str :=
  match findTsIdx ts lines with
  | none => (false, lines)
  | some i =>
    match notesScan (lines.drop (i + 1)) with
    | some off =>
      let ns := i + 1 + off
      let ne := ns + 1 + contSkipLen (lines.drop (ns + 1))
      (true, lines.take ns ++ renderNotesBlock newNotes ++ lines.drop ne)
    | none =>
      if stripWs newNotes ≠ [] then
        let pos := i + 1 + notesInsOffset (lines.drop (i + 1))
        (true, lines.take pos ++ renderNotesBlock newNotes ++ lines.drop pos)
      else (false, lines)

/-- Loop state of `update_entry_status` (kb-server.py 373-377). -/
structure StatusState where
  acc : List Str
  found : Bool
  inTarget : Bool
  updated : Bool
  pending : List Str
deriving DecidableEq, Repr

/-- One iteration of the `update_entry_status` loop (kb-server.py
379-421).  Note `status_updated` is initialised once for the whole loop
and `entry_content_lines` is only flushed when the entry ends while
`status_updated` is still false. -/
def statusStep (needle sline : Str) (st : StatusState) (line : Str) : StatusState :=
  if (str "- `").isPrefixOf line ∨ (str "- **").isPrefixOf line then
    let st1 :=
      if st.inTarget ∧ ¬ st.updated then
        { st with acc := st.acc ++ st.pending ++ [sline], updated := true, pending := [] }
      else st
    let st2 := { st1 with inTarget := false }
    if containsSub line needle then
      { st2 with found := true, inTarget := true, acc := st2.acc ++ [line] }
    else { st2 with acc := st2.acc ++ [line] }
  else if st.inTarget then
    if (str "  - ").isPrefixOf line then
      if (str "  - Status: ").isPrefixOf line then
        { st with acc := st.acc ++ [sline], updated := true }
      else { st with pending := st.pending ++ [line] }
    else if stripWs line = [] ∨ (str "- `").isPrefixOf line ∨ (str "- **").isPrefixOf line then
      let st1 :=
        if ¬ st.updated then
          { st with acc := st.acc ++ st.pending ++ [sline], updated := true, pending := [] }
        else st
      { st1 with acc := st1.acc ++ [line], inTarget := false }
    else { st with pending := st.pending ++ [line] }
  else { st with acc := st.acc ++ [line] }

/-- `update_entry_status` (kb-server.py 364-434): `(found, file after the
call)` — the file is rewritten only when the entry was found. -/
def updateEntryStatus (ts status : Str) (lines : List Str) : Bool × List Str :=
  let sline := str "  - Status: " ++ status
  let st := lines.foldl (statusStep (tsNeedle ts) sline) ⟨[], false, false, false, []⟩
  let fin := if st.inTarget ∧ ¬ st.updated then st.acc ++ st.pending ++ [sline] else st.acc
  (st.found, if st.found then fin else lines)

/-- Loop state of `delete_entry` (kb-server.py 310-313). -/
structure DeleteState where
  acc : List Str
  skip : Bool
  deleted : Bool
  removed : List Str
deriving DecidableEq, Repr

/-- One iteration of the `delete_entry` loop (kb-server.py 315-343):
header lines reset the skip flag (and start skipping when they hold the
timestamp); while skipping, `  - ` lines are dropped after harvesting
screenshot/attachment paths and blank lines are dropped; anything else —
including 4-space continuation lines — falls through and is kept. -/
def deleteStep (needle : Str) (st : DeleteState) (line : Str) : DeleteState :=
  let isHeader := (str "- `").isPrefixOf line ∨ (str "- **").isPrefixOf line
  let st0 := if isHeader then { st with skip := false } else st
  if isHeader ∧ containsSub line needle then
    { st0 with skip := true, deleted := true }
  else if st0.skip ∧ (str "  - ").isPrefixOf line then
    { st0 with removed := st0.removed
        ++ (screenshotSearch line).toList ++ (fileSearch line).toList }
  else if st0.skip ∧ stripWs line = [] then st0
  else { st0 with acc := st0.acc ++ [line] }

/-- Outcome of `delete_entry`. -/
structure DeleteOutcome where
  deleted : Bool
  file : List Str
  removed : List Str
deriving DecidableEq, Repr

/-- `delete_entry` (kb-server.py 300-361): the file is rewritten only
when an entry was deleted. -/
def deleteEntry (ts : Str) (lines : List Str) : DeleteOutcome :=
  let st := lines.foldl (deleteStep (tsNeedle ts)) ⟨[], false, false, []⟩
  if st.deleted then ⟨true, st.acc, st.removed⟩ else ⟨false, lines, []⟩

/-! ## Concrete store files for the mutation claims -/

/-- A canonical header line for timestamp `2024-01-01 10:00:00`. -/
def headerA : Str := str "- `note` | `widget` | `2024-01-01 10:00:00` | T"

/-- Entry holding a Notes line and an existing Status line. -/
def statusCexLines : List Str :=
  [headerA, str "  - Notes: important context", str "  - Status: not-started", str ""]

/-- C3: with an existing `Status:` line, `update_entry_status` buffers the
entry's other content lines in `entry_content_lines` and never flushes
them once `status_updated` is set — the rewritten file has lost the
`  - Notes: important context` line (and the Status line moved up),
contradicting the claim that every other line is unchanged. -/
theorem update_entry_status_drops_sibling_lines :
    updateEntryStatus (str "2024-01-01 10:00:00") (str "done") statusCexLines =
      (true, [headerA, str "  - Status: done", str ""]) := by decide

/-- Two entries; the older one has a multi-line Notes block and a
screenshot. -/
def deleteCexLines : List Str :=
  [str "- `note` | `w` | `2024-01-02 10:00:00` | New",
   str "  - Notes: top entry",
   str "",
   str "- `note` | `w` | `2024-01-01 10:00:00` | Old",
   str "  - Notes: first",
   str "    second line",
   str "  - ![Screenshot](screenshots/old.png)",
   str ""]

/-- C5: `delete_entry` drops `  - ` and blank lines of the doomed entry
but lets its 4-space notes-continuation line fall through to the output:
`    second line` survives the deletion, and on re-parse it is absorbed
into the *preceding* entry's notes (`top entry` becomes
`top entry\nsecond line`).  The screenshot path is also collected twice
(both `SCREENSHOT_PATTERN` and `FILE_PATTERN` match the same line). -/
theorem delete_entry_keeps_continuation_line :
    deleteEntry (str "2024-01-01 10:00:00") deleteCexLines =
      ⟨true,
       [str "- `note` | `w` | `2024-01-02 10:00:00` | New",
        str "  - Notes: top entry",
        str "",
        str "    second line"],
       [str "screenshots/old.png", str "screenshots/old.png"]⟩ ∧
    (parseKbLines (deleteEntry (str "2024-01-01 10:00:00") deleteCexLines).file).map
        ParsedEntry.content = [str "top entry\nsecond line"] := by decide

/-- Entry with a Notes line and no AI Summary. -/
def summaryCexLines : List Str := [headerA, str "  - Notes: x", str ""]

/-- C2 counterexample: `add_summary_to_entry` never looks for an existing
`AI Summary:` line — the second call with the identical rendered value
inserts a duplicate line, so the file is not byte-identical after it. -/
theorem add_summary_second_call_duplicates :
    addSummaryToEntry (str "2024-01-01 10:00:00") (str "a summary") summaryCexLines =
      some [headerA, str "  - Notes: x", str "  - AI Summary: a summary", str ""] ∧
    ((addSummaryToEntry (str "2024-01-01 10:00:00") (str "a summary") summaryCexLines).bind
        (addSummaryToEntry (str "2024-01-01 10:00:00") (str "a summary"))) =
      some [headerA, str "  - Notes: x", str "  - AI Summary: a summary",
            str "  - AI Summary: a summary", str ""] := by decide

/-! ## Toolbox: list lemmas used by the general theorems -/

theorem isPrefixOf_append_self (p t : List Char) : p.isPrefixOf (p ++ t) = true := by
  induction p with
  | nil => simp
  | cons c cs ih => simp [List.isPrefixOf_cons₂, ih]

theorem dropWhile_head_not {α} (p : α → Bool) (l : List α) (x : α) (xs : List α)
    (h : l.dropWhile p = x :: xs) : p x = false := by
  induction l with
  | nil => simp at h
  | cons c cs ih =>
    by_cases hc : p c
    · exact ih (by simpa [List.dropWhile, hc] using h)
    · rw [List.dropWhile_cons_of_neg hc] at h
      cases h
      simpa using hc

theorem drop_length_takeWhile {α} (p : α → Bool) (l : List α) :
    l.drop (l.takeWhile p).length = l.dropWhile p := by
  induction l with
  | nil => rfl
  | cons c cs ih =>
    by_cases hc : p c
    · simpa [List.takeWhile_cons, List.dropWhile_cons, hc] using ih
    · simp [List.takeWhile_cons, List.dropWhile_cons, hc]

/-- Line predicates shared by the `update_entry_notes` reasoning. -/
def is4sp (l : Str) : Bool := (str "    ").isPrefixOf l

def isNotesHead (l : Str) : Bool := (str "  - Notes:").isPrefixOf l

/-- `notesScan`'s stop test. -/
def isNotesStop (l : Str) : Prop := (str "- ").isPrefixOf l ∨ stripWs l = []

instance (l : Str) : Decidable (isNotesStop l) :=
  inferInstanceAs (Decidable (_ ∨ _))

theorem contSkipLen_cons (c : Str) (cs : List Str) :
    contSkipLen (c :: cs) = if is4sp c then contSkipLen cs + 1 else 0 := rfl

theorem findTsIdx_cons (ts c : Str) (cs : List Str) :
    findTsIdx ts (c :: cs) =
      if containsSub c (tsNeedle ts) then some 0 else (findTsIdx ts cs).map (· + 1) := rfl

theorem notesScan_cons (c : Str) (cs : List Str) :
    notesScan (c :: cs) =
      if isNotesHead c then some 0
      else if isNotesStop c then none
      else (notesScan cs).map (· + 1) := rfl

theorem notesInsOffset_cons (c : Str) (cs : List Str) :
    notesInsOffset (c :: cs) =
      if (str "  - >").isPrefixOf c ∨ (str "  - ![").isPrefixOf c ∨ (str "  - [").isPrefixOf c
      then notesInsOffset cs + 1 else 0 := rfl

theorem contSkipLen_eq_takeWhile (l : List Str) :
    contSkipLen l = (l.takeWhile is4sp).length := by
  induction l with
  | nil => rfl
  | cons c cs ih =>
    rw [contSkipLen_cons, List.takeWhile_cons]
    by_cases hc : is4sp c = true <;> simp [hc, ih]

theorem contSkipLen_append (X F : List Str) (hX : ∀ l ∈ X, is4sp l = true)
    (hF : ∀ x xs, F = x :: xs → is4sp x = false) :
    contSkipLen (X ++ F) = X.length := by
  induction X with
  | nil =>
    cases F with
    | nil => rfl
    | cons x xs => rw [List.nil_append, contSkipLen_cons, if_neg (by simp [hF x xs rfl])]; rfl
  | cons c cs ih =>
    rw [List.cons_append, contSkipLen_cons, if_pos (hX c (by simp))]
    simp [ih fun l hl => hX l (by simp [hl])]

theorem findTsIdx_append (ts : Str) (A : List Str) (hd : Str) (B : List Str)
    (hA : ∀ l ∈ A, containsSub l (tsNeedle ts) = false)
    (hh : containsSub hd (tsNeedle ts) = true) :
    findTsIdx ts (A ++ hd :: B) = some A.length := by
  induction A with
  | nil => rw [List.nil_append, findTsIdx_cons, if_pos hh]; rfl
  | cons c cs ih =>
    rw [List.cons_append, findTsIdx_cons, if_neg (by simp [hA c (by simp)]),
      ih fun l hl => hA l (by simp [hl])]
    rfl

theorem findTsIdx_decomp (ts : Str) (L : List Str) (i : Nat)
    (h : findTsIdx ts L = some i) :
    ∃ A hd B, L = A ++ hd :: B ∧ A.length = i ∧
      (∀ l ∈ A, containsSub l (tsNeedle ts) = false) ∧
      containsSub hd (tsNeedle ts) = true := by
  induction L generalizing i with
  | nil => simp [findTsIdx] at h
  | cons c cs ih =>
    rw [findTsIdx_cons] at h
    by_cases hc : containsSub c (tsNeedle ts) = true
    · rw [if_pos hc] at h
      cases h
      exact ⟨[], c, cs, by simp, rfl, by simp, hc⟩
    · rw [if_neg hc] at h
      rcases ho : findTsIdx ts cs with _ | j
      · rw [ho] at h; simp at h
      · rw [ho] at h
        simp only [Option.map_some'] at h
        cases h
        obtain ⟨A, hd, B, rfl, rfl, hA, hhd⟩ := ih j ho
        refine ⟨c :: A, hd, B, rfl, by simp, ?_, hhd⟩
        intro l hl
        rcases List.mem_cons.mp hl with rfl | hl
        · simpa using hc
        · exact hA l hl

theorem notesScan_skip (C X : List Str)
    (hC : ∀ l ∈ C, isNotesHead l = false ∧ ¬ isNotesStop l) :
    notesScan (C ++ X) = (notesScan X).map (· + C.length) := by
  induction C with
  | nil => cases h : notesScan X <;> simp [h]
  | cons c cs ih =>
    obtain ⟨h1, h2⟩ := hC c (by simp)
    rw [List.cons_append, notesScan_cons, if_neg (by simp [h1]), if_neg h2,
      ih fun l hl => hC l (by simp [hl])]
    cases h : notesScan X <;> simp [h]
    omega

theorem notesScan_decomp (B : List Str) (off : Nat) (h : notesScan B = some off) :
    ∃ C nl D, B = C ++ nl :: D ∧ C.length = off ∧
      (∀ l ∈ C, isNotesHead l = false ∧ ¬ isNotesStop l) ∧
      isNotesHead nl = true := by
  induction B generalizing off with
  | nil => simp [notesScan] at h
  | cons c cs ih =>
    rw [notesScan_cons] at h
    by_cases hn : isNotesHead c = true
    · rw [if_pos hn] at h
      cases h
      exact ⟨[], c, cs, by simp, rfl, by simp, hn⟩
    · rw [if_neg hn] at h
      by_cases hs : isNotesStop c
      · rw [if_pos hs] at h; cases h
      · rw [if_neg hs] at h
        rcases ho : notesScan cs with _ | j
        · rw [ho] at h; simp at h
        · rw [ho] at h
          simp only [Option.map_some'] at h
          cases h
          obtain ⟨C, nl, D, rfl, rfl, hCC, hnl⟩ := ih j ho
          refine ⟨c :: C, nl, D, rfl, by simp, ?_, hnl⟩
          intro l hl
          rcases List.mem_cons.mp hl with rfl | hl
          · exact ⟨by simpa using hn, hs⟩
          · exact hCC l hl

theorem mem_dropWhile_of_not {α} (p : α → Bool) (s : List α) (c : α)
    (hc : c ∈ s) (hp : p c = false) : c ∈ s.dropWhile p := by
  induction s with
  | nil => simp at hc
  | cons a as ih =>
    by_cases ha : p a
    · rw [List.dropWhile_cons_of_pos ha]
      rcases List.mem_cons.mp hc with rfl | hc
      · rw [hp] at ha; simp at ha
      · exact ih hc
    · rw [List.dropWhile_cons_of_neg ha]
      exact hc

theorem mem_stripWs (s : Str) (c : Char) (hc : c ∈ s) (hp : isPySpace c = false) :
    c ∈ stripWs s := by
  unfold stripWs
  have h1 : c ∈ s.dropWhile isPySpace := mem_dropWhile_of_not _ _ _ hc hp
  have h2 : c ∈ (s.dropWhile isPySpace).reverse := List.mem_reverse.mpr h1
  exact List.mem_reverse.mpr (mem_dropWhile_of_not _ _ _ h2 hp)

theorem stripWs_ne_nil_of_mem {s : Str} {c : Char} (hc : c ∈ s)
    (hp : isPySpace c = false) : stripWs s ≠ [] :=
  fun h => by simpa [h] using mem_stripWs s c hc hp

theorem splitOnChar_mem_subset (sep : Char) (s : Str) (p : Str) (c : Char)
    (hp : p ∈ splitOnChar sep s) (hc : c ∈ p) : c ∈ s := by
  induction s generalizing p with
  | nil =>
    simp [splitOnChar] at hp
    subst hp
    simp at hc
  | cons a as ih =>
    simp only [splitOnChar] at hp
    by_cases ha : a = sep
    · rw [if_pos ha] at hp
      rcases List.mem_cons.mp hp with rfl | hp
      · simp at hc
      · exact List.mem_cons_of_mem _ (ih p hp hc)
    · rw [if_neg ha] at hp
      rcases hsp : splitOnChar sep as with _ | ⟨r, rs⟩
      · rw [hsp] at hp
        simp at hp
        subst hp
        rcases List.mem_cons.mp hc with rfl | hc
        · simp
        · simp at hc
      · rw [hsp] at hp
        rcases List.mem_cons.mp hp with rfl | hp
        · rcases List.mem_cons.mp hc with rfl | hc
          · simp
          · exact List.mem_cons_of_mem _ (ih r (by rw [hsp]; simp) hc)
        · exact List.mem_cons_of_mem _ (ih p (by rw [hsp]; simp [hp]) hc)

theorem stripWs_nil_of_all (s : Str) (h : ∀ c ∈ s, isPySpace c = true) :
    stripWs s = [] := by
  unfold stripWs
  have h1 : s.dropWhile isPySpace = [] := List.dropWhile_eq_nil_iff.mpr h
  simp [h1]

theorem stripWs_of_nn_ne_nil {nn : Str} (hnb : strippedLines nn ≠ []) :
    stripWs nn ≠ [] := by
  intro hstrip
  apply hnb
  have hall : ∀ c ∈ nn, isPySpace c = true := by
    by_contra hx
    push_neg at hx
    obtain ⟨c, hc, hcs⟩ := hx
    exact stripWs_ne_nil_of_mem hc (by simpa using hcs) hstrip
  unfold strippedLines
  rw [List.filter_eq_nil_iff]
  intro p hp
  simp only [List.mem_map] at hp
  obtain ⟨q, hq, rfl⟩ := hp
  simpa using stripWs_nil_of_all q fun c hc => hall c (splitOnChar_mem_subset '\n' nn q c hq hc)

/-- `  - >` / `  - ![` / `  - [` — the lines `update_entry_notes` skips
before inserting a fresh Notes block. -/
def isSkip3 (l : Str) : Bool :=
  (str "  - >").isPrefixOf l || (str "  - ![").isPrefixOf l || (str "  - [").isPrefixOf l

theorem notesInsOffset_eq_takeWhile (l : List Str) :
    notesInsOffset l = (l.takeWhile isSkip3).length := by
  induction l with
  | nil => rfl
  | cons c cs ih =>
    rw [notesInsOffset_cons, List.takeWhile_cons]
    by_cases hc : isSkip3 c = true
    · rw [if_pos (by simp only [isSkip3, Bool.or_eq_true] at hc; tauto), hc]
      simp [ih]
    · rw [if_neg (by simp only [isSkip3, Bool.or_eq_true] at hc; tauto), Bool.eq_false_iff.mpr hc]
      rfl

/-- File wellformedness used by the idempotence theorem: the first line
is not 4-space-indented, and a 4-space-indented line only follows a
`  - Notes:` line or another 4-space-indented line (continuation lines
live inside Notes blocks, as the serializer writes them). -/
def contWfAux : Str → List Str → Bool
  | _, [] => true
  | prev, l :: rest =>
    (if is4sp l then isNotesHead prev || is4sp prev else true) && contWfAux l rest

def contWfB : List Str → Bool
  | [] => true
  | l :: rest => !is4sp l && contWfAux l rest

theorem contWfAux_pair (prev : Str) (X : List Str) (y z : Str) (Y : List Str)
    (hwf : contWfAux prev (X ++ y :: z :: Y) = true) (hz : is4sp z = true) :
    isNotesHead y = true ∨ is4sp y = true := by
  induction X generalizing prev with
  | nil =>
    simp only [List.nil_append, contWfAux, Bool.and_eq_true] at hwf
    have h2 := hwf.2
    simp only [contWfAux, Bool.and_eq_true, hz, if_pos] at h2
    simpa [Bool.or_eq_true] using h2.1
  | cons x xs ih =>
    simp only [List.cons_append, contWfAux, Bool.and_eq_true] at hwf
    exact ih x hwf.2

theorem contWf_pair (X : List Str) (y z : Str) (Y : List Str)
    (hwf : contWfB (X ++ y :: z :: Y) = true) (hz : is4sp z = true) :
    isNotesHead y = true ∨ is4sp y = true := by
  cases X with
  | nil =>
    simp only [List.nil_append, contWfB, Bool.and_eq_true] at hwf
    have h2 := hwf.2
    simp only [contWfAux, Bool.and_eq_true, hz, if_pos] at h2
    simpa [Bool.or_eq_true] using h2.1
  | cons x xs =>
    simp only [List.cons_append, contWfB, Bool.and_eq_true] at hwf
    exact contWfAux_pair x xs y z Y hwf.2 hz

theorem drop_after_cons {α} (A : List α) (x : α) (B : List α) :
    (A ++ x :: B).drop (A.length + 1) = B := by
  have h : A ++ x :: B = (A ++ [x]) ++ B := by simp
  rw [h, List.drop_left' (by simp)]

theorem take_upto_cons {α} (A : List α) (x : α) (B : List α) :
    (A ++ x :: B).take (A.length + 1) = A ++ [x] := by
  have h : A ++ x :: B = (A ++ [x]) ++ B := by simp
  rw [h, List.take_left' (by simp)]

/-- C2 amended, part that holds: `update_entry_notes` — the one
replace-style upsert among the cited field writers — is idempotent.
Hypotheses: the rendered notes are nonempty, 4-space continuation lines
appear only inside Notes blocks (`contWfB`), and lines mentioning the
backticked timestamp are entry headers. -/
theorem update_entry_notes_idempotent (ts newNotes : Str) (lines : List Str)
    (hnb : strippedLines newNotes ≠ [])
    (hwf : contWfB lines = true)
    (hhdr : ∀ l ∈ lines, containsSub l (tsNeedle ts) = true →
      (str "- `").isPrefixOf l = true) :
    (updateEntryNotes ts newNotes (updateEntryNotes ts newNotes lines).2).2 =
      (updateEntryNotes ts newNotes lines).2 := by
  -- the rendered block
  rcases hsl : strippedLines newNotes with _ | ⟨l0, rest⟩
  · exact absurd hsl hnb
  have hNB : renderNotesBlock newNotes = (str "  - Notes: " ++ l0) ::
      rest.map (fun l => str "    " ++ l) := by
    simp [renderNotesBlock, hsl]
  set n0 : Str := str "  - Notes: " ++ l0 with hn0def
  set NR : List Str := rest.map (fun l => str "    " ++ l) with hNRdef
  have hn0 : isNotesHead n0 = true :=
    isPrefixOf_append_self (str "  - Notes:") (' ' :: l0)
  have hn0stop : ¬ isNotesStop n0 := by
    intro hstop
    rw [hn0def] at hstop
    rcases hstop with hpre | hblank
    · rw [show ((str "- ").isPrefixOf (str "  - Notes: " ++ l0)) = false from rfl] at hpre
      simp at hpre
    · exact stripWs_ne_nil_of_mem
        (List.mem_append_left _ (by decide : '-' ∈ str "  - Notes: ")) (by decide) hblank
  have hNR4 : ∀ l ∈ NR, is4sp l = true := by
    intro l hl
    simp only [hNRdef, List.mem_map] at hl
    obtain ⟨x, _, rfl⟩ := hl
    exact isPrefixOf_append_self (str "    ") x
  have hstripnn : stripWs newNotes ≠ [] := stripWs_of_nn_ne_nil hnb
  -- locate the timestamp
  rcases hf : findTsIdx ts lines with _ | i
  · simp [updateEntryNotes, hf]
  obtain ⟨A, hd, B, hLeq, rfl, hA, hhd⟩ := findTsIdx_decomp ts lines i hf
  subst hLeq
  rcases hns : notesScan B with _ | off
  · -- insert case
    set P : List Str := B.takeWhile isSkip3 with hPdef
    set Q : List Str := B.dropWhile isSkip3 with hQdef
    have hPQ : B = P ++ Q := (List.takeWhile_append_dropWhile isSkip3 B).symm
    have hPmem : ∀ l ∈ P, isSkip3 l = true := by
      intro l hl
      rw [hPdef] at hl
      exact List.mem_takeWhile_imp hl
    have hPprops : ∀ l ∈ P, isNotesHead l = false ∧ ¬ isNotesStop l := by
      intro l hl
      have h3 := hPmem l hl
      simp only [isSkip3, Bool.or_eq_true, List.isPrefixOf_iff_prefix] at h3
      rcases h3 with (h3 | h3) | h3
      · obtain ⟨t, ht⟩ := h3
        subst ht
        refine ⟨rfl, ?_⟩
        intro hstop
        rcases hstop with hpre | hblank
        · rw [show ((str "- ").isPrefixOf (str "  - >" ++ t)) = false from rfl] at hpre
          simp at hpre
        · exact stripWs_ne_nil_of_mem
            (List.mem_append_left _ (by decide : '-' ∈ str "  - >")) (by decide) hblank
      · obtain ⟨t, ht⟩ := h3
        subst ht
        refine ⟨rfl, ?_⟩
        intro hstop
        rcases hstop with hpre | hblank
        · rw [show ((str "- ").isPrefixOf (str "  - ![" ++ t)) = false from rfl] at hpre
          simp at hpre
        · exact stripWs_ne_nil_of_mem
            (List.mem_append_left _ (by decide : '-' ∈ str "  - ![")) (by decide) hblank
      · obtain ⟨t, ht⟩ := h3
        subst ht
        refine ⟨rfl, ?_⟩
        intro hstop
        rcases hstop with hpre | hblank
        · rw [show ((str "- ").isPrefixOf (str "  - [" ++ t)) = false from rfl] at hpre
          simp at hpre
        · exact stripWs_ne_nil_of_mem
            (List.mem_append_left _ (by decide : '-' ∈ str "  - [")) (by decide) hblank
    have hQhead : ∀ x xs, Q = x :: xs → is4sp x = false := by
      intro x xs hQ
      by_contra hx4
      have hx4' : is4sp x = true := by simpa using hx4
      have hhdpre : (str "- `").isPrefixOf hd = true := hhdr hd (by simp) hhd
      obtain ⟨thd, hthd⟩ := List.isPrefixOf_iff_prefix.mp hhdpre
      rcases List.eq_nil_or_concat P with hP0 | ⟨P', p, hPsplit⟩
      · have hshape : A ++ hd :: B = A ++ hd :: x :: xs := by
          rw [hPQ, hP0, hQ]; rfl
        have hpair := contWf_pair A hd x xs (by rw [← hshape]; exact hwf) hx4'
        rcases hpair with hny | h4y
        · rw [← hthd, show isNotesHead (str "- `" ++ thd) = false from rfl] at hny
          simp at hny
        · rw [← hthd, show is4sp (str "- `" ++ thd) = false from rfl] at h4y
          simp at h4y
      · have hpmem : p ∈ P := by rw [hPsplit]; simp
        have hp3 := hPmem p hpmem
        have hshape : A ++ hd :: B = (A ++ hd :: P') ++ p :: x :: xs := by
          rw [hPQ, hPsplit, hQ]; simp
        have hpair := contWf_pair (A ++ hd :: P') p x xs (by rw [← hshape]; exact hwf) hx4'
        simp only [isSkip3, Bool.or_eq_true, List.isPrefixOf_iff_prefix] at hp3
        rcases hp3 with (hp3 | hp3) | hp3 <;> obtain ⟨t, ht⟩ := hp3 <;> subst ht <;>
          rcases hpair with hny | h4y
        · rw [show isNotesHead (str "  - >" ++ t) = false from rfl] at hny; simp at hny
        · rw [show is4sp (str "  - >" ++ t) = false from rfl] at h4y; simp at h4y
        · rw [show isNotesHead (str "  - ![" ++ t) = false from rfl] at hny; simp at hny
        · rw [show is4sp (str "  - ![" ++ t) = false from rfl] at h4y; simp at h4y
        · rw [show isNotesHead (str "  - [" ++ t) = false from rfl] at hny; simp at hny
        · rw [show is4sp (str "  - [" ++ t) = false from rfl] at h4y; simp at h4y
    -- first call
    have hdrop1 : (A ++ hd :: B).drop (A.length + 1) = B := drop_after_cons A hd B
    have hoff1 : notesInsOffset B = P.length := by
      rw [notesInsOffset_eq_takeWhile, ← hPdef]
    have htake1 : (A ++ hd :: B).take (A.length + 1 + P.length) = A ++ hd :: P := by
      have hsh : A ++ hd :: B = (A ++ hd :: P) ++ Q := by rw [hPQ]; simp
      rw [hsh, List.take_left' (by simp; omega)]
    have hdroppos : (A ++ hd :: B).drop (A.length + 1 + P.length) = Q := by
      have hsh : A ++ hd :: B = (A ++ hd :: P) ++ Q := by rw [hPQ]; simp
      rw [hsh, List.drop_left' (by simp; omega)]
    have hfile1 : (updateEntryNotes ts newNotes (A ++ hd :: B)).2 =
        (A ++ hd :: P) ++ (n0 :: NR) ++ Q := by
      simp only [updateEntryNotes, hf, hdrop1, hns, hstripnn, ne_eq, not_false_iff,
        if_true, hoff1, hNB, htake1, hdroppos]
    -- second call
    have hf2 : findTsIdx ts ((A ++ hd :: P) ++ (n0 :: NR) ++ Q) = some A.length := by
      have hsh : (A ++ hd :: P) ++ (n0 :: NR) ++ Q = A ++ hd :: (P ++ ((n0 :: NR) ++ Q)) := by
        simp
      rw [hsh]
      exact findTsIdx_append ts A hd _ hA hhd
    have hdrop2 : ((A ++ hd :: P) ++ (n0 :: NR) ++ Q).drop (A.length + 1) =
        P ++ ((n0 :: NR) ++ Q) := by
      have hsh : (A ++ hd :: P) ++ (n0 :: NR) ++ Q = A ++ hd :: (P ++ ((n0 :: NR) ++ Q)) := by
        simp
      rw [hsh, drop_after_cons]
    have hscan2 : notesScan (P ++ ((n0 :: NR) ++ Q)) = some P.length := by
      rw [notesScan_skip P _ hPprops, List.cons_append, notesScan_cons, if_pos hn0]
      simp
    have htake2 : ((A ++ hd :: P) ++ (n0 :: NR) ++ Q).take (A.length + 1 + P.length) =
        A ++ hd :: P := by
      rw [List.append_assoc, List.take_left' (by simp; omega)]
    have hdropns2 : ((A ++ hd :: P) ++ (n0 :: NR) ++ Q).drop (A.length + 1 + P.length + 1) =
        NR ++ Q := by
      have hsh : (A ++ hd :: P) ++ (n0 :: NR) ++ Q = ((A ++ hd :: P) ++ [n0]) ++ (NR ++ Q) := by
        simp
      rw [hsh, List.drop_left' (by simp; omega)]
    have hcsl2 : contSkipLen (NR ++ Q) = NR.length := contSkipLen_append NR Q hNR4 hQhead
    have hdropne2 : ((A ++ hd :: P) ++ (n0 :: NR) ++ Q).drop
        (A.length + 1 + P.length + 1 + NR.length) = Q := by
      have hsh : (A ++ hd :: P) ++ (n0 :: NR) ++ Q = ((A ++ hd :: P) ++ (n0 :: NR)) ++ Q := by
        simp
      rw [hsh, List.drop_left' (by simp; omega)]
    rw [hfile1]
    simp only [updateEntryNotes, hf2, hdrop2, hscan2, hNB, htake2, hdropns2, hcsl2, hdropne2]
  · -- replace case
    obtain ⟨C, nl, D, hBeq, rfl, hC, hnl⟩ := notesScan_decomp B off hns
    subst hBeq
    set E : List Str := D.takeWhile is4sp with hEdef
    set F : List Str := D.dropWhile is4sp with hFdef
    have hEF : D = E ++ F := (List.takeWhile_append_dropWhile is4sp D).symm
    have hFhead : ∀ x xs, F = x :: xs → is4sp x = false := by
      intro x xs hx
      refine dropWhile_head_not is4sp D x xs ?_
      rw [← hFdef]; exact hx
    -- first call
    have hdrop1 : (A ++ hd :: (C ++ nl :: D)).drop (A.length + 1) = C ++ nl :: D :=
      drop_after_cons A hd _
    have htake1 : (A ++ hd :: (C ++ nl :: D)).take (A.length + 1 + C.length) =
        A ++ hd :: C := by
      have hsh : A ++ hd :: (C ++ nl :: D) = (A ++ hd :: C) ++ nl :: D := by simp
      rw [hsh, List.take_left' (by simp; omega)]
    have hdropns1 : (A ++ hd :: (C ++ nl :: D)).drop (A.length + 1 + C.length + 1) = D := by
      have hsh : A ++ hd :: (C ++ nl :: D) = ((A ++ hd :: C) ++ [nl]) ++ D := by simp
      rw [hsh, List.drop_left' (by simp; omega)]
    have hcsl1 : contSkipLen D = E.length := by
      rw [contSkipLen_eq_takeWhile, ← hEdef]
    have hdropne1 : (A ++ hd :: (C ++ nl :: D)).drop
        (A.length + 1 + C.length + 1 + E.length) = F := by
      have hsh : A ++ hd :: (C ++ nl :: D) = (((A ++ hd :: C) ++ [nl]) ++ E) ++ F := by
        rw [hEF]; simp
      rw [hsh, List.drop_left' (by simp; omega)]
    have hfile1 : (updateEntryNotes ts newNotes (A ++ hd :: (C ++ nl :: D))).2 =
        (A ++ hd :: C) ++ (n0 :: NR) ++ F := by
      simp only [updateEntryNotes, hf, hdrop1, hns, hNB, htake1, hcsl1, hdropns1, hdropne1]
    -- second call
    have hf2 : findTsIdx ts ((A ++ hd :: C) ++ (n0 :: NR) ++ F) = some A.length := by
      have hsh : (A ++ hd :: C) ++ (n0 :: NR) ++ F = A ++ hd :: (C ++ ((n0 :: NR) ++ F)) := by
        simp
      rw [hsh]
      exact findTsIdx_append ts A hd _ hA hhd
    have hdrop2 : ((A ++ hd :: C) ++ (n0 :: NR) ++ F).drop (A.length + 1) =
        C ++ ((n0 :: NR) ++ F) := by
      have hsh : (A ++ hd :: C) ++ (n0 :: NR) ++ F = A ++ hd :: (C ++ ((n0 :: NR) ++ F)) := by
        simp
      rw [hsh, drop_after_cons]
    have hscan2 : notesScan (C ++ ((n0 :: NR) ++ F)) = some C.length := by
      rw [notesScan_skip C _ hC, List.cons_append, notesScan_cons, if_pos hn0]
      simp
    have htake2 : ((A ++ hd :: C) ++ (n0 :: NR) ++ F).take (A.length + 1 + C.length) =
        A ++ hd :: C := by
      rw [List.append_assoc, List.take_left' (by simp; omega)]
    have hdropns2 : ((A ++ hd :: C) ++ (n0 :: NR) ++ F).drop (A.length + 1 + C.length + 1) =
        NR ++ F := by
      have hsh : (A ++ hd :: C) ++ (n0 :: NR) ++ F = ((A ++ hd :: C) ++ [n0]) ++ (NR ++ F) := by
        simp
      rw [hsh, List.drop_left' (by simp; omega)]
    have hcsl2 : contSkipLen (NR ++ F) = NR.length := contSkipLen_append NR F hNR4 hFhead
    have hdropne2 : ((A ++ hd :: C) ++ (n0 :: NR) ++ F).drop
        (A.length + 1 + C.length + 1 + NR.length) = F := by
      have hsh : (A ++ hd :: C) ++ (n0 :: NR) ++ F = ((A ++ hd :: C) ++ (n0 :: NR)) ++ F := by
        simp
      rw [hsh, List.drop_left' (by simp; omega)]
    rw [hfile1]
    simp only [updateEntryNotes, hf2, hdrop2, hscan2, hNB, htake2, hdropns2, hcsl2, hdropne2]

/-- C2 witness: the idempotence theorem applied to a concrete store. -/
theorem update_entry_notes_idempotent_witness :
    (updateEntryNotes (str "2024-01-01 10:00:00") (str "remember this")
      ((updateEntryNotes (str "2024-01-01 10:00:00") (str "remember this")
        summaryCexLines).2)).2 =
    (updateEntryNotes (str "2024-01-01 10:00:00") (str "remember this")
      summaryCexLines).2 :=
  update_entry_notes_idempotent (str "2024-01-01 10:00:00") (str "remember this")
    summaryCexLines (by decide) (by decide) (by decide)

/-! ## C4: field order after upserts -/

/-- The end-of-entry test of the `add_*_to_entry` scans. -/
def isEntryEnd (l : Str) : Prop := (str "- ").isPrefixOf l ∨ stripWs l = []

instance (l : Str) : Decidable (isEntryEnd l) :=
  inferInstanceAs (Decidable (_ ∨ _))

def isEntryEndB (l : Str) : Bool := (str "- ").isPrefixOf l || stripWs l == []

theorem isEntryEndB_iff (l : Str) : isEntryEndB l = true ↔ isEntryEnd l := by
  simp [isEntryEndB, isEntryEnd]

theorem entryEndOffset_cons (c : Str) (cs : List Str) :
    entryEndOffset (c :: cs) = if isEntryEnd c then 0 else entryEndOffset cs + 1 := rfl

theorem entryEndOffset_append_nb (X Y : List Str) (hX : ∀ l ∈ X, ¬ isEntryEnd l) :
    entryEndOffset (X ++ Y) = X.length + entryEndOffset Y := by
  induction X with
  | nil => simp
  | cons c cs ih =>
    rw [List.cons_append, entryEndOffset_cons, if_neg (hX c (by simp)),
      ih fun l hl => hX l (by simp [hl])]
    simp
    omega

theorem entryEndOffset_eq_takeWhile (L : List Str) :
    entryEndOffset L = (L.takeWhile (fun l => !isEntryEndB l)).length := by
  induction L with
  | nil => rfl
  | cons c cs ih =>
    rw [entryEndOffset_cons, List.takeWhile_cons]
    by_cases hc : isEntryEnd c
    · rw [if_pos hc]
      have : (!isEntryEndB c) = false := by simp [isEntryEndB_iff, hc]
      rw [this]
      rfl
    · rw [if_neg hc]
      have hb : ¬ (isEntryEndB c = true) := fun hh => hc ((isEntryEndB_iff c).mp hh)
      have : (!isEntryEndB c) = true := by simpa using hb
      rw [this]
      simp [ih]

theorem entryEndOffset_dropWhile_zero (L : List Str) :
    entryEndOffset (L.dropWhile (fun l => !isEntryEndB l)) = 0 := by
  rcases hR : L.dropWhile (fun l => !isEntryEndB l) with _ | ⟨r, rs⟩
  · rfl
  · have hr := dropWhile_head_not _ L r rs hR
    rw [entryEndOffset_cons, if_pos (by
      rw [← isEntryEndB_iff]
      simpa using hr)]

/-- Inserting `x` at the end of the entry, then `y` (same timestamp),
is one insertion of `[x, y]` — provided `x` neither starts a new entry
nor is blank, so the second scan walks past it. -/
theorem insertAtEntryEnd_pair (ts x y : Str) (lines : List Str)
    (hx : ¬ isEntryEnd x) :
    (insertAtEntryEnd ts [x] lines).bind (fun f => insertAtEntryEnd ts [y] f) =
      insertAtEntryEnd ts [x, y] lines := by
  rcases hf : findTsIdx ts lines with _ | i
  · simp [insertAtEntryEnd, hf]
  obtain ⟨A, hd, B, hLeq, rfl, hA, hhd⟩ := findTsIdx_decomp ts lines i hf
  subst hLeq
  set NB2 : List Str := B.takeWhile (fun l => !isEntryEndB l) with hNB2def
  set R : List Str := B.dropWhile (fun l => !isEntryEndB l) with hRdef
  have hBR : B = NB2 ++ R := (List.takeWhile_append_dropWhile _ B).symm
  have hNB2mem : ∀ l ∈ NB2, ¬ isEntryEnd l := by
    intro l hl
    rw [hNB2def] at hl
    have := List.mem_takeWhile_imp hl
    rw [← isEntryEndB_iff]
    simpa using this
  have hR0 : entryEndOffset R = 0 := by
    rw [hRdef]
    exact entryEndOffset_dropWhile_zero B
  have hdropB : (A ++ hd :: B).drop (A.length + 1) = B := drop_after_cons A hd B
  have heoB : entryEndOffset B = NB2.length := by
    rw [hBR, entryEndOffset_append_nb NB2 R hNB2mem, hR0]
    simp
  have htakeB : (A ++ hd :: B).take (A.length + 1 + NB2.length) = A ++ hd :: NB2 := by
    have hsh : A ++ hd :: B = (A ++ hd :: NB2) ++ R := by rw [hBR]; simp
    rw [hsh, List.take_left' (by simp; omega)]
  have hdropR : (A ++ hd :: B).drop (A.length + 1 + NB2.length) = R := by
    have hsh : A ++ hd :: B = (A ++ hd :: NB2) ++ R := by rw [hBR]; simp
    rw [hsh, List.drop_left' (by simp; omega)]
  have hfile1 : insertAtEntryEnd ts [x] (A ++ hd :: B) =
      some ((A ++ hd :: NB2) ++ [x] ++ R) := by
    simp only [insertAtEntryEnd, hf, hdropB, heoB, htakeB, hdropR]
  -- second insertion
  have hf2 : findTsIdx ts ((A ++ hd :: NB2) ++ [x] ++ R) = some A.length := by
    have hsh : (A ++ hd :: NB2) ++ [x] ++ R = A ++ hd :: (NB2 ++ [x] ++ R) := by simp
    rw [hsh]
    exact findTsIdx_append ts A hd _ hA hhd
  have hdrop2 : ((A ++ hd :: NB2) ++ [x] ++ R).drop (A.length + 1) = NB2 ++ [x] ++ R := by
    have hsh : (A ++ hd :: NB2) ++ [x] ++ R = A ++ hd :: (NB2 ++ [x] ++ R) := by simp
    rw [hsh, drop_after_cons]
  have heo2 : entryEndOffset (NB2 ++ [x] ++ R) = NB2.length + 1 := by
    rw [List.append_assoc, entryEndOffset_append_nb NB2 ([x] ++ R) hNB2mem,
      List.cons_append, entryEndOffset_cons, if_neg hx]
    simp [hR0]
  have htake2 : ((A ++ hd :: NB2) ++ [x] ++ R).take (A.length + 1 + (NB2.length + 1)) =
      (A ++ hd :: NB2) ++ [x] := by
    have hsh : (A ++ hd :: NB2) ++ [x] ++ R = ((A ++ hd :: NB2) ++ [x]) ++ R := by simp
    rw [hsh, List.take_left' (by simp; omega)]
  have hdrop2R : ((A ++ hd :: NB2) ++ [x] ++ R).drop (A.length + 1 + (NB2.length + 1)) = R := by
    have hsh : (A ++ hd :: NB2) ++ [x] ++ R = ((A ++ hd :: NB2) ++ [x]) ++ R := by simp
    rw [hsh, List.drop_left' (by simp; omega)]
  rw [hfile1, Option.some_bind]
  simp only [insertAtEntryEnd, hf2, hdrop2, heo2, htake2, hdrop2R, hf, hdropB, heoB,
    htakeB, hdropR]
  simp

/-- Two non-header lines whose `contentStep`s commute can be swapped
anywhere in a file without changing `parse_kb_markdown`'s output. -/
theorem parseAux_swap (c s : Str)
    (hcn : newEntryMatch c = none) (hco : oldEntryMatch c = none)
    (hsn : newEntryMatch s = none) (hso : oldEntryMatch s = none)
    (hcomm : ∀ ce, contentStep (contentStep ce c) s = contentStep (contentStep ce s) c) :
    ∀ (T D : List Str) (cur : Option ParsedEntry),
      parseAux cur (T ++ c :: s :: D) = parseAux cur (T ++ s :: c :: D) := by
  intro T
  induction T with
  | nil =>
    intro D cur
    cases cur with
    | none => simp [parseAux, hcn, hco, hsn, hso]
    | some ce => simp [parseAux, hcn, hco, hsn, hso, hcomm ce]
  | cons t T' ih =>
    intro D cur
    simp only [List.cons_append, parseAux]
    cases hnew : newEntryMatch t with
    | some h => simp [ih]
    | none =>
      cases hold : oldEntryMatch t with
      | some h => simp [ih]
      | none =>
        cases cur with
        | none => simp [ih]
        | some ce => simp [ih]

/-- Map a parsed entry back onto `format_markdown_entry`'s inputs — the
re-serialization the spec's ordering invariant composes with the parser.
The parsed keys `aiSummary`, `category` and `taskStatus` have no
serializer input at all and are necessarily dropped; the parsed `group`
carries only a name. -/
def entryOfParsed (p : ParsedEntry) : Entry :=
  { type? := some p.type, captured? := some p.timestamp, source? := some p.source,
    title? := some p.title, url := p.url,
    tabGroup := if p.group ≠ [] then some ⟨p.group, []⟩ else none,
    selectedText := p.selectedText, notes := p.content,
    parentId := [], related := [], similar := [],
    pageMetadata := some ⟨p.description, p.ogImage, p.author, p.publishedDate,
      some p.readingTime⟩,
    screenshotData? := none, fileData? := none }

def reserializeParsed (p : ParsedEntry) : List Str :=
  (formatMarkdownEntry (entryOfParsed p)
    (if p.screenshot ≠ [] then some p.screenshot else none)
    (if p.file ≠ [] then some p.file else none)
    (some ⟨p.entity, p.topics, p.people⟩)).getD []

/-- Base store for the C4 counterexample. -/
def orderCexLines : List Str := [headerA, str "  - Notes: x", str ""]

/-- C4 counterexample: after the AI-Summary upsert the file holds an
`  - AI Summary:` line, but re-parsing and re-serializing drops it
entirely (the serializer has no input for it), so the re-serialized
entry does not present the upserted field in any position, let alone the
canonical one. -/
theorem reserialize_drops_upserted_summary :
    (((addSummaryToEntry (str "2024-01-01 10:00:00") (str "important") orderCexLines).getD
        []).any fun l => (str "  - AI Summary:").isPrefixOf l) = true ∧
    ((((parseKbLines ((addSummaryToEntry (str "2024-01-01 10:00:00") (str "important")
        orderCexLines).getD [])).map reserializeParsed).flatten).any
      fun l => (str "  - AI Summary:").isPrefixOf l) = false := by decide

/-- C4 amended: the Category and AI-Summary upserts land in
call-dependent file positions, but parsing is field-keyed, so re-parsing
(and hence any re-serialization) yields the same result for both call
orders. -/
theorem category_summary_upsert_order_immaterial (ts v w : Str) (lines : List Str) :
    ((addCategoryToEntry ts v lines).bind (addSummaryToEntry ts w)).map parseKbLines =
    ((addSummaryToEntry ts w lines).bind (addCategoryToEntry ts v)).map parseKbLines := by
  have hcat : ¬ isEntryEnd (str "  - Category: " ++ v) := by
    intro hend
    rcases hend with hpre | hblank
    · rw [show ((str "- ").isPrefixOf (str "  - Category: " ++ v)) = false from rfl] at hpre
      simp at hpre
    · exact stripWs_ne_nil_of_mem
        (List.mem_append_left _ (by decide : '-' ∈ str "  - Category: ")) (by decide) hblank
  have hsum : ¬ isEntryEnd (str "  - AI Summary: " ++ collapseWs w) := by
    intro hend
    rcases hend with hpre | hblank
    · rw [show ((str "- ").isPrefixOf (str "  - AI Summary: " ++ collapseWs w)) = false
          from rfl] at hpre
      simp at hpre
    · exact stripWs_ne_nil_of_mem
        (List.mem_append_left _ (by decide : '-' ∈ str "  - AI Summary: ")) (by decide) hblank
  have h1 : (addCategoryToEntry ts v lines).bind (addSummaryToEntry ts w) =
      insertAtEntryEnd ts [str "  - Category: " ++ v, str "  - AI Summary: " ++ collapseWs w]
        lines :=
    insertAtEntryEnd_pair ts (str "  - Category: " ++ v)
      (str "  - AI Summary: " ++ collapseWs w) lines hcat
  have h2 : (addSummaryToEntry ts w lines).bind (addCategoryToEntry ts v) =
      insertAtEntryEnd ts [str "  - AI Summary: " ++ collapseWs w, str "  - Category: " ++ v]
        lines :=
    insertAtEntryEnd_pair ts (str "  - AI Summary: " ++ collapseWs w)
      (str "  - Category: " ++ v) lines hsum
  rw [h1, h2]
  rcases hf : findTsIdx ts lines with _ | i
  · simp [insertAtEntryEnd, hf]
  · simp only [insertAtEntryEnd, hf, Option.map_some']
    congr 1
    simp only [List.append_assoc, List.cons_append, List.nil_append]
    exact parseAux_swap (str "  - Category: " ++ v) (str "  - AI Summary: " ++ collapseWs w)
      rfl rfl rfl rfl (fun ce => rfl) _ _ none

/-! ## Fuzzy candidate search and similarity pre-filter
(host.py 1880-1964, 2129-2190)

`datetime.strptime(ts, '%Y-%m-%d %H:%M:%S')` and `timedelta.days` are
modelled with the proleptic-Gregorian ordinal (`date.toordinal`) and
floor division; `(a - b).days = (aSecs - bSecs) fdiv 86400` exactly as
`timedelta` normalises.  The model requires zero-padded two-digit fields
(the only shape the system writes); `strptime` additionally tolerates
unpadded fields, which no claim exercises.  `str.lower` is modelled on
ASCII. -/

def isLeapYear (y : Nat) : Bool := (y % 4 == 0 && y % 100 != 0) || y % 400 == 0

def daysInMonth (y m : Nat) : Nat :=
  match m with
  | 1 => 31 | 2 => if isLeapYear y then 29 else 28 | 3 => 31 | 4 => 30 | 5 => 31
  | 6 => 30 | 7 => 31 | 8 => 31 | 9 => 30 | 10 => 31 | 11 => 30 | 12 => 31
  | _ => 0

def daysBeforeMonth (y m : Nat) : Nat :=
  (match m with
   | 1 => 0 | 2 => 31 | 3 => 59 | 4 => 90 | 5 => 120 | 6 => 151 | 7 => 181
   | 8 => 212 | 9 => 243 | 10 => 273 | 11 => 304 | 12 => 334 | _ => 0)
  + (if 2 < m ∧ isLeapYear y then 1 else 0)

/-- `date(y, m, d).toordinal()`. -/
def toOrdinal (y m d : Nat) : Nat :=
  365 * (y - 1) + (y - 1) / 4 - (y - 1) / 100 + (y - 1) / 400 + daysBeforeMonth y m + d

/-- A `datetime`: ordinal day and seconds within the day. -/
structure DateTime where
  ord : Nat
  secs : Nat
deriving DecidableEq, Repr

def digitVal (c : Char) : Nat := c.toNat - 48

/-- `datetime.strptime(s, '%Y-%m-%d %H:%M:%S')`, `none` on `ValueError`. -/
def parseTs (s : Str) : Option DateTime :=
  match s with
  | [y1, y2, y3, y4, '-', m1, m2, '-', d1, d2, ' ', h1, h2, ':', n1, n2, ':', e1, e2] =>
    if (isAsciiDigit y1 && isAsciiDigit y2 && isAsciiDigit y3 && isAsciiDigit y4 &&
        isAsciiDigit m1 && isAsciiDigit m2 && isAsciiDigit d1 && isAsciiDigit d2 &&
        isAsciiDigit h1 && isAsciiDigit h2 && isAsciiDigit n1 && isAsciiDigit n2 &&
        isAsciiDigit e1 && isAsciiDigit e2) = true then
      let y := digitVal y1 * 1000 + digitVal y2 * 100 + digitVal y3 * 10 + digitVal y4
      let mo := digitVal m1 * 10 + digitVal m2
      let da := digitVal d1 * 10 + digitVal d2
      let hh := digitVal h1 * 10 + digitVal h2
      let mi := digitVal n1 * 10 + digitVal n2
      let se := digitVal e1 * 10 + digitVal e2
      if 1 ≤ y ∧ 1 ≤ mo ∧ mo ≤ 12 ∧ 1 ≤ da ∧ da ≤ daysInMonth y mo ∧
          hh ≤ 23 ∧ mi ≤ 59 ∧ se ≤ 59 then
        some ⟨toOrdinal y mo da, hh * 3600 + mi * 60 + se⟩
      else none
    else none
  | _ => none

/-- `(a - b).days`: floor of the signed second difference over 86400. -/
def daysBetween (a b : DateTime) : Int :=
  Int.fdiv ((a.ord * 86400 + a.secs : Int) - (b.ord * 86400 + b.secs : Int)) 86400

/-- The dict `load_all_entries` produces (host.py 1847-1855). -/
structure KbEntry where
  timestamp : Str
  title : Str
  entity : Str
  topics : List Str
  people : List Str
  content : Str
  aiSummary : Str
deriving DecidableEq, Repr

def lowerStr (s : Str) : Str := s.map Char.toLower

/-- `len(set(a) & set(b))`: distinct elements shared by the two lists. -/
def setOverlap (a b : List Str) : Nat := (a.dedup.filter (· ∈ b)).length

/-- The relevance score of `fuzzy_search_candidates` (host.py 1936-1957). -/
def fuzzyScore (targetDesc : Str) (e : KbEntry) : Nat :=
  let targetLower := lowerStr targetDesc
  let targetWords := splitWs targetLower
  let titleLower := lowerStr e.title
  let titleScore :=
    if containsSub titleLower targetLower then 50
    else 15 * setOverlap targetWords (splitWs titleLower)
  let topicScore := (e.topics.map fun t =>
    if containsSub targetLower (lowerStr t) || containsSub (lowerStr t) targetLower
    then 25 else 0).sum
  let notesLower := lowerStr e.content
  let notesScore :=
    if containsSub notesLower targetLower then 20
    else 5 * setOverlap targetWords (splitWs notesLower)
  titleScore + topicScore + notesScore

/-- Entity-type filter (host.py 1915-1917). -/
def entityOk (targetType : Str) (e : KbEntry) : Bool :=
  if targetType ≠ [] ∧ targetType ≠ str "any" then e.entity = targetType else true

/-- Temporal filter (host.py 1920-1934): malformed entry timestamps skip
the filter (`except: pass`). -/
def temporalOk (temporalHint : Str) (currentDt : DateTime) (e : KbEntry) : Bool :=
  if temporalHint ≠ [] ∧ temporalHint ≠ str "none" then
    match parseTs e.timestamp with
    | none => true
    | some dt =>
      let d := daysBetween currentDt dt
      if temporalHint = str "yesterday" then d = 1
      else if temporalHint = str "recent" then d ≤ 7
      else if temporalHint = str "last_week" then d ≤ 14
      else if temporalHint = str "last_month" then d ≤ 45
      else true
  else true

/-- The filtered, scored candidate list (loop body, host.py 1907-1960). -/
def fuzzyScored (entries : List KbEntry) (targetDesc targetType temporalHint
    currentTs : Str) (currentDt : DateTime) : List (KbEntry × Nat) :=
  entries.filterMap fun e =>
    if e.timestamp = currentTs then none
    else if ¬ entityOk targetType e then none
    else if ¬ temporalOk temporalHint currentDt e then none
    else if 0 < fuzzyScore targetDesc e then some (e, fuzzyScore targetDesc e) else none

/-- Stable descending insertion: the model of
`candidates.sort(key=lambda x: x['score'], reverse=True)` (stable, so an
element goes after earlier elements with ≥ score). -/
def insertByScoreDesc (x : KbEntry × Nat) : List (KbEntry × Nat) → List (KbEntry × Nat)
  | [] => [x]
  | y :: ys => if x.2 ≤ y.2 then y :: insertByScoreDesc x ys else x :: y :: ys

def sortByScoreDesc (l : List (KbEntry × Nat)) : List (KbEntry × Nat) :=
  l.foldl (fun acc x => insertByScoreDesc x acc) []

/-- `fuzzy_search_candidates` (host.py 1880-1964).  `nowDt` stands for
`datetime.now()`, the fallback when the current timestamp is malformed. -/
def fuzzySearchCandidates (entries : List KbEntry) (targetDesc targetType temporalHint
    currentTs : Str) (nowDt : DateTime) (maxCandidates : Nat) : List KbEntry :=
  let currentDt := (parseTs currentTs).getD nowDt
  ((sortByScoreDesc (fuzzyScored entries targetDesc targetType temporalHint currentTs
      currentDt)).take maxCandidates).map Prod.fst

/-- The similarity score of `get_similarity_candidates` (host.py 2158-2183). -/
def simScore (cur : KbEntry) (currentDt : DateTime) (e : KbEntry) : Nat :=
  setOverlap cur.topics e.topics * 30
  + (if e.entity = cur.entity ∧ cur.entity ≠ [] then 15 else 0)
  + setOverlap cur.people e.people * 25
  + (match parseTs e.timestamp with
     | none => 0
     | some dt =>
       let d := daysBetween currentDt dt
       if d ≤ 7 then 20 else if d ≤ 30 then 10 else 0)

def simScored (entries : List KbEntry) (cur : KbEntry) (currentDt : DateTime) :
    List (KbEntry × Nat) :=
  entries.filterMap fun e =>
    if e.timestamp = cur.timestamp then none
    else if 0 < simScore cur currentDt e then some (e, simScore cur currentDt e) else none

/-- `get_similarity_candidates` (host.py 2129-2190). -/
def getSimilarityCandidates (entries : List KbEntry) (cur : KbEntry) (nowDt : DateTime)
    (maxCandidates : Nat) : List KbEntry :=
  let currentDt := (parseTs cur.timestamp).getD nowDt
  ((sortByScoreDesc (simScored entries cur currentDt)).take maxCandidates).map Prod.fst

theorem mem_insertByScoreDesc {x y : KbEntry × Nat} {l : List (KbEntry × Nat)} :
    x ∈ insertByScoreDesc y l ↔ x = y ∨ x ∈ l := by
  induction l with
  | nil => simp [insertByScoreDesc]
  | cons z zs ih =>
    unfold insertByScoreDesc
    by_cases hc : y.2 ≤ z.2
    · rw [if_pos hc]
      simp only [List.mem_cons, ih]
      tauto
    · rw [if_neg hc]
      simp only [List.mem_cons]

theorem mem_sortFold {x : KbEntry × Nat} :
    ∀ (l acc : List (KbEntry × Nat)),
      x ∈ List.foldl (fun acc y => insertByScoreDesc y acc) acc l ↔ x ∈ acc ∨ x ∈ l := by
  intro l
  induction l with
  | nil => simp
  | cons z zs ih =>
    intro acc
    rw [List.foldl_cons, ih, mem_insertByScoreDesc]
    simp only [List.mem_cons]
    tauto

theorem mem_sortByScoreDesc {x : KbEntry × Nat} {l : List (KbEntry × Nat)} :
    x ∈ sortByScoreDesc l ↔ x ∈ l := by
  unfold sortByScoreDesc
  rw [mem_sortFold]
  simp

theorem length_insertByScoreDesc (y : KbEntry × Nat) (l : List (KbEntry × Nat)) :
    (insertByScoreDesc y l).length = l.length + 1 := by
  induction l with
  | nil => rfl
  | cons z zs ih =>
    unfold insertByScoreDesc
    by_cases hc : y.2 ≤ z.2
    · rw [if_pos hc]
      simp [ih]
    · rw [if_neg hc]
      simp

theorem length_sortFold :
    ∀ (l acc : List (KbEntry × Nat)),
      (List.foldl (fun acc y => insertByScoreDesc y acc) acc l).length =
        acc.length + l.length := by
  intro l
  induction l with
  | nil => simp
  | cons z zs ih =>
    intro acc
    rw [List.foldl_cons, ih, length_insertByScoreDesc]
    simp
    omega

theorem length_sortByScoreDesc (l : List (KbEntry × Nat)) :
    (sortByScoreDesc l).length = l.length := by
  unfold sortByScoreDesc
  rw [length_sortFold]
  simp

theorem pairwise_insertByScoreDesc (y : KbEntry × Nat) (l : List (KbEntry × Nat))
    (h : l.Pairwise (fun a b => b.2 ≤ a.2)) :
    (insertByScoreDesc y l).Pairwise (fun a b => b.2 ≤ a.2) := by
  induction l with
  | nil => simp [insertByScoreDesc]
  | cons z zs ih =>
    rw [List.pairwise_cons] at h
    obtain ⟨hz, hzs⟩ := h
    unfold insertByScoreDesc
    by_cases hc : y.2 ≤ z.2
    · rw [if_pos hc, List.pairwise_cons]
      refine ⟨?_, ih hzs⟩
      intro b hb
      rcases mem_insertByScoreDesc.mp hb with rfl | hb
      · exact hc
      · exact hz b hb
    · rw [if_neg hc, List.pairwise_cons]
      have hy : z.2 ≤ y.2 := Nat.le_of_lt (Nat.lt_of_not_le hc)
      refine ⟨?_, List.pairwise_cons.mpr ⟨hz, hzs⟩⟩
      intro b hb
      rcases List.mem_cons.mp hb with rfl | hb
      · exact hy
      · exact le_trans (hz b hb) hy

theorem pairwise_sortFold :
    ∀ (l acc : List (KbEntry × Nat)),
      acc.Pairwise (fun a b => b.2 ≤ a.2) →
      (List.foldl (fun acc y => insertByScoreDesc y acc) acc l).Pairwise
        (fun a b => b.2 ≤ a.2) := by
  intro l
  induction l with
  | nil => intro acc h; simpa using h
  | cons z zs ih =>
    intro acc h
    rw [List.foldl_cons]
    exact ih _ (pairwise_insertByScoreDesc z acc h)

theorem pairwise_sortByScoreDesc (l : List (KbEntry × Nat)) :
    (sortByScoreDesc l).Pairwise (fun a b => b.2 ≤ a.2) :=
  pairwise_sortFold l [] (by simp)

theorem fuzzyScored_mem {entries : List KbEntry} {td tt th cur : Str}
    {curDt : DateTime} {p : KbEntry × Nat}
    (hp : p ∈ fuzzyScored entries td tt th cur curDt) :
    p.1 ∈ entries ∧ p.2 = fuzzyScore td p.1 ∧ p.1.timestamp ≠ cur ∧
    entityOk tt p.1 = true ∧ temporalOk th curDt p.1 = true ∧ 0 < p.2 := by
  unfold fuzzyScored at hp
  obtain ⟨a, ha, hf⟩ := List.mem_filterMap.mp hp
  by_cases h1 : a.timestamp = cur
  · rw [if_pos h1] at hf
    cases hf
  · rw [if_neg h1] at hf
    by_cases h2 : entityOk tt a = true
    · rw [if_neg (not_not_intro h2)] at hf
      by_cases h3 : temporalOk th curDt a = true
      · rw [if_neg (not_not_intro h3)] at hf
        by_cases h4 : 0 < fuzzyScore td a
        · rw [if_pos h4] at hf
          cases hf
          exact ⟨ha, rfl, h1, h2, h3, h4⟩
        · rw [if_neg h4] at hf
          cases hf
      · rw [if_pos h3] at hf
        cases hf
    · rw [if_pos h2] at hf
      cases hf

theorem fuzzyScored_mem_of {entries : List KbEntry} {td tt th cur : Str}
    {curDt : DateTime} {e : KbEntry} (he : e ∈ entries) (h1 : e.timestamp ≠ cur)
    (h2 : entityOk tt e = true) (h3 : temporalOk th curDt e = true)
    (h4 : 0 < fuzzyScore td e) :
    (e, fuzzyScore td e) ∈ fuzzyScored entries td tt th cur curDt := by
  unfold fuzzyScored
  refine List.mem_filterMap.mpr ⟨e, he, ?_⟩
  rw [if_neg h1, if_neg (not_not_intro h2), if_neg (not_not_intro h3), if_pos h4]

theorem simScored_mem {entries : List KbEntry} {cur : KbEntry}
    {curDt : DateTime} {p : KbEntry × Nat}
    (hp : p ∈ simScored entries cur curDt) :
    p.1 ∈ entries ∧ p.2 = simScore cur curDt p.1 ∧ p.1.timestamp ≠ cur.timestamp ∧
    0 < p.2 := by
  unfold simScored at hp
  obtain ⟨a, ha, hf⟩ := List.mem_filterMap.mp hp
  by_cases h1 : a.timestamp = cur.timestamp
  · rw [if_pos h1] at hf
    cases hf
  · rw [if_neg h1] at hf
    by_cases h4 : 0 < simScore cur curDt a
    · rw [if_pos h4] at hf
      cases hf
      exact ⟨ha, rfl, h1, h4⟩
    · rw [if_neg h4] at hf
      cases hf

/-- C7: given a well-formed current timestamp, `fuzzy_search_candidates`
(i) excludes the current entry, (ii) keeps only matching entities when
the filter is a real type, (iii) every result passes the temporal window
(`yesterday` = exactly 1 day, `recent` ≤ 7, `last_week` ≤ 14,
`last_month` ≤ 45, with malformed entry timestamps skipping the filter —
`temporalOk`), (iv) a candidate with a malformed timestamp is *kept*
(not excluded) whenever it passes the other filters and the cap is not
hit, (v) results are sorted by descending relevance score, and (vi) at
most `limit` candidates return. -/
theorem fuzzy_search_candidates_spec (entries : List KbEntry)
    (td tt th cur : Str) (now curDt : DateTime) (limit : Nat)
    (hcur : parseTs cur = some curDt) :
    (∀ e ∈ fuzzySearchCandidates entries td tt th cur now limit, e.timestamp ≠ cur) ∧
    (tt ≠ [] → tt ≠ str "any" →
      ∀ e ∈ fuzzySearchCandidates entries td tt th cur now limit, e.entity = tt) ∧
    (∀ e ∈ fuzzySearchCandidates entries td tt th cur now limit,
      temporalOk th curDt e = true) ∧
    ((fuzzyScored entries td tt th cur curDt).length ≤ limit →
      ∀ e ∈ entries, e.timestamp ≠ cur → entityOk tt e = true →
        parseTs e.timestamp = none → 0 < fuzzyScore td e →
        e ∈ fuzzySearchCandidates entries td tt th cur now limit) ∧
    (fuzzySearchCandidates entries td tt th cur now limit).Pairwise
      (fun a b => fuzzyScore td b ≤ fuzzyScore td a) ∧
    (fuzzySearchCandidates entries td tt th cur now limit).length ≤ limit := by
  have hres : fuzzySearchCandidates entries td tt th cur now limit =
      ((sortByScoreDesc (fuzzyScored entries td tt th cur curDt)).take limit).map
        Prod.fst := by
    unfold fuzzySearchCandidates
    rw [hcur]
    rfl
  have hmem : ∀ e ∈ fuzzySearchCandidates entries td tt th cur now limit,
      ∃ p : KbEntry × Nat, p.1 = e ∧ p ∈ fuzzyScored entries td tt th cur curDt := by
    intro e he
    rw [hres] at he
    obtain ⟨p, hp, hpe⟩ := List.mem_map.mp he
    exact ⟨p, hpe, mem_sortByScoreDesc.mp (List.mem_of_mem_take hp)⟩
  refine ⟨?_, ?_, ?_, ?_, ?_, ?_⟩
  · intro e he
    obtain ⟨p, rfl, hp⟩ := hmem e he
    exact (fuzzyScored_mem hp).2.2.1
  · intro h1 h2 e he
    obtain ⟨p, rfl, hp⟩ := hmem e he
    have hok := (fuzzyScored_mem hp).2.2.2.1
    unfold entityOk at hok
    rw [if_pos ⟨h1, h2⟩] at hok
    exact of_decide_eq_true hok
  · intro e he
    obtain ⟨p, rfl, hp⟩ := hmem e he
    exact (fuzzyScored_mem hp).2.2.2.2.1
  · intro hlen e he h1 h2 h3 h4
    have htmp : temporalOk th curDt e = true := by
      unfold temporalOk
      rw [h3]
      split <;> rfl
    have hm : (e, fuzzyScore td e) ∈ fuzzyScored entries td tt th cur curDt :=
      fuzzyScored_mem_of he h1 h2 htmp h4
    have hm2 : (e, fuzzyScore td e) ∈
        (sortByScoreDesc (fuzzyScored entries td tt th cur curDt)).take limit := by
      rw [List.take_of_length_le (by rw [length_sortByScoreDesc]; exact hlen)]
      exact mem_sortByScoreDesc.mpr hm
    rw [hres]
    exact List.mem_map.mpr ⟨(e, fuzzyScore td e), hm2, rfl⟩
  · rw [hres]
    refine List.pairwise_map.mpr ?_
    refine List.Pairwise.imp_of_mem ?_
      ((pairwise_sortByScoreDesc _).sublist (List.take_sublist _ _))
    intro a b ha hb hab
    have hai := fuzzyScored_mem (mem_sortByScoreDesc.mp (List.mem_of_mem_take ha))
    have hbi := fuzzyScored_mem (mem_sortByScoreDesc.mp (List.mem_of_mem_take hb))
    rw [hai.2.1] at hab
    rw [hbi.2.1] at hab
    exact hab
  · rw [hres, List.length_map, List.length_take]
    omega

/-- A/B pair from the spec's own test sketch. -/
def entryA : KbEntry :=
  ⟨str "2024-03-01 10:00:00", str "ultrathink project", str "task",
   [str "rust"], [], str "notes about ultrathink", []⟩

def entryB : KbEntry :=
  ⟨str "2024-03-02 10:00:00", str "ultrathink project", str "knowledge", [], [], [], []⟩

/-- C7 witness: the spec instantiated on the A/B pair with the current
timestamp one day after A. -/
theorem fuzzy_search_candidates_spec_witness :
    (∀ e ∈ fuzzySearchCandidates [entryA, entryB] (str "ultrathink") (str "task")
        (str "yesterday") (str "2024-03-02 10:00:00") ⟨1, 0⟩ 50,
      e.timestamp ≠ str "2024-03-02 10:00:00") ∧
    (str "task" ≠ [] → str "task" ≠ str "any" →
      ∀ e ∈ fuzzySearchCandidates [entryA, entryB] (str "ultrathink") (str "task")
          (str "yesterday") (str "2024-03-02 10:00:00") ⟨1, 0⟩ 50,
        e.entity = str "task") ∧
    (∀ e ∈ fuzzySearchCandidates [entryA, entryB] (str "ultrathink") (str "task")
        (str "yesterday") (str "2024-03-02 10:00:00") ⟨1, 0⟩ 50,
      temporalOk (str "yesterday") ⟨738947, 36000⟩ e = true) ∧
    ((fuzzyScored [entryA, entryB] (str "ultrathink") (str "task") (str "yesterday")
        (str "2024-03-02 10:00:00") ⟨738947, 36000⟩).length ≤ 50 →
      ∀ e ∈ [entryA, entryB], e.timestamp ≠ str "2024-03-02 10:00:00" →
        entityOk (str "task") e = true → parseTs e.timestamp = none →
        0 < fuzzyScore (str "ultrathink") e →
        e ∈ fuzzySearchCandidates [entryA, entryB] (str "ultrathink") (str "task")
          (str "yesterday") (str "2024-03-02 10:00:00") ⟨1, 0⟩ 50) ∧
    (fuzzySearchCandidates [entryA, entryB] (str "ultrathink") (str "task")
        (str "yesterday") (str "2024-03-02 10:00:00") ⟨1, 0⟩ 50).Pairwise
      (fun a b => fuzzyScore (str "ultrathink") b ≤ fuzzyScore (str "ultrathink") a) ∧
    (fuzzySearchCandidates [entryA, entryB] (str "ultrathink") (str "task")
        (str "yesterday") (str "2024-03-02 10:00:00") ⟨1, 0⟩ 50).length ≤ 50 :=
  fuzzy_search_candidates_spec [entryA, entryB] (str "ultrathink") (str "task")
    (str "yesterday") (str "2024-03-02 10:00:00") ⟨1, 0⟩ ⟨738947, 36000⟩ 50 (by decide)

/-- C10: both pre-filters append a candidate only under `score > 0`, so
every returned entry has a strictly positive relevance/similarity score,
and when every entry scores zero the candidate list is empty. -/
theorem candidate_prefilters_require_positive_score (entries : List KbEntry)
    (td tt th cur : Str) (now : DateTime) (limF : Nat) (curE : KbEntry) (limS : Nat) :
    (∀ e ∈ fuzzySearchCandidates entries td tt th cur now limF, 0 < fuzzyScore td e) ∧
    (∀ e ∈ getSimilarityCandidates entries curE now limS,
      0 < simScore curE ((parseTs curE.timestamp).getD now) e) ∧
    ((∀ e ∈ entries, fuzzyScore td e = 0) →
      fuzzySearchCandidates entries td tt th cur now limF = []) ∧
    ((∀ e ∈ entries, simScore curE ((parseTs curE.timestamp).getD now) e = 0) →
      getSimilarityCandidates entries curE now limS = []) := by
  have hfz : ∀ e ∈ fuzzySearchCandidates entries td tt th cur now limF,
      0 < fuzzyScore td e := by
    intro e he
    unfold fuzzySearchCandidates at he
    obtain ⟨p, hp, hpe⟩ := List.mem_map.mp he
    have hi := fuzzyScored_mem (mem_sortByScoreDesc.mp (List.mem_of_mem_take hp))
    rw [hpe] at hi
    rw [← hi.2.1]
    exact hi.2.2.2.2.2
  have hsm : ∀ e ∈ getSimilarityCandidates entries curE now limS,
      0 < simScore curE ((parseTs curE.timestamp).getD now) e := by
    intro e he
    unfold getSimilarityCandidates at he
    obtain ⟨p, hp, hpe⟩ := List.mem_map.mp he
    have hi := simScored_mem (mem_sortByScoreDesc.mp (List.mem_of_mem_take hp))
    rw [hpe] at hi
    rw [← hi.2.1]
    exact hi.2.2.2
  refine ⟨hfz, hsm, ?_, ?_⟩
  · intro hall
    rcases hr : fuzzySearchCandidates entries td tt th cur now limF with _ | ⟨e, es⟩
    · rfl
    · exfalso
      have he : e ∈ fuzzySearchCandidates entries td tt th cur now limF := by
        rw [hr]; simp
      have hpos := hfz e he
      unfold fuzzySearchCandidates at he
      obtain ⟨p, hp, hpe⟩ := List.mem_map.mp he
      have hi := fuzzyScored_mem (mem_sortByScoreDesc.mp (List.mem_of_mem_take hp))
      rw [hpe] at hi
      rw [hall e hi.1] at hpos
      exact Nat.lt_irrefl 0 hpos
  · intro hall
    rcases hr : getSimilarityCandidates entries curE now limS with _ | ⟨e, es⟩
    · rfl
    · exfalso
      have he : e ∈ getSimilarityCandidates entries curE now limS := by
        rw [hr]; simp
      have hpos := hsm e he
      unfold getSimilarityCandidates at he
      obtain ⟨p, hp, hpe⟩ := List.mem_map.mp he
      have hi := simScored_mem (mem_sortByScoreDesc.mp (List.mem_of_mem_take hp))
      rw [hpe] at hi
      rw [hall e hi.1] at hpos
      exact Nat.lt_irrefl 0 hpos

/-- C10 witness: the positivity theorem instantiated on the A/B pair
(also checking the implications fire on a zero-overlap query). -/
theorem candidate_prefilters_require_positive_score_witness :
    (∀ e ∈ fuzzySearchCandidates [entryA, entryB] (str "zzz") (str "any") (str "none")
        (str "2024-03-02 10:00:00") ⟨1, 0⟩ 50, 0 < fuzzyScore (str "zzz") e) ∧
    (∀ e ∈ getSimilarityCandidates [entryA, entryB] entryB ⟨1, 0⟩ 100,
      0 < simScore entryB ((parseTs entryB.timestamp).getD ⟨1, 0⟩) e) ∧
    ((∀ e ∈ [entryA, entryB], fuzzyScore (str "zzz") e = 0) →
      fuzzySearchCandidates [entryA, entryB] (str "zzz") (str "any") (str "none")
        (str "2024-03-02 10:00:00") ⟨1, 0⟩ 50 = []) ∧
    ((∀ e ∈ [entryA, entryB],
        simScore entryB ((parseTs entryB.timestamp).getD ⟨1, 0⟩) e = 0) →
      getSimilarityCandidates [entryA, entryB] entryB ⟨1, 0⟩ 100 = []) :=
  candidate_prefilters_require_positive_score [entryA, entryB] (str "zzz") (str "any")
    (str "none") (str "2024-03-02 10:00:00") ⟨1, 0⟩ 50 entryB 100

/-! ## Toolbox for the serializer/parser round trip -/

theorem dropStart_append (p r : Str) : dropStart p (p ++ r) = some r := by
  induction p with
  | nil => rfl
  | cons c cs ih => simpa [dropStart] using ih

theorem takeWhile_append_of {α} (p : α → Bool) (x r : List α) (hx : ∀ c ∈ x, p c = true) :
    (x ++ r).takeWhile p = x ++ r.takeWhile p := by
  induction x with
  | nil => rfl
  | cons c cs ih =>
    rw [List.cons_append, List.takeWhile_cons_of_pos (hx c (by simp)),
      ih fun c hc => hx c (by simp [hc]), List.cons_append]

theorem dropWhile_append_of {α} (p : α → Bool) (x r : List α) (hx : ∀ c ∈ x, p c = true) :
    (x ++ r).dropWhile p = r.dropWhile p := by
  induction x with
  | nil => rfl
  | cons c cs ih =>
    rw [List.cons_append, List.dropWhile_cons_of_pos (hx c (by simp)),
      ih fun c hc => hx c (by simp [hc])]

/-- `([^s]+)s` on `x ++ s :: r` with `s ∉ x`: group `x`, remainder `r`. -/
theorem takeTo_spec (stop : Char) (x r : Str) (hx : stop ∉ x) (hx0 : x ≠ []) :
    takeTo stop (x ++ stop :: r) = some (x, r) := by
  have hall : ∀ c ∈ x, (c ≠ stop : Bool) = true := by
    intro c hc
    simp only [ne_eq, decide_eq_true_eq]
    exact fun h => hx (h ▸ hc)
  unfold takeTo
  rw [takeWhile_append_of _ x (stop :: r) hall, dropWhile_append_of _ x (stop :: r) hall]
  rw [List.takeWhile_cons_of_neg (by simp), List.dropWhile_cons_of_neg (by simp)]
  simp [hx0]

theorem splitOnChar_single (sep : Char) (x : Str) (hx : sep ∉ x) :
    splitOnChar sep x = [x] := by
  induction x with
  | nil => rfl
  | cons c cs ih =>
    have hc : c ≠ sep := fun h => hx (by simp [h])
    rw [show splitOnChar sep (c :: cs) =
        (if c = sep then [] :: splitOnChar sep cs
         else match splitOnChar sep cs with
           | [] => [[c]]
           | r :: rs => (c :: r) :: rs) from rfl,
      if_neg hc, ih fun h => hx (by simp [h])]

theorem splitOnChar_append_sep (sep : Char) (x r : Str) (hx : sep ∉ x) :
    splitOnChar sep (x ++ sep :: r) = x :: splitOnChar sep r := by
  induction x with
  | nil => simp [splitOnChar]
  | cons c cs ih =>
    have hc : c ≠ sep := fun h => hx (by simp [h])
    rw [List.cons_append,
      show splitOnChar sep (c :: (cs ++ sep :: r)) =
        (if c = sep then [] :: splitOnChar sep (cs ++ sep :: r)
         else match splitOnChar sep (cs ++ sep :: r) with
           | [] => [[c]]
           | p :: ps => (c :: p) :: ps) from rfl,
      if_neg hc, ih fun h => hx (by simp [h])]

theorem splitOnChar_join (sep : Char) (L : List Str) (hL : ∀ l ∈ L, sep ∉ l)
    (h0 : L ≠ []) : splitOnChar sep (joinWith [sep] L) = L := by
  induction L with
  | nil => exact absurd rfl h0
  | cons l ls ih =>
    cases ls with
    | nil => exact splitOnChar_single sep l (hL l (by simp))
    | cons l2 ls2 =>
      rw [show joinWith [sep] (l :: l2 :: ls2) = l ++ sep :: joinWith [sep] (l2 :: ls2)
          by simp [joinWith],
        splitOnChar_append_sep sep l _ (hL l (by simp)),
        ih (fun q hq => hL q (by simp [hq])) (by simp)]

theorem dropWhile_self {α} (p : α → Bool) (l : List α) :
    (l.dropWhile p).dropWhile p = l.dropWhile p := by
  rcases h : l.dropWhile p with _ | ⟨x, xs⟩
  · rfl
  · rw [List.dropWhile_cons_of_neg]
    simp [dropWhile_head_not p l x xs h]

theorem stripWs_idem (s : Str) : stripWs (stripWs s) = stripWs s := by
  unfold stripWs
  set u := s.dropWhile isPySpace with hu
  set w := (u.reverse.dropWhile isPySpace).reverse with hw
  have hwpre : w <+: u := by
    rw [hw]
    have hsuf : u.reverse.dropWhile isPySpace <:+ u.reverse := List.dropWhile_suffix _
    obtain ⟨t, ht⟩ := hsuf
    exact ⟨t.reverse, by rw [← List.reverse_append, ht, List.reverse_reverse]⟩
  have h1 : w.dropWhile isPySpace = w := by
    rcases hwc : w with _ | ⟨x, xs⟩
    · rfl
    · obtain ⟨t, ht⟩ := hwpre
      rw [hwc] at ht
      have hux : u = x :: (xs ++ t) := by rw [← ht]; simp
      have hx : isPySpace x = false := by
        rcases hus : u with _ | ⟨y, ys⟩
        · rw [hus] at hux; cases hux
        · have := dropWhile_head_not isPySpace s y ys (by rw [← hu, hus])
          rw [hus] at hux
          cases hux
          exact this
      rw [List.dropWhile_cons_of_neg (by simp [hx])]
  rw [h1, hw]
  rw [List.reverse_reverse, dropWhile_self]

theorem mem_of_mem_stripWs {s : Str} {c : Char} (hc : c ∈ stripWs s) : c ∈ s := by
  unfold stripWs at hc
  rw [List.mem_reverse] at hc
  have h1 := (List.dropWhile_sublist (l := (s.dropWhile isPySpace).reverse)
    (p := isPySpace)).mem hc
  rw [List.mem_reverse] at h1
  exact (List.dropWhile_sublist (l := s) (p := isPySpace)).mem h1

theorem strippedLines_mem_ne_nil {s : Str} {l : Str} (hl : l ∈ strippedLines s) :
    l ≠ [] := by
  unfold strippedLines at hl
  have := List.of_mem_filter hl
  simpa using this

theorem strippedLines_mem_stripped {s : Str} {l : Str} (hl : l ∈ strippedLines s) :
    stripWs l = l := by
  unfold strippedLines at hl
  have hm := List.mem_filter.mp hl
  obtain ⟨q, _, rfl⟩ := List.mem_map.mp hm.1
  exact stripWs_idem q

theorem splitOnChar_mem_not_sep {sep : Char} {s q : Str}
    (hq : q ∈ splitOnChar sep s) : sep ∉ q := by
  induction s generalizing q with
  | nil =>
    simp [splitOnChar] at hq
    subst hq
    simp
  | cons a as ih =>
    simp only [splitOnChar] at hq
    by_cases ha : a = sep
    · rw [if_pos ha] at hq
      rcases List.mem_cons.mp hq with rfl | hq
      · simp
      · exact ih hq
    · rw [if_neg ha] at hq
      rcases hsp : splitOnChar sep as with _ | ⟨r, rs⟩
      · rw [hsp] at hq
        simp at hq
        subst hq
        intro hc
        rcases List.mem_cons.mp hc with rfl | hc
        · exact ha rfl
        · simp at hc
      · rw [hsp] at hq
        rcases List.mem_cons.mp hq with rfl | hq
        · intro hc
          rcases List.mem_cons.mp hc with rfl | hc
          · exact ha rfl
          · exact ih (by rw [hsp]; simp) hc
        · exact ih (by rw [hsp]; simp [hq])

theorem strippedLines_mem_noNl {s : Str} {l : Str} (hl : l ∈ strippedLines s) :
    '\n' ∉ l := by
  unfold strippedLines at hl
  have hm := List.mem_filter.mp hl
  obtain ⟨q, hq, rfl⟩ := List.mem_map.mp hm.1
  intro hc
  exact splitOnChar_mem_not_sep hq (mem_of_mem_stripWs hc)

/-- Everything after the third `` ` | `` of the head line: the
(possibly linked) title plus the optional tab-group suffix. -/
def titleTail (e : Entry) : Str :=
  (if e.url ≠ [] ∧ validUrlScheme e.url then
      str "[" ++ (e.title?.getD (str "Untitled")) ++ str "](" ++ e.url ++ str ")"
    else e.title?.getD (str "Untitled")) ++
  (match e.tabGroup with
   | none => []
   | some g =>
     if g.groupName ≠ [] then
       str " | `group: " ++ g.groupName ++ str " (" ++ g.groupColor ++ str ")`"
     else if g.groupColor ≠ [] then
       str " | `group: (" ++ g.groupColor ++ str ")`"
     else [])

theorem mainLine_eq (e : Entry) (ty cap : Str) :
    mainLine e ty cap =
      str "- `" ++ (ty ++ ('`' :: (str " | `" ++
        ((e.source?.getD (str "browser")) ++ ('`' :: (str " | `" ++
          (cap ++ ('`' :: (str " | " ++ titleTail e))))))))) := by
  have h1 : ∀ X : Str, (str "` | `" : Str) ++ X = '`' :: (str " | `" ++ X) :=
    fun _ => rfl
  have h2 : ∀ X : Str, (str "` | " : Str) ++ X = '`' :: (str " | " ++ X) :=
    fun _ => rfl
  unfold mainLine titleTail
  rcases e.tabGroup with _ | g
  · simp only [List.append_assoc, List.append_nil, h1, h2, List.cons_append]
  · by_cases hn : g.groupName ≠ [] <;> by_cases hc : g.groupColor ≠ [] <;>
      simp only [hn, hc, if_true, if_false, ite_true, ite_false, ne_eq,
        not_true, not_false_iff, List.append_assoc, List.append_nil, h1, h2,
        List.cons_append]

theorem titleTail_ne_nil (e : Entry)
    (htitle : e.title?.getD (str "Untitled") ≠ []) : titleTail e ≠ [] := by
  unfold titleTail
  by_cases hu : e.url ≠ [] ∧ validUrlScheme e.url
  · rw [if_pos hu]
    simp [str]
  · rw [if_neg hu]
    intro hcon
    exact htitle (List.append_eq_nil.mp hcon).1

theorem newEntryMatch_structured (ty src cap T : Str)
    (hty1 : '`' ∉ ty) (hty0 : ty ≠ []) (hsrc1 : '`' ∉ src) (hsrc0 : src ≠ [])
    (hcap1 : '`' ∉ cap) (hcap0 : cap ≠ []) :
    newEntryMatch (str "- `" ++ (ty ++ ('`' :: (str " | `" ++
        (src ++ ('`' :: (str " | `" ++ (cap ++ ('`' :: (str " | " ++ T)))))))))) =
      match linkedTitle T with
      | some (t, u) => some ⟨ty, src, cap, some (t, u), []⟩
      | none => if T ≠ [] then some ⟨ty, src, cap, none, T⟩ else none := by
  unfold newEntryMatch
  simp only [Option.bind_eq_bind, Option.some_bind, dropStart_append, takeTo_spec,
    hty1, hty0, hsrc1, hsrc0, hcap1, hcap0, ne_eq, not_false_iff]

theorem newEntryMatch_mainLine (e : Entry) (ty cap src : Str)
    (hsrc : e.source? = some src)
    (hty1 : '`' ∉ ty) (hty0 : ty ≠ []) (hsrc1 : '`' ∉ src) (hsrc0 : src ≠ [])
    (hcap1 : '`' ∉ cap) (hcap0 : cap ≠ [])
    (htitle : e.title?.getD (str "Untitled") ≠ []) :
    ∃ h : NewHeader, newEntryMatch (mainLine e ty cap) = some h ∧
      h.type = ty ∧ h.source = src ∧ h.timestamp = cap := by
  rw [mainLine_eq, hsrc, Option.getD_some,
    newEntryMatch_structured ty src cap (titleTail e) hty1 hty0 hsrc1 hsrc0 hcap1 hcap0]
  rcases hlt : linkedTitle (titleTail e) with _ | ⟨t, u⟩
  · rw [if_pos (titleTail_ne_nil e htitle)]
    exact ⟨_, rfl, rfl, rfl, rfl⟩
  · exact ⟨_, rfl, rfl, rfl, rfl⟩

theorem contentStep_header_fields (ce : ParsedEntry) (l : Str) :
    (contentStep ce l).type = ce.type ∧ (contentStep ce l).source = ce.source ∧
    (contentStep ce l).timestamp = ce.timestamp := by
  unfold contentStep contentBranch
  repeat' split
  all_goals simp [apply_ite]

theorem foldl_contentStep_header_fields (B : List Str) (ce : ParsedEntry) :
    (B.foldl contentStep ce).type = ce.type ∧
    (B.foldl contentStep ce).source = ce.source ∧
    (B.foldl contentStep ce).timestamp = ce.timestamp := by
  induction B generalizing ce with
  | nil => exact ⟨rfl, rfl, rfl⟩
  | cons l t ih =>
    obtain ⟨h1, h2, h3⟩ := ih (contentStep ce l)
    obtain ⟨g1, g2, g3⟩ := contentStep_header_fields ce l
    exact ⟨h1.trans g1, h2.trans g2, h3.trans g3⟩

/-- Lines starting with a space are neither new- nor old-format headers. -/
theorem newEntryMatch_space (x : Str) : newEntryMatch (' ' :: x) = none := rfl

theorem oldEntryMatch_space (x : Str) : oldEntryMatch (' ' :: x) = none := rfl

theorem newEntryMatch_nil : newEntryMatch [] = none := rfl

theorem oldEntryMatch_nil : oldEntryMatch [] = none := rfl

/-- Feeding a run of non-header lines into the scan folds them into the
current entry. -/
theorem parseAux_content_chunk (B : List Str)
    (hB : ∀ l ∈ B, newEntryMatch l = none ∧ oldEntryMatch l = none)
    (ce : ParsedEntry) (rest : List Str) :
    parseAux (some ce) (B ++ rest) = parseAux (some (B.foldl contentStep ce)) rest := by
  induction B generalizing ce with
  | nil => rfl
  | cons l t ih =>
    obtain ⟨h1, h2⟩ := hB l (by simp)
    rw [List.cons_append,
      show parseAux (some ce) (l :: (t ++ rest)) =
        (match newEntryMatch l with
         | some h => finishCur (some ce) ++ parseAux (some (entryFromNew h)) (t ++ rest)
         | none =>
           match oldEntryMatch l with
           | some h => finishCur (some ce) ++ parseAux (some (entryFromOld h)) (t ++ rest)
           | none => parseAux (some (contentStep ce l)) (t ++ rest)) from rfl,
      h1, h2]
    exact ih (fun q hq => hB q (by simp [hq])) (contentStep ce l)

/-- Scanning with an open entry yields that entry (possibly fattened by
leading stray content lines) followed by exactly the scan of the rest:
the prepended entry never swallows a later entry and never changes the
parse of the old text. -/
theorem parseAux_some_split (ls : List Str) (ce : ParsedEntry) :
    ∃ ce', parseAux (some ce) ls = ce' :: parseAux none ls ∧
      ce'.type = ce.type ∧ ce'.source = ce.source ∧ ce'.timestamp = ce.timestamp := by
  induction ls generalizing ce with
  | nil => exact ⟨ce, rfl, rfl, rfl, rfl⟩
  | cons l t ih =>
    rcases hn : newEntryMatch l with _ | h
    · rcases ho : oldEntryMatch l with _ | h
      · obtain ⟨ce', hsplit, h1, h2, h3⟩ := ih (contentStep ce l)
        obtain ⟨g1, g2, g3⟩ := contentStep_header_fields ce l
        refine ⟨ce', ?_, h1.trans g1, h2.trans g2, h3.trans g3⟩
        rw [show parseAux (some ce) (l :: t) =
            parseAux (some (contentStep ce l)) t by simp [parseAux, hn, ho],
          show parseAux none (l :: t) = parseAux none t by simp [parseAux, hn, ho]]
        exact hsplit
      · refine ⟨ce, ?_, rfl, rfl, rfl⟩
        rw [show parseAux (some ce) (l :: t) =
            finishCur (some ce) ++ parseAux (some (entryFromOld h)) t by
              simp [parseAux, hn, ho],
          show parseAux none (l :: t) = parseAux (some (entryFromOld h)) t by
            simp [parseAux, hn, ho, finishCur]]
        rfl
    · refine ⟨ce, ?_, rfl, rfl, rfl⟩
      rw [show parseAux (some ce) (l :: t) =
          finishCur (some ce) ++ parseAux (some (entryFromNew h)) t by simp [parseAux, hn],
        show parseAux none (l :: t) = parseAux (some (entryFromNew h)) t by
          simp [parseAux, hn, finishCur]]
      rfl

theorem joinWith_append_nil_elem (sep : Str) (M : List Str) (h0 : M ≠ []) :
    joinWith sep (M ++ [[]]) = joinWith sep M ++ sep := by
  induction M with
  | nil => exact absurd rfl h0
  | cons m ms ih =>
    cases ms with
    | nil => simp [joinWith]
    | cons m2 ms2 =>
      rw [show joinWith sep ((m :: m2 :: ms2) ++ [[]]) =
          m ++ sep ++ joinWith sep ((m2 :: ms2) ++ [[]]) from rfl,
        ih (by simp),
        show joinWith sep (m :: m2 :: ms2) = m ++ sep ++ joinWith sep (m2 :: ms2)
          from rfl]
      simp [List.append_assoc]

theorem splitOnChar_join_append (sep : Char) (M : List Str) (old : Str)
    (hM : ∀ l ∈ M, sep ∉ l) (h0 : M ≠ []) :
    splitOnChar sep (joinWith [sep] M ++ sep :: old) = M ++ splitOnChar sep old := by
  induction M with
  | nil => exact absurd rfl h0
  | cons m ms ih =>
    cases ms with
    | nil =>
      rw [show joinWith [sep] [m] = m from rfl,
        splitOnChar_append_sep sep m old (hM m (by simp))]
      rfl
    | cons m2 ms2 =>
      rw [show joinWith [sep] (m :: m2 :: ms2) = m ++ [sep] ++ joinWith [sep] (m2 :: ms2)
          from rfl]
      rw [List.append_assoc, List.append_assoc,
        show [sep] ++ (joinWith [sep] (m2 :: ms2) ++ sep :: old) =
          sep :: (joinWith [sep] (m2 :: ms2) ++ sep :: old) from rfl,
        splitOnChar_append_sep sep m _ (hM m (by simp)),
        ih (fun q hq => hM q (by simp [hq])) (by simp)]
      rfl

theorem notesLines_space (n : Str) : ∀ l ∈ notesLines n, ∃ x, l = ' ' :: x := by
  intro l hl
  unfold notesLines at hl
  split at hl
  · rcases hsl : strippedLines (stripWs n) with _ | ⟨l0, rest⟩ <;> rw [hsl] at hl
    · simp at hl
    · rcases List.mem_cons.mp hl with rfl | hl
      · exact ⟨_, rfl⟩
      · obtain ⟨q, _, rfl⟩ := List.mem_map.mp hl
        exact ⟨_, rfl⟩
  · simp at hl

theorem pageMetaLines_space (pm : Option PageMeta) :
    ∀ l ∈ pageMetaLines pm, ∃ x, l = ' ' :: x := by
  intro l hl
  rcases pm with _ | m
  · simp [pageMetaLines] at hl
  · unfold pageMetaLines at hl
    simp only [List.mem_append] at hl
    rcases hl with (((hl | hl) | hl) | hl) | hl
    · split at hl <;> simp at hl
      exact ⟨_, by rw [hl]; rfl⟩
    · split at hl <;> simp at hl
      exact ⟨_, by rw [hl]; rfl⟩
    · split at hl <;> simp at hl
      exact ⟨_, by rw [hl]; rfl⟩
    · split at hl <;> simp at hl
      exact ⟨_, by rw [hl]; rfl⟩
    · rcases hrt : m.readingTime with _ | rt
      · rw [hrt] at hl
        simp at hl
      · rw [hrt] at hl
        split at hl <;> simp at hl
        exact ⟨_, by rw [hl.2]; rfl⟩

theorem classificationLines_space (cls : Option Classification) :
    ∀ l ∈ classificationLines cls, ∃ x, l = ' ' :: x := by
  intro l hl
  rcases cls with _ | c
  · simp [classificationLines] at hl
  · unfold classificationLines at hl
    simp only [List.mem_append] at hl
    rcases hl with (hl | hl) | hl <;>
      (split at hl <;> simp at hl) <;>
      exact ⟨_, by rw [hl]; rfl⟩

/-- The serialized entry is its head line, a block of space-indented
lines, and the final empty element. -/
theorem formatLines_shape (e : Entry) (ty cap : Str) (sp fp : Option Str)
    (cls : Option Classification)
    (hty : e.type? = some ty) (hcap : e.captured? = some cap) :
    ∃ B, formatMarkdownEntry e sp fp cls = some (mainLine e ty cap :: (B ++ [[]])) ∧
      ∀ l ∈ B, ∃ x, l = ' ' :: x := by
  refine ⟨(if stripWs e.selectedText ≠ [] then
        (strippedLines (stripWs e.selectedText)).map (fun l => str "  - > " ++ l) else [])
      ++ ((match sp with
           | some p => if p ≠ [] then [str "  - ![Screenshot](" ++ p ++ str ")"] else []
           | none => [])
      ++ ((match fp with
           | some p => if p ≠ [] then [str "  - [Attachment](" ++ p ++ str ")"] else []
           | none => [])
      ++ (notesLines e.notes
      ++ ((if e.parentId ≠ [] then [str "  - ParentId: " ++ e.parentId] else [])
      ++ ((if e.related ≠ [] then [str "  - Related: " ++ e.related] else [])
      ++ ((if e.similar ≠ [] then [str "  - Similar: " ++ e.similar] else [])
      ++ (pageMetaLines e.pageMetadata ++ classificationLines cls))))))), ?_, ?_⟩
  · simp only [formatMarkdownEntry, hty, hcap]
    simp [List.append_assoc]
  · intro l hl
    simp only [List.mem_append] at hl
    rcases hl with hl | hl | hl | hl | hl | hl | hl | hl | hl
    · split at hl
      · obtain ⟨q, _, rfl⟩ := List.mem_map.mp hl
        exact ⟨_, rfl⟩
      · simp at hl
    · rcases sp with _ | p
      · simp at hl
      · split at hl <;> simp at hl
        exact ⟨_, by rw [hl.2]; rfl⟩
    · rcases fp with _ | p
      · simp at hl
      · split at hl <;> simp at hl
        exact ⟨_, by rw [hl.2]; rfl⟩
    · exact notesLines_space e.notes l hl
    · split at hl <;> simp at hl
      exact ⟨_, by rw [hl]; rfl⟩
    · split at hl <;> simp at hl
      exact ⟨_, by rw [hl]; rfl⟩
    · split at hl <;> simp at hl
      exact ⟨_, by rw [hl]; rfl⟩
    · exact pageMetaLines_space e.pageMetadata l hl
    · exact classificationLines_space cls l hl

theorem entryFromNew_fields (h : NewHeader) :
    (entryFromNew h).type = h.type ∧ (entryFromNew h).source = h.source ∧
    (entryFromNew h).timestamp = h.timestamp := by
  unfold entryFromNew
  rcases hl : h.linked with _ | ⟨t, u⟩ <;> simp [hl]

/-- The screenshot side-file path `append_to_kb` computes (host.py
1583-1590). -/
def appendShotPath (e : Entry) (ty cap : Str) : Option Str :=
  if ty = str "screenshot" ∧ e.screenshotData?.isSome then
    some (str "screenshots/screenshot_" ++ tsForFilename cap ++ str ".png")
  else none

/-- The attachment side-file path `append_to_kb` computes (host.py
1592-1599). -/
def appendFilePath (e : Entry) (cap : Str) : Option Str :=
  if e.fileData?.isSome then some (str "files/" ++ saveFileName (e.title?.getD []) cap)
  else none

/-- C6: for a valid entry (required keys present, `title` present when a
file payload is, header fields free of backticks and the serialized
lines free of embedded newlines), the synchronous create call succeeds,
writes exactly the serialized new entry followed by the previous file
content byte-for-byte, and the rewritten store parses as the new entry
(with its type, source and timestamp) followed by exactly the parse of
the old content — newest-first, read order = file order. -/
theorem append_to_kb_prepends (e : Entry) (old : Str) (ty cap src : Str)
    (hty : e.type? = some ty) (hcap : e.captured? = some cap)
    (hsrc : e.source? = some src)
    (hv : validateEntry e = none)
    (hkey : ¬ (e.fileData?.isSome ∧ e.title?.isNone))
    (hty1 : '`' ∉ ty) (hty0 : ty ≠ []) (hsrc1 : '`' ∉ src) (hsrc0 : src ≠ [])
    (hcap1 : '`' ∉ cap) (hcap0 : cap ≠ [])
    (htitle : e.title?.getD (str "Untitled") ≠ [])
    (hnl : ∀ l ∈ (formatMarkdownEntry e (appendShotPath e ty cap)
        (appendFilePath e cap) none).getD [], '\n' ∉ l) :
    (appendToKb e old).ok = true ∧
    (appendToKb e old).file =
      (renderEntry e (appendShotPath e ty cap) (appendFilePath e cap) none).getD []
        ++ old ∧
    ∃ pe, parseKbMarkdown ((appendToKb e old).file) = pe :: parseKbMarkdown old ∧
      pe.type = ty ∧ pe.source = src ∧ pe.timestamp = cap := by
  have happ : appendToKb e old =
      ⟨true, (renderEntry e (appendShotPath e ty cap) (appendFilePath e cap) none).getD []
          ++ old,
        (appendShotPath e ty cap).toList ++ (appendFilePath e cap).toList⟩ := by
    simp only [appendToKb, hv, hty, hcap]
    rw [if_neg hkey]
    rfl
  obtain ⟨B, hfmt, hBspace⟩ := formatLines_shape e ty cap (appendShotPath e ty cap)
    (appendFilePath e cap) none hty hcap
  have hrender : (renderEntry e (appendShotPath e ty cap) (appendFilePath e cap) none).getD []
      = joinWith ['\n'] (mainLine e ty cap :: B) ++ ['\n'] := by
    rw [renderEntry, hfmt, Option.map_some', Option.getD_some,
      show (mainLine e ty cap :: (B ++ [[]])) = (mainLine e ty cap :: B) ++ [[]] from rfl,
      show (str "\n") = ['\n'] from rfl,
      joinWith_append_nil_elem ['\n'] (mainLine e ty cap :: B) (by simp)]
  refine ⟨by rw [happ], by rw [happ], ?_⟩
  have hMnl : ∀ l ∈ mainLine e ty cap :: B, '\n' ∉ l := by
    intro l hl
    refine hnl l ?_
    rw [hfmt, Option.getD_some]
    rcases List.mem_cons.mp hl with rfl | hl
    · simp
    · simp [hl]
  have hlines : splitOnChar '\n' ((appendToKb e old).file) =
      (mainLine e ty cap :: B) ++ splitOnChar '\n' old := by
    rw [happ]
    show splitOnChar '\n'
      ((renderEntry e (appendShotPath e ty cap) (appendFilePath e cap) none).getD []
        ++ old) = _
    rw [hrender, List.append_assoc,
      show (['\n'] : Str) ++ old = '\n' :: old from rfl,
      splitOnChar_join_append '\n' (mainLine e ty cap :: B) old hMnl (by simp)]
  obtain ⟨hdr, hhdr, hh1, hh2, hh3⟩ :=
    newEntryMatch_mainLine e ty cap src hsrc hty1 hty0 hsrc1 hsrc0 hcap1 hcap0 htitle
  have hBnone : ∀ l ∈ B, newEntryMatch l = none ∧ oldEntryMatch l = none := by
    intro l hl
    obtain ⟨x, rfl⟩ := hBspace l hl
    exact ⟨newEntryMatch_space x, oldEntryMatch_space x⟩
  obtain ⟨pe, hsplit, hp1, hp2, hp3⟩ :=
    parseAux_some_split (splitOnChar '\n' old)
      (B.foldl contentStep (entryFromNew hdr))
  refine ⟨pe, ?_, ?_, ?_, ?_⟩
  · rw [parseKbMarkdown, hlines, List.cons_append,
      show parseAux none (mainLine e ty cap :: (B ++ splitOnChar '\n' old)) =
        parseAux (some (entryFromNew hdr)) (B ++ splitOnChar '\n' old) by
          simp [parseAux, hhdr, finishCur],
      parseAux_content_chunk B hBnone (entryFromNew hdr) (splitOnChar '\n' old),
      hsplit]
    rfl
  · rw [hp1, (foldl_contentStep_header_fields B (entryFromNew hdr)).1,
      (entryFromNew_fields hdr).1, hh1]
  · rw [hp2, (foldl_contentStep_header_fields B (entryFromNew hdr)).2.1,
      (entryFromNew_fields hdr).2.1, hh2]
  · rw [hp3, (foldl_contentStep_header_fields B (entryFromNew hdr)).2.2,
      (entryFromNew_fields hdr).2.2, hh3]

/-- A concrete valid note entry for instantiating the prepend theorem. -/
def entryC6 : Entry :=
  { type? := some (str "note"), captured? := some (str "2024-01-03 04:05:06"),
    source? := some (str "widget"), title? := some (str "Hello"), url := [],
    tabGroup := none, selectedText := [], notes := str "some note", parentId := [],
    related := [], similar := [], pageMetadata := none,
    screenshotData? := none, fileData? := none }

def oldC6 : Str := str "- `note` | `w` | `2024-01-01 00:00:00` | Old\n"

/-- C6 witness: the prepend theorem applied to a concrete entry and a
concrete one-entry store. -/
theorem append_to_kb_prepends_witness :
    (appendToKb entryC6 oldC6).ok = true ∧
    (appendToKb entryC6 oldC6).file =
      (renderEntry entryC6 (appendShotPath entryC6 (str "note") (str "2024-01-03 04:05:06"))
        (appendFilePath entryC6 (str "2024-01-03 04:05:06")) none).getD [] ++ oldC6 ∧
    ∃ pe, parseKbMarkdown ((appendToKb entryC6 oldC6).file) = pe :: parseKbMarkdown oldC6 ∧
      pe.type = str "note" ∧ pe.source = str "widget" ∧
      pe.timestamp = str "2024-01-03 04:05:06" :=
  append_to_kb_prepends entryC6 oldC6 (str "note") (str "2024-01-03 04:05:06")
    (str "widget") rfl rfl rfl (by decide) (by decide) (by decide) (by decide)
    (by decide) (by decide) (by decide) (by decide) (by decide) (by decide)

/-! ## C1: the round trip -/

/-- An entry with a populated tab group. -/
def entryTabGroup : Entry :=
  { type? := some (str "note"), captured? := some (str "2024-01-03 04:05:06"),
    source? := some (str "widget"), title? := some (str "My Title"), url := [],
    tabGroup := some ⟨str "work", str "blue"⟩, selectedText := [], notes := [],
    parentId := [], related := [], similar := [], pageMetadata := none,
    screenshotData? := none, fileData? := none }

/-- C1 counterexample: the tab group is a populated field, but the
serializer renders it into the title position of the head line and the
parser's NEW_ENTRY_PATTERN has no group alternative, so the parsed entry
has an empty `group` and a title polluted with the group text — the
round trip does not agree with the entry on the tab-group or title
fields. -/
theorem parse_serialize_loses_tab_group :
    (parseKbMarkdown ((renderEntry entryTabGroup none none none).getD [])).map
        (fun pe => (pe.group, pe.title)) =
      [([], str "My Title | `group: work (blue)`")] := by decide

/-! Evaluation of `contentStep` on each serialized line shape.  The
literal prefixes make the branch chain reduce definitionally; only the
shapes whose regex groups touch symbolic text need separate lemmas. -/

theorem contentStep_blank (ce : ParsedEntry) : contentStep ce [] = ce := rfl

theorem contentStep_selLine (ce : ParsedEntry) (l : Str) :
    contentStep ce (str "  - > " ++ l) =
      { ce with
        inNotes := false
        selectedText :=
          (if ce.selectedText ≠ [] then ce.selectedText ++ ['\n'] else []) ++ l } := rfl

theorem contentStep_notesHead (ce : ParsedEntry) (l0 : Str) :
    contentStep ce (str "  - Notes: " ++ l0) =
      { ce with inNotes := true, content := l0 } := rfl

theorem contentStep_descLine (ce : ParsedEntry) (d : Str) :
    contentStep ce (str "  - Description: " ++ d) =
      { ce with inNotes := false, description := d } := rfl

theorem contentStep_imageLine (ce : ParsedEntry) (d : Str) :
    contentStep ce (str "  - Image: " ++ d) =
      { ce with inNotes := false, ogImage := d } := rfl

theorem contentStep_authorLine (ce : ParsedEntry) (d : Str) :
    contentStep ce (str "  - Author: " ++ d) =
      { ce with inNotes := false, author := d } := rfl

theorem contentStep_publishedLine (ce : ParsedEntry) (d : Str) :
    contentStep ce (str "  - Published: " ++ d) =
      { ce with inNotes := false, publishedDate := d } := rfl

theorem contentStep_entityLine (ce : ParsedEntry) (v : Str) :
    contentStep ce (str "  - Entity: " ++ v) =
      { ce with inNotes := false, entity := v } := rfl

theorem contentStep_topicsLine (ce : ParsedEntry) (v : Str) :
    contentStep ce (str "  - Topics: " ++ v) =
      { ce with inNotes := false, topics := (splitOnChar ',' v).map stripWs } := rfl

theorem contentStep_peopleLine (ce : ParsedEntry) (v : Str) :
    contentStep ce (str "  - People: " ++ v) =
      { ce with inNotes := false, people := (splitOnChar ',' v).map stripWs } := rfl

theorem contentStep_shotLine (ce : ParsedEntry) (p : Str)
    (hp1 : ')' ∉ p) (hp0 : p ≠ []) :
    contentStep ce (str "  - ![Screenshot](" ++ (p ++ str ")")) =
      { ce with inNotes := false, screenshot := p } := by
  have hsm : screenshotMatchAt (str "![Screenshot](" ++ (p ++ str ")")) = some p := by
    unfold screenshotMatchAt
    rw [dropStart_append]
    simp only [Option.bind_eq_bind, Option.some_bind]
    rw [show (p ++ str ")" : Str) = p ++ ')' :: [] from rfl,
      takeTo_spec ')' p [] hp1 hp0]
    rfl
  show contentBranch { ce with inNotes := false } (str "![Screenshot](" ++ (p ++ str ")")) =
    { ce with inNotes := false, screenshot := p }
  unfold contentBranch
  rw [hsm]
  rfl

theorem contentStep_contLine (ce : ParsedEntry) (li : Str)
    (hin : ce.inNotes = true) (hne : li ≠ []) (hhead : li.head? ≠ some '-')
    (hstr : stripWs li = li) (hus : (str "_(").isPrefixOf li = false) :
    contentStep ce (str "    " ++ li) =
      { ce with content := ce.content ++ '\n' :: li } := by
  have hcm : continuationMatch (str "    " ++ li) = some li := by
    unfold continuationMatch
    rw [dropStart_append]
    simp only [Option.bind_eq_bind, Option.some_bind]
    rcases li with _ | ⟨c, li'⟩
    · exact absurd rfl hne
    · have hc : c ≠ '-' := by
        intro h
        exact hhead (by rw [h]; rfl)
      simp [hc]
  unfold contentStep
  rw [hcm]
  simp only [hin, if_true]
  rw [hstr, if_pos ⟨hne, by simp [hus]⟩]
  simp

theorem contentStep_readTimeLine (ce : ParsedEntry) (digits : Str)
    (hd : ∀ c ∈ digits, isAsciiDigit c = true) (hd0 : digits ≠ []) :
    contentStep ce (str "  - ReadTime: " ++ (digits ++ str " min")) =
      { ce with inNotes := false, readingTime := (natFromDigits digits : Int) } := by
  have hds : (digits ++ str " min").takeWhile isAsciiDigit = digits := by
    rw [takeWhile_append_of _ _ _ hd]
    simp [str, isAsciiDigit]
  have hdrop : (digits ++ str " min").drop
      ((digits ++ str " min").takeWhile isAsciiDigit).length = str " min" := by
    rw [hds, List.drop_left]
  show contentBranch { ce with inNotes := false }
      (str "ReadTime: " ++ (digits ++ str " min")) =
    { ce with inNotes := false, readingTime := (natFromDigits digits : Int) }
  unfold contentBranch
  rw [show dropStart (str "ReadTime: ") (str "ReadTime: " ++ (digits ++ str " min")) =
      some (digits ++ str " min") from dropStart_append _ _]
  simp only []
  rw [hdrop, hds]
  rw [if_pos ⟨hd0, by rw [show (str " min" : Str) = str " min" ++ [] by simp]; exact isPrefixOf_append_self _ _⟩]
  rfl

theorem findSome_range_reverse_drop {α} (f : Nat → Option α) (n m : Nat)
    (hmn : m ≤ n) (h : ∀ k, m ≤ k → k < n → f k = none) :
    ((List.range n).reverse).findSome? f = ((List.range m).reverse).findSome? f := by
  induction n with
  | zero =>
    rw [Nat.le_zero.mp hmn]
  | succ n ih =>
    by_cases hm : m = n + 1
    · rw [hm]
    · have hmn' : m ≤ n := by omega
      rw [List.range_succ, List.reverse_append]
      simp only [List.reverse_singleton, List.singleton_append, List.findSome?_cons]
      rw [h n hmn' (by omega)]
      exact ih hmn' (fun k hk1 hk2 => h k hk1 (by omega))

/-- `FILE_PATTERN`'s greedy `.+` on the serialized attachment line: the
only `](` is the literal one, so the capture is exactly the path. -/
theorem fileMatchAfterBracket_spec (p : Str) (hb : ']' ∉ p) (hp1 : ')' ∉ p)
    (hp0 : p ≠ []) :
    fileMatchAfterBracket (str "Attachment](" ++ (p ++ str ")")) = some p := by
  set body := str "Attachment](" ++ (p ++ str ")") with hbody
  have hlen : body.length = p.length + 13 := by
    rw [hbody]
    simp [str]
  have hhigh : ∀ k, 11 ≤ k → k < body.length →
      (if 1 ≤ k ∧ body[k]? = some ']' ∧ body[k + 1]? = some '(' then
        let tail := body.drop (k + 2)
        let q := tail.takeWhile (· ≠ ')')
        if q ≠ [] ∧ (tail.drop q.length).head? = some ')' then some q else none
      else none) = none := by
    intro k hk1 hk2
    rw [if_neg]
    rintro ⟨-, h2, -⟩
    rcases Nat.lt_or_ge k 12 with h12 | h12
    · have hk : k = 11 := by omega
      rw [hk] at h2
      rw [hbody, List.getElem?_append_left (by simp [str])] at h2
      simp [str] at h2
    · rw [hbody, List.getElem?_append_right (by simp [str]; omega)] at h2
      have hoff : k - (str "Attachment](" : Str).length = k - 12 := by simp [str]
      rw [hoff] at h2
      rcases Nat.lt_or_ge (k - 12) p.length with hlt | hge
      · rw [List.getElem?_append_left hlt] at h2
        rw [List.getElem?_eq_getElem hlt] at h2
        exact hb (by rw [show ']' = p[k-12] from (Option.some_inj.mp h2).symm]; exact p.getElem_mem hlt)
      · rw [List.getElem?_append_right hge] at h2
        rcases Nat.lt_or_ge (k - 12 - p.length) 1 with h1 | h1
        · have : k - 12 - p.length = 0 := by omega
          rw [this] at h2
          simp [str] at h2
        · rw [List.getElem?_eq_none (by simp [str]; omega)] at h2
          cases h2
  unfold fileMatchAfterBracket
  rw [findSome_range_reverse_drop _ body.length 11 (by omega) hhigh,
    show (List.range 11).reverse = 10 :: (List.range 10).reverse by
      rw [List.range_succ, List.reverse_append]; rfl,
    List.findSome?_cons]
  have h10a : body[10]? = some ']' := by
    rw [hbody, List.getElem?_append_left (by simp [str])]
    rfl
  have h10b : body[11]? = some '(' := by
    rw [hbody, List.getElem?_append_left (by simp [str])]
    rfl
  have hdrop : body.drop 12 = p ++ str ")" := by
    rw [hbody]
    rfl
  rw [if_pos ⟨by omega, h10a, h10b⟩]
  simp only [hdrop]
  have htw : (p ++ str ")").takeWhile (· ≠ ')') = p := by
    rw [takeWhile_append_of _ p (str ")") (by
      intro c hc
      simp only [ne_eq, decide_eq_true_eq]
      exact fun h => hp1 (h ▸ hc))]
    simp [str]
  rw [htw, show (p ++ str ")" : Str).drop p.length = str ")" from List.drop_left _ _,
    if_pos ⟨hp0, rfl⟩]

theorem contentStep_fileLine (ce : ParsedEntry) (p : Str)
    (hb : ']' ∉ p) (hp1 : ')' ∉ p) (hp0 : p ≠ []) :
    contentStep ce (str "  - [Attachment](" ++ (p ++ str ")")) =
      { ce with inNotes := false, file := p } := by
  have hfs : fileSearch (str "[Attachment](" ++ (p ++ str ")")) = some p := by
    show (if '[' = '[' then
        fileMatchAfterBracket (str "Attachment](" ++ (p ++ str ")")) else none).orElse
      (fun _ => fileSearch (str "Attachment](" ++ (p ++ str ")"))) = some p
    rw [if_pos rfl, fileMatchAfterBracket_spec p hb hp1 hp0]
    rfl
  show contentBranch { ce with inNotes := false } (str "[Attachment](" ++ (p ++ str ")")) =
    { ce with inNotes := false, file := p }
  unfold contentBranch
  rw [hfs]
  rfl

/-- The `entry['selectedText'] += ...` accumulation over `> ` lines. -/
def selAccum (acc : Str) (sl : List Str) : Str :=
  sl.foldl (fun a l => (if a ≠ [] then a ++ ['\n'] else []) ++ l) acc

theorem selAccum_of_ne (sl : List Str) (a : Str) (ha : a ≠ []) :
    selAccum a sl = joinWith ['\n'] (a :: sl) := by
  induction sl generalizing a with
  | nil => rfl
  | cons l ls ih =>
    rw [show selAccum a (l :: ls) = selAccum ((if a ≠ [] then a ++ ['\n'] else []) ++ l) ls
        from rfl,
      if_pos ha, ih (a ++ ['\n'] ++ l) (by simp)]
    cases ls with
    | nil => simp [joinWith]
    | cons l2 ls2 =>
      rw [show joinWith ['\n'] ((a ++ ['\n'] ++ l) :: l2 :: ls2) =
          (a ++ ['\n'] ++ l) ++ ['\n'] ++ joinWith ['\n'] (l2 :: ls2) from rfl,
        show joinWith ['\n'] (a :: l :: l2 :: ls2) =
          a ++ ['\n'] ++ joinWith ['\n'] (l :: l2 :: ls2) from rfl,
        show joinWith ['\n'] (l :: l2 :: ls2) = l ++ ['\n'] ++ joinWith ['\n'] (l2 :: ls2)
          from rfl]
      simp [List.append_assoc]

theorem selAccum_nil (sl : List Str) (hsl : ∀ l ∈ sl, l ≠ []) :
    selAccum [] sl = joinWith ['\n'] sl := by
  cases sl with
  | nil => rfl
  | cons l ls =>
    rw [show selAccum [] (l :: ls) = selAccum l ls by simp [selAccum],
      selAccum_of_ne ls l (hsl l (by simp))]

theorem foldl_selChunk (sl : List Str) (ce : ParsedEntry) :
    ∃ b, (sl.map (fun l => str "  - > " ++ l)).foldl contentStep ce =
      { ce with selectedText := selAccum ce.selectedText sl, inNotes := b } := by
  induction sl generalizing ce with
  | nil => exact ⟨ce.inNotes, by rfl⟩
  | cons l ls ih =>
    rw [List.map_cons, List.foldl_cons, contentStep_selLine]
    obtain ⟨b, hb⟩ := ih { ce with
      inNotes := false
      selectedText := (if ce.selectedText ≠ [] then ce.selectedText ++ ['\n'] else []) ++ l }
    exact ⟨b, by rw [hb]; rfl⟩

theorem foldl_notesCont (ls : List Str) (ce : ParsedEntry) (hin : ce.inNotes = true)
    (hls : ∀ l ∈ ls, l ≠ [] ∧ l.head? ≠ some '-' ∧ stripWs l = l ∧
      (str "_(").isPrefixOf l = false) :
    (ls.map (fun l => str "    " ++ l)).foldl contentStep ce =
      { ce with content := ce.content ++ (ls.map ('\n' :: ·)).flatten } := by
  induction ls generalizing ce with
  | nil => simp
  | cons l ls ih =>
    obtain ⟨h1, h2, h3, h4⟩ := hls l (by simp)
    rw [List.map_cons, List.foldl_cons, contentStep_contLine ce l hin h1 h2 h3 h4,
      ih _ (by exact hin) (fun q hq => hls q (by simp [hq]))]
    simp [List.append_assoc]

theorem joinWith_eq_flatten (l0 : Str) (rest : List Str) :
    joinWith ['\n'] (l0 :: rest) = l0 ++ (rest.map ('\n' :: ·)).flatten := by
  induction rest generalizing l0 with
  | nil => simp [joinWith]
  | cons l2 ls ih =>
    rw [show joinWith ['\n'] (l0 :: l2 :: ls) = l0 ++ ['\n'] ++ joinWith ['\n'] (l2 :: ls)
        from rfl,
      ih l2]
    simp [List.append_assoc]

theorem splitOnChar_ne_nil (sep : Char) (s : Str) : splitOnChar sep s ≠ [] := by
  induction s with
  | nil => simp [splitOnChar]
  | cons c cs ih =>
    by_cases hc : c = sep
    · simp [splitOnChar, hc]
    · rcases hsp : splitOnChar sep cs with _ | ⟨r, rs⟩
      · exact absurd hsp ih
      · simp [splitOnChar, hc, hsp]

theorem stripWs_cons_space (s : Str) : stripWs (' ' :: s) = stripWs s := by
  unfold stripWs
  rw [List.dropWhile_cons_of_pos (by simp [isPySpace])]

theorem split_join_topics (ts : List Str)
    (h : ∀ t ∈ ts, ',' ∉ t ∧ stripWs t = t) (h0 : ts ≠ []) :
    (splitOnChar ',' (joinWith (str ", ") ts)).map stripWs = ts := by
  induction ts with
  | nil => exact absurd rfl h0
  | cons t tl ih =>
    cases tl with
    | nil =>
      rw [show joinWith (str ", ") [t] = t from rfl,
        splitOnChar_single ',' t (h t (by simp)).1]
      simp [(h t (by simp)).2]
    | cons t2 tl2 =>
      rw [show joinWith (str ", ") (t :: t2 :: tl2) =
          t ++ ',' :: (' ' :: joinWith (str ", ") (t2 :: tl2)) by simp [joinWith, str],
        splitOnChar_append_sep ',' t _ (h t (by simp)).1]
      rcases hsp : splitOnChar ',' (joinWith (str ", ") (t2 :: tl2)) with _ | ⟨r, rs⟩
      · exact absurd hsp (splitOnChar_ne_nil _ _)
      · have hihs := ih (fun q hq => h q (by simp [hq])) (by simp)
        rw [hsp] at hihs
        rw [show splitOnChar ',' (' ' :: joinWith (str ", ") (t2 :: tl2)) =
            (' ' :: r) :: rs by simp [splitOnChar, hsp]]
        rw [List.map_cons, List.map_cons, stripWs_cons_space, (h t (by simp)).2]
        rw [List.map_cons] at hihs
        rw [show (stripWs r :: rs.map stripWs : List Str) = stripWs r :: rs.map stripWs
            from rfl] at hihs
        exact congrArg (t :: ·) hihs

/-! Named chunks of `format_markdown_entry`'s line list. -/

def selChunk (s : Str) : List Str :=
  if stripWs s ≠ [] then (strippedLines (stripWs s)).map (fun l => str "  - > " ++ l)
  else []

def shotChunk : Option Str → List Str
  | some p => if p ≠ [] then [str "  - ![Screenshot](" ++ p ++ str ")"] else []
  | none => []

def fileChunk : Option Str → List Str
  | some p => if p ≠ [] then [str "  - [Attachment](" ++ p ++ str ")"] else []
  | none => []

def optLineChunk (pre v : Str) : List Str := if v ≠ [] then [pre ++ v] else []

theorem formatMarkdownEntry_chunks (e : Entry) (sp fp : Option Str)
    (cls : Option Classification) (ty cap : Str)
    (hty : e.type? = some ty) (hcap : e.captured? = some cap) :
    formatMarkdownEntry e sp fp cls =
      some (mainLine e ty cap ::
        (selChunk e.selectedText ++ (shotChunk sp ++ (fileChunk fp ++
          (notesLines e.notes ++ (optLineChunk (str "  - ParentId: ") e.parentId ++
            (optLineChunk (str "  - Related: ") e.related ++
              (optLineChunk (str "  - Similar: ") e.similar ++
                (pageMetaLines e.pageMetadata ++
                  (classificationLines cls ++ [[]])))))))))) := by
  simp only [formatMarkdownEntry, hty, hcap]
  rcases sp with _ | p <;> rcases fp with _ | q <;>
    simp [selChunk, shotChunk, fileChunk, optLineChunk, List.append_assoc]

/-! Folding each chunk into the open entry.  Each lemma has a
branch-free right-hand side: when the chunk is empty the well-formed
field value is itself empty, so one record covers both cases; the
scratch `inNotes` value is threaded existentially. -/

theorem foldl_selPiece (s : Str) (ce : ParsedEntry)
    (h0 : ce.selectedText = [])
    (hcanon : s = joinWith ['\n'] (strippedLines (stripWs s))) :
    ∃ b, (selChunk s).foldl contentStep ce =
      { ce with selectedText := s, inNotes := b } := by
  unfold selChunk
  by_cases h : stripWs s ≠ []
  · rw [if_pos h]
    obtain ⟨b, hb⟩ := foldl_selChunk (strippedLines (stripWs s)) ce
    refine ⟨b, ?_⟩
    rw [hb, h0, selAccum_nil _ (fun l hl => strippedLines_mem_ne_nil hl), ← hcanon]
  · rw [if_neg h]
    push_neg at h
    have hs : s = [] := by
      rw [hcanon, h]
      rfl
    exact ⟨ce.inNotes, by rw [show s = ce.selectedText by rw [hs, h0]]; rfl⟩

theorem foldl_shotPiece (sp : Option Str) (ce : ParsedEntry)
    (hce : ce.screenshot = [])
    (hsp : ∀ p, sp = some p → ')' ∉ p) :
    ∃ b, (shotChunk sp).foldl contentStep ce =
      { ce with screenshot := sp.getD [], inNotes := b } := by
  rcases sp with _ | p
  · refine ⟨ce.inNotes, ?_⟩
    rw [show (none : Option Str).getD [] = ce.screenshot by rw [hce]; rfl]
    rfl
  · by_cases h : p ≠ []
    · refine ⟨false, ?_⟩
      rw [show shotChunk (some p) =
          if p ≠ [] then [str "  - ![Screenshot](" ++ p ++ str ")"] else [] from rfl,
        if_pos h,
        show (str "  - ![Screenshot](" ++ p ++ str ")" : Str) =
          str "  - ![Screenshot](" ++ (p ++ str ")") by simp [List.append_assoc],
        List.foldl_cons, List.foldl_nil, contentStep_shotLine ce p (hsp p rfl) h]
      rfl
    · refine ⟨ce.inNotes, ?_⟩
      push_neg at h
      rw [show shotChunk (some p) =
          if p ≠ [] then [str "  - ![Screenshot](" ++ p ++ str ")"] else [] from rfl,
        if_neg (by simp [h]),
        show (some p).getD [] = ce.screenshot by rw [hce, h]; rfl]
      rfl

theorem foldl_filePiece (fp : Option Str) (ce : ParsedEntry)
    (hce : ce.file = [])
    (hfp : ∀ p, fp = some p → ']' ∉ p ∧ ')' ∉ p) :
    ∃ b, (fileChunk fp).foldl contentStep ce =
      { ce with file := fp.getD [], inNotes := b } := by
  rcases fp with _ | p
  · refine ⟨ce.inNotes, ?_⟩
    rw [show (none : Option Str).getD [] = ce.file by rw [hce]; rfl]
    rfl
  · by_cases h : p ≠ []
    · refine ⟨false, ?_⟩
      rw [show fileChunk (some p) =
          if p ≠ [] then [str "  - [Attachment](" ++ p ++ str ")"] else [] from rfl,
        if_pos h,
        show (str "  - [Attachment](" ++ p ++ str ")" : Str) =
          str "  - [Attachment](" ++ (p ++ str ")") by simp [List.append_assoc],
        List.foldl_cons, List.foldl_nil,
        contentStep_fileLine ce p (hfp p rfl).1 (hfp p rfl).2 h]
      rfl
    · refine ⟨ce.inNotes, ?_⟩
      push_neg at h
      rw [show fileChunk (some p) =
          if p ≠ [] then [str "  - [Attachment](" ++ p ++ str ")"] else [] from rfl,
        if_neg (by simp [h]),
        show (some p).getD [] = ce.file by rw [hce, h]; rfl]
      rfl

theorem foldl_notesPiece (s : Str) (ce : ParsedEntry)
    (hce : ce.content = [])
    (hcanon : s = joinWith ['\n'] (strippedLines (stripWs s)))
    (htail : ∀ l ∈ (strippedLines (stripWs s)).tail,
      l.head? ≠ some '-' ∧ (str "_(").isPrefixOf l = false) :
    ∃ b, (notesLines s).foldl contentStep ce =
      { ce with content := s, inNotes := b } := by
  unfold notesLines
  by_cases h : stripWs s ≠ []
  · rw [if_pos h]
    rcases hsl : strippedLines (stripWs s) with _ | ⟨l0, rest⟩
    · have hs : s = [] := by rw [hcanon, hsl]; rfl
      exact ⟨ce.inNotes, by rw [show s = ce.content by rw [hs, hce]]; rfl⟩
    · refine ⟨true, ?_⟩
      rw [List.foldl_cons, contentStep_notesHead,
        foldl_notesCont rest _ rfl (fun l hl => by
          have hmem : l ∈ strippedLines (stripWs s) := by rw [hsl]; simp [hl]
          exact ⟨strippedLines_mem_ne_nil hmem,
            (htail l (by rw [hsl]; exact hl)).1,
            strippedLines_mem_stripped hmem,
            (htail l (by rw [hsl]; exact hl)).2⟩)]
      have hproj : ({ ce with inNotes := true, content := l0 } : ParsedEntry).content = l0 :=
        rfl
      rw [hproj, show l0 ++ (rest.map ('\n' :: ·)).flatten = s by
        rw [hcanon, hsl, joinWith_eq_flatten]]
  · rw [if_neg h]
    push_neg at h
    have hs : s = [] := by rw [hcanon, h]; rfl
    exact ⟨ce.inNotes, by rw [show s = ce.content by rw [hs, hce]]; rfl⟩

theorem foldl_descPiece (m : PageMeta) (ce : ParsedEntry)
    (hce : ce.description = [])
    (hwf1 : stripWs m.description = m.description)
    (hwf2 : m.description.length ≤ 200) :
    ∃ b, ((if stripWs m.description ≠ [] then
        [str "  - Description: " ++
          (if (stripWs m.description).length > 200 then
            (stripWs m.description).take 197 ++ str "..." else stripWs m.description)]
      else []).foldl contentStep ce) =
      { ce with description := m.description, inNotes := b } := by
  by_cases h : stripWs m.description ≠ []
  · refine ⟨false, ?_⟩
    rw [if_pos h, if_neg (by rw [hwf1]; omega),
      List.foldl_cons, List.foldl_nil, contentStep_descLine, hwf1]
  · refine ⟨ce.inNotes, ?_⟩
    push_neg at h
    rw [if_neg (by simp [h]),
      show m.description = ce.description by rw [← hwf1, h, hce]]
    rfl

theorem foldl_ogPiece (m : PageMeta) (ce : ParsedEntry)
    (hce : ce.ogImage = []) (hwf1 : stripWs m.ogImage = m.ogImage) :
    ∃ b, ((if stripWs m.ogImage ≠ [] then [str "  - Image: " ++ stripWs m.ogImage]
      else []).foldl contentStep ce) =
      { ce with ogImage := m.ogImage, inNotes := b } := by
  by_cases h : stripWs m.ogImage ≠ []
  · refine ⟨false, ?_⟩
    rw [if_pos h, List.foldl_cons, List.foldl_nil, contentStep_imageLine, hwf1]
  · refine ⟨ce.inNotes, ?_⟩
    push_neg at h
    rw [if_neg (by simp [h]), show m.ogImage = ce.ogImage by rw [← hwf1, h, hce]]
    rfl

theorem foldl_authorPiece (m : PageMeta) (ce : ParsedEntry)
    (hce : ce.author = []) (hwf1 : stripWs m.author = m.author) :
    ∃ b, ((if stripWs m.author ≠ [] then [str "  - Author: " ++ stripWs m.author]
      else []).foldl contentStep ce) =
      { ce with author := m.author, inNotes := b } := by
  by_cases h : stripWs m.author ≠ []
  · refine ⟨false, ?_⟩
    rw [if_pos h, List.foldl_cons, List.foldl_nil, contentStep_authorLine, hwf1]
  · refine ⟨ce.inNotes, ?_⟩
    push_neg at h
    rw [if_neg (by simp [h]), show m.author = ce.author by rw [← hwf1, h, hce]]
    rfl

theorem foldl_pubPiece (m : PageMeta) (ce : ParsedEntry)
    (hce : ce.publishedDate = []) (hwf1 : stripWs m.publishedDate = m.publishedDate) :
    ∃ b, ((if stripWs m.publishedDate ≠ [] then
        [str "  - Published: " ++ stripWs m.publishedDate] else []).foldl contentStep ce) =
      { ce with publishedDate := m.publishedDate, inNotes := b } := by
  by_cases h : stripWs m.publishedDate ≠ []
  · refine ⟨false, ?_⟩
    rw [if_pos h, List.foldl_cons, List.foldl_nil, contentStep_publishedLine, hwf1]
  · refine ⟨ce.inNotes, ?_⟩
    push_neg at h
    rw [if_neg (by simp [h]),
      show m.publishedDate = ce.publishedDate by rw [← hwf1, h, hce]]
    rfl

theorem foldl_rtPiece (m : PageMeta) (ce : ParsedEntry)
    (hce : ce.readingTime = 0)
    (hwf : ∀ rt, m.readingTime = some rt → 0 < rt ∧ str (toString rt) ≠ [] ∧
      (∀ c ∈ str (toString rt), isAsciiDigit c = true) ∧
      (natFromDigits (str (toString rt)) : Int) = rt) :
    ∃ b, ((match m.readingTime with
        | some rt => if rt ≠ 0 ∧ 0 < rt then
            [str "  - ReadTime: " ++ str (toString rt) ++ str " min"] else []
        | none => []).foldl contentStep ce) =
      { ce with readingTime := m.readingTime.getD 0, inNotes := b } := by
  rcases hrt : m.readingTime with _ | rt
  · refine ⟨ce.inNotes, ?_⟩
    rw [show ((none : Option Int).getD 0 : Int) = ce.readingTime by rw [hce]; rfl]
    rfl
  · obtain ⟨hpos, hne, hdig, hval⟩ := hwf rt hrt
    refine ⟨false, ?_⟩
    rw [show (match some rt with
        | some r => if r ≠ 0 ∧ 0 < r then
            [str "  - ReadTime: " ++ str (toString r) ++ str " min"] else []
        | none => ([] : List Str)) =
        (if rt ≠ 0 ∧ 0 < rt then
          [str "  - ReadTime: " ++ str (toString rt) ++ str " min"] else []) from rfl,
      if_pos ⟨by omega, hpos⟩,
      show (str "  - ReadTime: " ++ str (toString rt) ++ str " min" : Str) =
        str "  - ReadTime: " ++ (str (toString rt) ++ str " min") by
          simp [List.append_assoc],
      List.foldl_cons, List.foldl_nil,
      contentStep_readTimeLine ce (str (toString rt)) hdig hne, hval]
    rfl

theorem foldl_pmPiece (pm : Option PageMeta) (ce : ParsedEntry)
    (h1 : ce.description = []) (h2 : ce.ogImage = []) (h3 : ce.author = [])
    (h4 : ce.publishedDate = []) (h5 : ce.readingTime = 0)
    (hwf : ∀ m, pm = some m →
      (stripWs m.description = m.description ∧ m.description.length ≤ 200) ∧
      stripWs m.ogImage = m.ogImage ∧ stripWs m.author = m.author ∧
      stripWs m.publishedDate = m.publishedDate ∧
      (∀ rt, m.readingTime = some rt → 0 < rt ∧ str (toString rt) ≠ [] ∧
        (∀ c ∈ str (toString rt), isAsciiDigit c = true) ∧
        (natFromDigits (str (toString rt)) : Int) = rt)) :
    ∃ b, (pageMetaLines pm).foldl contentStep ce =
      { ce with
        description := (pm.map PageMeta.description).getD []
        ogImage := (pm.map PageMeta.ogImage).getD []
        author := (pm.map PageMeta.author).getD []
        publishedDate := (pm.map PageMeta.publishedDate).getD []
        readingTime := ((pm.bind PageMeta.readingTime).getD 0 : Int)
        inNotes := b } := by
  rcases pm with _ | m
  · refine ⟨ce.inNotes, ?_⟩
    rw [show ((none : Option PageMeta).map PageMeta.description).getD [] = ce.description
        by rw [h1]; rfl,
      show ((none : Option PageMeta).map PageMeta.ogImage).getD [] = ce.ogImage
        by rw [h2]; rfl,
      show ((none : Option PageMeta).map PageMeta.author).getD [] = ce.author
        by rw [h3]; rfl,
      show ((none : Option PageMeta).map PageMeta.publishedDate).getD [] = ce.publishedDate
        by rw [h4]; rfl,
      show (((none : Option PageMeta).bind PageMeta.readingTime).getD 0 : Int) =
          ce.readingTime by rw [h5]; rfl]
    rfl
  · obtain ⟨⟨hwf1a, hwf1b⟩, hwf2, hwf3, hwf4, hwf5⟩ := hwf m rfl
    rw [show pageMetaLines (some m) =
        ((((if stripWs m.description ≠ [] then
            [str "  - Description: " ++
              (if (stripWs m.description).length > 200 then
                (stripWs m.description).take 197 ++ str "..." else stripWs m.description)]
          else [])
        ++ (if stripWs m.ogImage ≠ [] then [str "  - Image: " ++ stripWs m.ogImage] else []))
        ++ (if stripWs m.author ≠ [] then [str "  - Author: " ++ stripWs m.author] else []))
        ++ (if stripWs m.publishedDate ≠ [] then
            [str "  - Published: " ++ stripWs m.publishedDate] else []))
        ++ (match m.readingTime with
            | some rt => if rt ≠ 0 ∧ 0 < rt then
                [str "  - ReadTime: " ++ str (toString rt) ++ str " min"] else []
            | none => []) from rfl,
      List.foldl_append, List.foldl_append, List.foldl_append, List.foldl_append]
    obtain ⟨b1, hb1⟩ := foldl_descPiece m ce h1 hwf1a hwf1b
    rw [hb1]
    obtain ⟨b2, hb2⟩ := foldl_ogPiece m
      { ce with description := m.description, inNotes := b1 } h2 hwf2
    rw [hb2]
    obtain ⟨b3, hb3⟩ := foldl_authorPiece m
      { ce with
        description := m.description
        ogImage := m.ogImage
        inNotes := b2 } h3 hwf3
    rw [hb3]
    obtain ⟨b4, hb4⟩ := foldl_pubPiece m
      { ce with
        description := m.description
        ogImage := m.ogImage
        author := m.author
        inNotes := b3 } h4 hwf4
    rw [hb4]
    obtain ⟨b5, hb5⟩ := foldl_rtPiece m
      { ce with
        description := m.description
        ogImage := m.ogImage
        author := m.author
        publishedDate := m.publishedDate
        inNotes := b4 } h5 hwf5
    rw [hb5]
    exact ⟨b5, rfl⟩

theorem foldl_entityPiece (c : Classification) (ce : ParsedEntry)
    (hce : ce.entity = []) :
    ∃ b, ((if c.entity ≠ [] then [str "  - Entity: " ++ c.entity] else []).foldl
        contentStep ce) =
      { ce with entity := c.entity, inNotes := b } := by
  by_cases h : c.entity ≠ []
  · refine ⟨false, ?_⟩
    rw [if_pos h, List.foldl_cons, List.foldl_nil, contentStep_entityLine]
  · refine ⟨ce.inNotes, ?_⟩
    push_neg at h
    rw [if_neg (by simp [h]), show c.entity = ce.entity by rw [h, hce]]
    rfl

theorem foldl_topicsPiece (c : Classification) (ce : ParsedEntry)
    (hce : ce.topics = [])
    (hwf : ∀ t ∈ c.topics, ',' ∉ t ∧ stripWs t = t) :
    ∃ b, ((if c.topics ≠ [] then
        [str "  - Topics: " ++ joinWith (str ", ") c.topics] else []).foldl
        contentStep ce) =
      { ce with topics := c.topics, inNotes := b } := by
  by_cases h : c.topics ≠ []
  · refine ⟨false, ?_⟩
    rw [if_pos h, List.foldl_cons, List.foldl_nil, contentStep_topicsLine,
      split_join_topics c.topics hwf h]
  · refine ⟨ce.inNotes, ?_⟩
    push_neg at h
    rw [if_neg (by simp [h]), show c.topics = ce.topics by rw [h, hce]]
    rfl

theorem foldl_peoplePiece (c : Classification) (ce : ParsedEntry)
    (hce : ce.people = [])
    (hwf : ∀ t ∈ c.people, ',' ∉ t ∧ stripWs t = t) :
    ∃ b, ((if c.people ≠ [] then
        [str "  - People: " ++ joinWith (str ", ") c.people] else []).foldl
        contentStep ce) =
      { ce with people := c.people, inNotes := b } := by
  by_cases h : c.people ≠ []
  · refine ⟨false, ?_⟩
    rw [if_pos h, List.foldl_cons, List.foldl_nil, contentStep_peopleLine,
      split_join_topics c.people hwf h]
  · refine ⟨ce.inNotes, ?_⟩
    push_neg at h
    rw [if_neg (by simp [h]), show c.people = ce.people by rw [h, hce]]
    rfl

theorem foldl_clsPiece (cls : Option Classification) (ce : ParsedEntry)
    (h1 : ce.entity = []) (h2 : ce.topics = []) (h3 : ce.people = [])
    (hwf : ∀ c, cls = some c →
      (∀ t ∈ c.topics, ',' ∉ t ∧ stripWs t = t) ∧
      (∀ t ∈ c.people, ',' ∉ t ∧ stripWs t = t)) :
    ∃ b, (classificationLines cls).foldl contentStep ce =
      { ce with
        entity := (cls.map Classification.entity).getD []
        topics := (cls.map Classification.topics).getD []
        people := (cls.map Classification.people).getD []
        inNotes := b } := by
  rcases cls with _ | c
  · refine ⟨ce.inNotes, ?_⟩
    rw [show ((none : Option Classification).map Classification.entity).getD [] = ce.entity
        by rw [h1]; rfl,
      show ((none : Option Classification).map Classification.topics).getD [] = ce.topics
        by rw [h2]; rfl,
      show ((none : Option Classification).map Classification.people).getD [] = ce.people
        by rw [h3]; rfl]
    rfl
  · obtain ⟨hwft, hwfp⟩ := hwf c rfl
    rw [show classificationLines (some c) =
        ((if c.entity ≠ [] then [str "  - Entity: " ++ c.entity] else [])
        ++ (if c.topics ≠ [] then
            [str "  - Topics: " ++ joinWith (str ", ") c.topics] else []))
        ++ (if c.people ≠ [] then
            [str "  - People: " ++ joinWith (str ", ") c.people] else []) from rfl,
      List.foldl_append, List.foldl_append]
    obtain ⟨b1, hb1⟩ := foldl_entityPiece c ce h1
    rw [hb1]
    obtain ⟨b2, hb2⟩ := foldl_topicsPiece c
      { ce with entity := c.entity, inNotes := b1 } h2 hwft
    rw [hb2]
    obtain ⟨b3, hb3⟩ := foldl_peoplePiece c
      { ce with
        entity := c.entity
        topics := c.topics
        inNotes := b2 } h3 hwfp
    rw [hb3]
    exact ⟨b3, rfl⟩

theorem optLineChunk_nil (pre : Str) : optLineChunk pre [] = [] := rfl

theorem foldl_bodyChunks (e : Entry) (sp fp : Option Str) (cls : Option Classification)
    (ce : ParsedEntry)
    (hsel0 : ce.selectedText = []) (hcon0 : ce.content = [])
    (hshot0 : ce.screenshot = []) (hfile0 : ce.file = [])
    (hdesc0 : ce.description = []) (hog0 : ce.ogImage = [])
    (hau0 : ce.author = []) (hpub0 : ce.publishedDate = []) (hrt0 : ce.readingTime = 0)
    (hent0 : ce.entity = []) (htop0 : ce.topics = []) (hpeo0 : ce.people = [])
    (hsel : e.selectedText = joinWith ['\n'] (strippedLines (stripWs e.selectedText)))
    (hnts : e.notes = joinWith ['\n'] (strippedLines (stripWs e.notes)))
    (hntc : ∀ l ∈ (strippedLines (stripWs e.notes)).tail,
      l.head? ≠ some '-' ∧ (str "_(").isPrefixOf l = false)
    (hpid : e.parentId = []) (hrel : e.related = []) (hsim : e.similar = [])
    (hsp : ∀ p, sp = some p → ')' ∉ p)
    (hfp : ∀ p, fp = some p → ']' ∉ p ∧ ')' ∉ p)
    (hpm : ∀ m, e.pageMetadata = some m →
      (stripWs m.description = m.description ∧ m.description.length ≤ 200) ∧
      stripWs m.ogImage = m.ogImage ∧ stripWs m.author = m.author ∧
      stripWs m.publishedDate = m.publishedDate ∧
      (∀ rt, m.readingTime = some rt → 0 < rt ∧ str (toString rt) ≠ [] ∧
        (∀ c ∈ str (toString rt), isAsciiDigit c = true) ∧
        (natFromDigits (str (toString rt)) : Int) = rt))
    (hcls : ∀ c, cls = some c →
      (∀ t ∈ c.topics, ',' ∉ t ∧ stripWs t = t) ∧
      (∀ t ∈ c.people, ',' ∉ t ∧ stripWs t = t)) :
    ∃ b, (selChunk e.selectedText ++ (shotChunk sp ++ (fileChunk fp ++
        (notesLines e.notes ++ (optLineChunk (str "  - ParentId: ") e.parentId ++
          (optLineChunk (str "  - Related: ") e.related ++
            (optLineChunk (str "  - Similar: ") e.similar ++
              (pageMetaLines e.pageMetadata ++
                (classificationLines cls ++ [[]]))))))))).foldl contentStep ce =
      { ce with
        selectedText := e.selectedText
        content := e.notes
        screenshot := sp.getD []
        file := fp.getD []
        description := (e.pageMetadata.map PageMeta.description).getD []
        ogImage := (e.pageMetadata.map PageMeta.ogImage).getD []
        author := (e.pageMetadata.map PageMeta.author).getD []
        publishedDate := (e.pageMetadata.map PageMeta.publishedDate).getD []
        readingTime := ((e.pageMetadata.bind PageMeta.readingTime).getD 0 : Int)
        entity := (cls.map Classification.entity).getD []
        topics := (cls.map Classification.topics).getD []
        people := (cls.map Classification.people).getD []
        inNotes := b } := by
  simp only [hpid, hrel, hsim, optLineChunk_nil, List.nil_append]
  rw [List.foldl_append]
  obtain ⟨b1, hb1⟩ := foldl_selPiece e.selectedText ce hsel0 hsel
  rw [hb1, List.foldl_append]
  obtain ⟨b2, hb2⟩ := foldl_shotPiece sp
    { ce with selectedText := e.selectedText, inNotes := b1 } hshot0 hsp
  rw [hb2, List.foldl_append]
  obtain ⟨b3, hb3⟩ := foldl_filePiece fp
    { ce with
      selectedText := e.selectedText
      screenshot := sp.getD []
      inNotes := b2 } hfile0 hfp
  rw [hb3, List.foldl_append]
  obtain ⟨b4, hb4⟩ := foldl_notesPiece e.notes
    { ce with
      selectedText := e.selectedText
      screenshot := sp.getD []
      file := fp.getD []
      inNotes := b3 } hcon0 hnts hntc
  rw [hb4, List.foldl_append]
  obtain ⟨b5, hb5⟩ := foldl_pmPiece e.pageMetadata
    { ce with
      selectedText := e.selectedText
      screenshot := sp.getD []
      file := fp.getD []
      content := e.notes
      inNotes := b4 } hdesc0 hog0 hau0 hpub0 hrt0 hpm
  rw [hb5, List.foldl_append]
  obtain ⟨b6, hb6⟩ := foldl_clsPiece cls
    { ce with
      selectedText := e.selectedText
      screenshot := sp.getD []
      file := fp.getD []
      content := e.notes
      description := (e.pageMetadata.map PageMeta.description).getD []
      ogImage := (e.pageMetadata.map PageMeta.ogImage).getD []
      author := (e.pageMetadata.map PageMeta.author).getD []
      publishedDate := (e.pageMetadata.map PageMeta.publishedDate).getD []
      readingTime := ((e.pageMetadata.bind PageMeta.readingTime).getD 0 : Int)
      inNotes := b5 } hent0 htop0 hpeo0 hcls
  rw [hb6, List.foldl_cons, List.foldl_nil, contentStep_blank]
  exact ⟨b6, rfl⟩

theorem selChunk_space (s : Str) : ∀ l ∈ selChunk s, ∃ x, l = ' ' :: x := by
  intro l hl
  unfold selChunk at hl
  split at hl
  · obtain ⟨q, _, rfl⟩ := List.mem_map.mp hl
    exact ⟨_, rfl⟩
  · simp at hl

theorem shotChunk_space (sp : Option Str) : ∀ l ∈ shotChunk sp, ∃ x, l = ' ' :: x := by
  intro l hl
  rcases sp with _ | p
  · simp [shotChunk] at hl
  · rw [show shotChunk (some p) =
        if p ≠ [] then [str "  - ![Screenshot](" ++ p ++ str ")"] else [] from rfl] at hl
    split at hl <;> simp at hl
    exact ⟨_, by rw [hl]; rfl⟩

theorem fileChunk_space (fp : Option Str) : ∀ l ∈ fileChunk fp, ∃ x, l = ' ' :: x := by
  intro l hl
  rcases fp with _ | p
  · simp [fileChunk] at hl
  · rw [show fileChunk (some p) =
        if p ≠ [] then [str "  - [Attachment](" ++ p ++ str ")"] else [] from rfl] at hl
    split at hl <;> simp at hl
    exact ⟨_, by rw [hl]; rfl⟩

theorem optLineChunk_space (v : Str) (pre : Str) :
    ∀ l ∈ optLineChunk (' ' :: pre) v, ∃ x, l = ' ' :: x := by
  intro l hl
  unfold optLineChunk at hl
  split at hl
  · rw [List.mem_singleton.mp hl]
    exact ⟨pre ++ v, List.cons_append ' ' pre v⟩
  · simp at hl

theorem bodyChunks_nonheader (e : Entry) (sp fp : Option Str)
    (cls : Option Classification) :
    ∀ l ∈ (selChunk e.selectedText ++ (shotChunk sp ++ (fileChunk fp ++
        (notesLines e.notes ++ (optLineChunk (str "  - ParentId: ") e.parentId ++
          (optLineChunk (str "  - Related: ") e.related ++
            (optLineChunk (str "  - Similar: ") e.similar ++
              (pageMetaLines e.pageMetadata ++
                (classificationLines cls ++ [[]]))))))))),
      newEntryMatch l = none ∧ oldEntryMatch l = none := by
  intro l hl
  simp only [List.mem_append] at hl
  have hsp3 : ∀ x : Str, newEntryMatch (' ' :: x) = none ∧ oldEntryMatch (' ' :: x) = none :=
    fun x => ⟨newEntryMatch_space x, oldEntryMatch_space x⟩
  rcases hl with hl | hl | hl | hl | hl | hl | hl | hl | hl | hl
  · obtain ⟨x, rfl⟩ := selChunk_space _ l hl
    exact hsp3 x
  · obtain ⟨x, rfl⟩ := shotChunk_space _ l hl
    exact hsp3 x
  · obtain ⟨x, rfl⟩ := fileChunk_space _ l hl
    exact hsp3 x
  · obtain ⟨x, rfl⟩ := notesLines_space _ l hl
    exact hsp3 x
  · obtain ⟨x, rfl⟩ := optLineChunk_space e.parentId (str " - ParentId: ") l hl
    exact hsp3 x
  · obtain ⟨x, rfl⟩ := optLineChunk_space e.related (str " - Related: ") l hl
    exact hsp3 x
  · obtain ⟨x, rfl⟩ := optLineChunk_space e.similar (str " - Similar: ") l hl
    exact hsp3 x
  · obtain ⟨x, rfl⟩ := pageMetaLines_space _ l hl
    exact hsp3 x
  · obtain ⟨x, rfl⟩ := classificationLines_space _ l hl
    exact hsp3 x
  · rw [List.mem_singleton.mp hl]
    exact ⟨newEntryMatch_nil, oldEntryMatch_nil⟩

theorem mem_joinWith {c : Char} {sep : Str} {L : List Str}
    (hc : c ∈ joinWith sep L) : c ∈ sep ∨ ∃ l ∈ L, c ∈ l := by
  induction L with
  | nil => simp [joinWith] at hc
  | cons p ps ih =>
    cases ps with
    | nil =>
      right
      exact ⟨p, by simp, hc⟩
    | cons p2 ps2 =>
      rw [show joinWith sep (p :: p2 :: ps2) = p ++ sep ++ joinWith sep (p2 :: ps2)
          from rfl] at hc
      simp only [List.mem_append] at hc
      rcases hc with (hc | hc) | hc
      · exact Or.inr ⟨p, by simp, hc⟩
      · exact Or.inl hc
      · rcases ih hc with h | ⟨l, hl, hcl⟩
        · exact Or.inl h
        · exact Or.inr ⟨l, by simp [hl], hcl⟩

theorem digit_ne_newline {c : Char} (h : isAsciiDigit c = true) : c ≠ '\n' := by
  intro hc
  rw [hc] at h
  exact absurd h (by decide)

/-- No serialized body line contains an embedded newline, under the
field-level printability conditions. -/
theorem bodyChunks_noNl (e : Entry) (sp fp : Option Str) (cls : Option Classification)
    (hpid : e.parentId = []) (hrel : e.related = []) (hsim : e.similar = [])
    (hsp : ∀ p, sp = some p → '\n' ∉ p)
    (hfp : ∀ p, fp = some p → '\n' ∉ p)
    (hpm : ∀ m, e.pageMetadata = some m →
      (stripWs m.description = m.description ∧ m.description.length ≤ 200 ∧
        '\n' ∉ m.description) ∧
      (stripWs m.ogImage = m.ogImage ∧ '\n' ∉ m.ogImage) ∧
      (stripWs m.author = m.author ∧ '\n' ∉ m.author) ∧
      (stripWs m.publishedDate = m.publishedDate ∧ '\n' ∉ m.publishedDate) ∧
      (∀ rt, m.readingTime = some rt → ∀ c ∈ str (toString rt), isAsciiDigit c = true))
    (hcls : ∀ c, cls = some c → '\n' ∉ c.entity ∧
      (∀ t ∈ c.topics, '\n' ∉ t) ∧ (∀ t ∈ c.people, '\n' ∉ t)) :
    ∀ l ∈ (selChunk e.selectedText ++ (shotChunk sp ++ (fileChunk fp ++
        (notesLines e.notes ++ (optLineChunk (str "  - ParentId: ") e.parentId ++
          (optLineChunk (str "  - Related: ") e.related ++
            (optLineChunk (str "  - Similar: ") e.similar ++
              (pageMetaLines e.pageMetadata ++
                (classificationLines cls ++ [[]]))))))))),
      '\n' ∉ l := by
  intro l hl
  simp only [List.mem_append] at hl
  rcases hl with hl | hl | hl | hl | hl | hl | hl | hl | hl | hl
  · unfold selChunk at hl
    split at hl
    · obtain ⟨q, hq, rfl⟩ := List.mem_map.mp hl
      intro hc
      rcases List.mem_append.mp hc with hc | hc
      · exact absurd hc (by decide)
      · exact strippedLines_mem_noNl hq hc
    · simp at hl
  · rcases sp with _ | p
    · simp [shotChunk] at hl
    · rw [show shotChunk (some p) =
          if p ≠ [] then [str "  - ![Screenshot](" ++ p ++ str ")"] else [] from rfl] at hl
      split at hl <;> simp at hl
      rw [hl]
      intro hc
      rcases List.mem_append.mp hc with hc | hc
      · exact absurd hc (by decide)
      · rcases List.mem_append.mp hc with hc | hc
        · exact hsp p rfl hc
        · exact absurd hc (by decide)
  · rcases fp with _ | p
    · simp [fileChunk] at hl
    · rw [show fileChunk (some p) =
          if p ≠ [] then [str "  - [Attachment](" ++ p ++ str ")"] else [] from rfl] at hl
      split at hl <;> simp at hl
      rw [hl]
      intro hc
      rcases List.mem_append.mp hc with hc | hc
      · exact absurd hc (by decide)
      · rcases List.mem_append.mp hc with hc | hc
        · exact hfp p rfl hc
        · exact absurd hc (by decide)
  · unfold notesLines at hl
    split at hl
    · rcases hsl : strippedLines (stripWs e.notes) with _ | ⟨l0, rest⟩ <;> rw [hsl] at hl
      · simp at hl
      · rcases List.mem_cons.mp hl with rfl | hl
        · intro hc
          rcases List.mem_append.mp hc with hc | hc
          · exact absurd hc (by decide)
          · exact strippedLines_mem_noNl (by rw [hsl]; simp) hc
        · obtain ⟨q, hq, rfl⟩ := List.mem_map.mp hl
          intro hc
          rcases List.mem_append.mp hc with hc | hc
          · exact absurd hc (by decide)
          · exact strippedLines_mem_noNl (by rw [hsl]; simp [hq]) hc
    · simp at hl
  · rw [hpid] at hl
    simp [optLineChunk] at hl
  · rw [hrel] at hl
    simp [optLineChunk] at hl
  · rw [hsim] at hl
    simp [optLineChunk] at hl
  · rcases hm : e.pageMetadata with _ | m
    · rw [hm] at hl
      simp [pageMetaLines] at hl
    · obtain ⟨⟨hd1, hd2, hd3⟩, ⟨ho1, ho2⟩, ⟨ha1, ha2⟩, ⟨hq1, hq2⟩, hrt⟩ := hpm m hm
      rw [hm] at hl
      unfold pageMetaLines at hl
      simp only [List.mem_append] at hl
      rcases hl with (((hl | hl) | hl) | hl) | hl
      · split at hl <;> simp at hl
        rw [hl, if_neg (by rw [hd1]; omega)]
        intro hc
        rcases List.mem_append.mp hc with hc | hc
        · exact absurd hc (by decide)
        · rw [hd1] at hc
          exact hd3 hc
      · split at hl <;> simp at hl
        rw [hl]
        intro hc
        rcases List.mem_append.mp hc with hc | hc
        · exact absurd hc (by decide)
        · rw [ho1] at hc
          exact ho2 hc
      · split at hl <;> simp at hl
        rw [hl]
        intro hc
        rcases List.mem_append.mp hc with hc | hc
        · exact absurd hc (by decide)
        · rw [ha1] at hc
          exact ha2 hc
      · split at hl <;> simp at hl
        rw [hl]
        intro hc
        rcases List.mem_append.mp hc with hc | hc
        · exact absurd hc (by decide)
        · rw [hq1] at hc
          exact hq2 hc
      · rcases hrt2 : m.readingTime with _ | rt
        · rw [hrt2] at hl
          simp at hl
        · rw [hrt2, show (match some rt with
              | some r => if r ≠ 0 ∧ 0 < r then
                  [str "  - ReadTime: " ++ str (toString r) ++ str " min"] else []
              | none => ([] : List Str)) =
              (if rt ≠ 0 ∧ 0 < rt then
                [str "  - ReadTime: " ++ str (toString rt) ++ str " min"] else [])
              from rfl] at hl
          split at hl <;> simp at hl
          rw [hl]
          intro hc
          rcases List.mem_append.mp hc with hc | hc
          · exact absurd hc (by decide)
          · rcases List.mem_append.mp hc with hc | hc
            · exact digit_ne_newline (hrt rt hrt2 _ hc) rfl
            · exact absurd hc (by decide)
  · rcases hcc : cls with _ | c
    · rw [hcc] at hl
      simp [classificationLines] at hl
    · obtain ⟨he, ht, hp2⟩ := hcls c hcc
      rw [hcc] at hl
      unfold classificationLines at hl
      simp only [List.mem_append] at hl
      rcases hl with (hl | hl) | hl
      · split at hl <;> simp at hl
        rw [hl]
        intro hc
        rcases List.mem_append.mp hc with hc | hc
        · exact absurd hc (by decide)
        · exact he hc
      · split at hl <;> simp at hl
        rw [hl]
        intro hc
        rcases List.mem_append.mp hc with hc | hc
        · exact absurd hc (by decide)
        · rcases mem_joinWith hc with hc | ⟨q, hq, hcq⟩
          · exact absurd hc (by decide)
          · exact ht q hq hcq
      · split at hl <;> simp at hl
        rw [hl]
        intro hc
        rcases List.mem_append.mp hc with hc | hc
        · exact absurd hc (by decide)
        · rcases mem_joinWith hc with hc | ⟨q, hq, hcq⟩
          · exact absurd hc (by decide)
          · exact hp2 q hq hcq
  · rw [List.mem_singleton.mp hl]
    simp

theorem titleTail_none (e : Entry) (hgrp : e.tabGroup = none) :
    titleTail e =
      (if e.url ≠ [] ∧ validUrlScheme e.url then
        str "[" ++ (e.title?.getD (str "Untitled")) ++ str "](" ++ e.url ++ str ")"
      else e.title?.getD (str "Untitled")) := by
  unfold titleTail
  rw [hgrp]
  simp

theorem mainLine_noNl (e : Entry) (ty cap src title : Str)
    (hsrc : e.source? = some src) (htit : e.title? = some title)
    (hgrp : e.tabGroup = none)
    (htyn : '\n' ∉ ty) (hsrcn : '\n' ∉ src) (hcapn : '\n' ∉ cap)
    (htn : '\n' ∉ title)
    (hurln : e.url ≠ [] ∧ validUrlScheme e.url → '\n' ∉ e.url) :
    '\n' ∉ mainLine e ty cap := by
  rw [mainLine_eq, hsrc, Option.getD_some, titleTail_none e hgrp, htit,
    Option.getD_some]
  intro hc
  simp only [List.mem_append, List.mem_cons] at hc
  rcases hc with hc | hc | hc | hc | hc | hc | hc | hc
  · exact absurd hc (by decide)
  · exact htyn hc
  · exact absurd hc (by decide)
  · exact absurd hc (by decide)
  · exact hsrcn hc
  · exact absurd hc (by decide)
  · exact absurd hc (by decide)
  · rcases hc with hc | hc | hc | hc
    · exact hcapn hc
    · exact absurd hc (by decide)
    · exact absurd hc (by decide)
    · split at hc
      · rename_i hcond
        simp only [List.mem_append] at hc
        rcases hc with (((hc | hc) | hc) | hc) | hc
        · exact absurd hc (by decide)
        · exact htn hc
        · exact absurd hc (by decide)
        · exact hurln hcond hc
        · exact absurd hc (by decide)
      · exact htn hc

theorem linkedTitle_spec (t u : Str) (ht1 : ']' ∉ t) (ht0 : t ≠ [])
    (hu1 : ')' ∉ u) (hu0 : u ≠ []) :
    linkedTitle (str "[" ++ (t ++ (']' :: ('(' :: (u ++ [')']))))) = some (t, u) := by
  unfold linkedTitle
  simp only [Option.bind_eq_bind, Option.some_bind, dropStart_append, takeTo_spec,
    ht1, ht0, hu1, hu0, ne_eq, not_false_iff]
  rw [show ('(' :: (u ++ [')']) : Str) = str "(" ++ (u ++ [')']) from rfl,
    dropStart_append]
  simp only [Option.some_bind]
  rw [takeTo_spec ')' u [] hu1 hu0]
  rfl

theorem entryFromNew_linked (ty src cap t u : Str) :
    entryFromNew ⟨ty, src, cap, some (t, u), []⟩ =
      { emptyParsed with
        title := stripWs t
        url := u
        type := ty
        source := src
        timestamp := cap } := rfl

theorem entryFromNew_plain (ty src cap t : Str) :
    entryFromNew ⟨ty, src, cap, none, t⟩ =
      { emptyParsed with
        title := stripWs t
        type := ty
        source := src
        timestamp := cap } := rfl

theorem parseAux_content_all (B : List Str)
    (hB : ∀ l ∈ B, newEntryMatch l = none ∧ oldEntryMatch l = none)
    (ce : ParsedEntry) :
    parseAux (some ce) B = [B.foldl contentStep ce] := by
  have h := parseAux_content_chunk B hB ce []
  rw [List.append_nil] at h
  rw [h]
  rfl

/-- C1 amended: for an entry whose populated fields are printable in the
serializer's own terms — nonempty backtick-free `type`/`source`/
`captured`, a nonempty trimmed newline-free title, no tab group, a url
that either link-serializes cleanly or whose title is not itself a
markdown link, selected text and notes in stripped-lines canonical form
with continuation lines not starting `-` or `_(`, no parent/related/
similar back-references, side-file paths free of `]`/`)`/newlines, page
metadata trimmed with a ≤200-char description and a positive reading
time that reprints faithfully, and comma-free trimmed classification
values — parsing the serialized text yields exactly one entry agreeing
with the input on every one of the claim's fields. -/
theorem parse_serialize_roundtrip
    (e : Entry) (sp fp : Option Str) (cls : Option Classification)
    (ty cap src title : Str)
    (hty : e.type? = some ty) (hcap : e.captured? = some cap)
    (hsrc : e.source? = some src) (htit : e.title? = some title)
    (hty1 : '`' ∉ ty) (hty0 : ty ≠ []) (htyn : '\n' ∉ ty)
    (hsrc1 : '`' ∉ src) (hsrc0 : src ≠ []) (hsrcn : '\n' ∉ src)
    (hcap1 : '`' ∉ cap) (hcap0 : cap ≠ []) (hcapn : '\n' ∉ cap)
    (ht0 : title ≠ []) (htn : '\n' ∉ title) (hts : stripWs title = title)
    (hgrp : e.tabGroup = none)
    (hurl1 : e.url ≠ [] ∧ validUrlScheme e.url →
      ']' ∉ title ∧ ')' ∉ e.url ∧ '\n' ∉ e.url)
    (hurl2 : ¬ (e.url ≠ [] ∧ validUrlScheme e.url) → linkedTitle title = none)
    (hsel : e.selectedText = joinWith ['\n'] (strippedLines (stripWs e.selectedText)))
    (hnts : e.notes = joinWith ['\n'] (strippedLines (stripWs e.notes)))
    (hntc : ∀ l ∈ (strippedLines (stripWs e.notes)).tail,
      l.head? ≠ some '-' ∧ (str "_(").isPrefixOf l = false)
    (hpid : e.parentId = []) (hrel : e.related = []) (hsim : e.similar = [])
    (hsp : ∀ p, sp = some p → ')' ∉ p ∧ '\n' ∉ p)
    (hfp : ∀ p, fp = some p → ']' ∉ p ∧ ')' ∉ p ∧ '\n' ∉ p)
    (hpm : ∀ m, e.pageMetadata = some m →
      (stripWs m.description = m.description ∧ m.description.length ≤ 200 ∧
        '\n' ∉ m.description) ∧
      (stripWs m.ogImage = m.ogImage ∧ '\n' ∉ m.ogImage) ∧
      (stripWs m.author = m.author ∧ '\n' ∉ m.author) ∧
      (stripWs m.publishedDate = m.publishedDate ∧ '\n' ∉ m.publishedDate) ∧
      (∀ rt, m.readingTime = some rt → 0 < rt ∧ str (toString rt) ≠ [] ∧
        (∀ c ∈ str (toString rt), isAsciiDigit c = true) ∧
        (natFromDigits (str (toString rt)) : Int) = rt))
    (hcls : ∀ c, cls = some c → '\n' ∉ c.entity ∧
      (∀ t ∈ c.topics, ',' ∉ t ∧ stripWs t = t ∧ '\n' ∉ t) ∧
      (∀ t ∈ c.people, ',' ∉ t ∧ stripWs t = t ∧ '\n' ∉ t)) :
    ∃ pe : ParsedEntry,
      parseKbMarkdown ((renderEntry e sp fp cls).getD []) = [pe] ∧
      pe.type = ty ∧ pe.source = src ∧ pe.timestamp = cap ∧
      pe.title = title ∧
      pe.url = (if e.url ≠ [] ∧ validUrlScheme e.url then e.url else []) ∧
      pe.group = [] ∧
      pe.selectedText = e.selectedText ∧
      pe.content = e.notes ∧
      pe.screenshot = sp.getD [] ∧
      pe.file = fp.getD [] ∧
      pe.description = (e.pageMetadata.map PageMeta.description).getD [] ∧
      pe.ogImage = (e.pageMetadata.map PageMeta.ogImage).getD [] ∧
      pe.author = (e.pageMetadata.map PageMeta.author).getD [] ∧
      pe.publishedDate = (e.pageMetadata.map PageMeta.publishedDate).getD [] ∧
      pe.readingTime = ((e.pageMetadata.bind PageMeta.readingTime).getD 0 : Int) ∧
      pe.entity = (cls.map Classification.entity).getD [] ∧
      pe.topics = (cls.map Classification.topics).getD [] ∧
      pe.people = (cls.map Classification.people).getD [] := by
  have hfmt := formatMarkdownEntry_chunks e sp fp cls ty cap hty hcap
  have hrender : (renderEntry e sp fp cls).getD [] =
      joinWith ['\n'] (mainLine e ty cap ::
        (selChunk e.selectedText ++ (shotChunk sp ++ (fileChunk fp ++
          (notesLines e.notes ++ (optLineChunk (str "  - ParentId: ") e.parentId ++
            (optLineChunk (str "  - Related: ") e.related ++
              (optLineChunk (str "  - Similar: ") e.similar ++
                (pageMetaLines e.pageMetadata ++
                  (classificationLines cls ++ [[]])))))))))) := by
    rw [renderEntry, hfmt, Option.map_some', Option.getD_some]
    rfl
  have hBnl := bodyChunks_noNl e sp fp cls hpid hrel hsim
    (fun p hp => (hsp p hp).2) (fun p hp => (hfp p hp).2.2)
    (fun m hm => ⟨(hpm m hm).1, (hpm m hm).2.1, (hpm m hm).2.2.1,
      (hpm m hm).2.2.2.1,
      fun rt hrt => ((hpm m hm).2.2.2.2 rt hrt).2.2.1⟩)
    (fun c hc => ⟨(hcls c hc).1, fun t ht => ((hcls c hc).2.1 t ht).2.2,
      fun t ht => ((hcls c hc).2.2 t ht).2.2⟩)
  have hLnl : ∀ l ∈ mainLine e ty cap ::
      (selChunk e.selectedText ++ (shotChunk sp ++ (fileChunk fp ++
        (notesLines e.notes ++ (optLineChunk (str "  - ParentId: ") e.parentId ++
          (optLineChunk (str "  - Related: ") e.related ++
            (optLineChunk (str "  - Similar: ") e.similar ++
              (pageMetaLines e.pageMetadata ++
                (classificationLines cls ++ [[]]))))))))), '\n' ∉ l := by
    intro l hl
    rcases List.mem_cons.mp hl with rfl | hl
    · exact mainLine_noNl e ty cap src title hsrc htit hgrp htyn hsrcn hcapn htn
        (fun hc => (hurl1 hc).2.2)
    · exact hBnl l hl
  obtain ⟨hdr, hhdr, he0⟩ : ∃ hdr, newEntryMatch (mainLine e ty cap) = some hdr ∧
      entryFromNew hdr =
        { emptyParsed with
          title := title
          url := (if e.url ≠ [] ∧ validUrlScheme e.url then e.url else [])
          type := ty
          source := src
          timestamp := cap } := by
    by_cases hc : e.url ≠ [] ∧ validUrlScheme e.url
    · have htt : titleTail e = str "[" ++ (title ++ (']' :: ('(' :: (e.url ++ [')'])))) := by
        rw [titleTail_none e hgrp, if_pos hc, htit, Option.getD_some]
        simp only [List.append_assoc]
        rfl
      refine ⟨⟨ty, src, cap, some (title, e.url), []⟩, ?_, ?_⟩
      · rw [mainLine_eq, hsrc, Option.getD_some,
          newEntryMatch_structured ty src cap (titleTail e) hty1 hty0 hsrc1 hsrc0
            hcap1 hcap0,
          htt, linkedTitle_spec title e.url (hurl1 hc).1 ht0 (hurl1 hc).2.1 hc.1]
      · rw [entryFromNew_linked, hts, if_pos hc]
    · have htt : titleTail e = title := by
        rw [titleTail_none e hgrp, if_neg hc, htit, Option.getD_some]
      refine ⟨⟨ty, src, cap, none, title⟩, ?_, ?_⟩
      · rw [mainLine_eq, hsrc, Option.getD_some,
          newEntryMatch_structured ty src cap (titleTail e) hty1 hty0 hsrc1 hsrc0
            hcap1 hcap0,
          htt, hurl2 hc, if_pos ht0]
      · rw [entryFromNew_plain, hts, if_neg hc]
        rfl
  obtain ⟨b, hfold⟩ := foldl_bodyChunks e sp fp cls
    { emptyParsed with
      title := title
      url := (if e.url ≠ [] ∧ validUrlScheme e.url then e.url else [])
      type := ty
      source := src
      timestamp := cap }
    rfl rfl rfl rfl rfl rfl rfl rfl rfl rfl rfl rfl
    hsel hnts hntc hpid hrel hsim
    (fun p hp => (hsp p hp).1) (fun p hp => ⟨(hfp p hp).1, (hfp p hp).2.1⟩)
    (fun m hm => ⟨⟨(hpm m hm).1.1, (hpm m hm).1.2.1⟩, (hpm m hm).2.1.1,
      (hpm m hm).2.2.1.1, (hpm m hm).2.2.2.1.1, (hpm m hm).2.2.2.2⟩)
    (fun c hc => ⟨fun t ht => ⟨((hcls c hc).2.1 t ht).1, ((hcls c hc).2.1 t ht).2.1⟩,
      fun t ht => ⟨((hcls c hc).2.2 t ht).1, ((hcls c hc).2.2 t ht).2.1⟩⟩)
  have hparse : parseKbMarkdown ((renderEntry e sp fp cls).getD []) =
      [(selChunk e.selectedText ++ (shotChunk sp ++ (fileChunk fp ++
        (notesLines e.notes ++ (optLineChunk (str "  - ParentId: ") e.parentId ++
          (optLineChunk (str "  - Related: ") e.related ++
            (optLineChunk (str "  - Similar: ") e.similar ++
              (pageMetaLines e.pageMetadata ++
                (classificationLines cls ++ [[]]))))))))).foldl contentStep
        (entryFromNew hdr)] := by
    rw [parseKbMarkdown, hrender, splitOnChar_join '\n' _ hLnl (by simp),
      show parseAux none (mainLine e ty cap ::
          (selChunk e.selectedText ++ (shotChunk sp ++ (fileChunk fp ++
            (notesLines e.notes ++ (optLineChunk (str "  - ParentId: ") e.parentId ++
              (optLineChunk (str "  - Related: ") e.related ++
                (optLineChunk (str "  - Similar: ") e.similar ++
                  (pageMetaLines e.pageMetadata ++
                    (classificationLines cls ++ [[]])))))))))) =
        parseAux (some (entryFromNew hdr))
          (selChunk e.selectedText ++ (shotChunk sp ++ (fileChunk fp ++
            (notesLines e.notes ++ (optLineChunk (str "  - ParentId: ") e.parentId ++
              (optLineChunk (str "  - Related: ") e.related ++
                (optLineChunk (str "  - Similar: ") e.similar ++
                  (pageMetaLines e.pageMetadata ++
                    (classificationLines cls ++ [[]]))))))))) by
          simp [parseAux, hhdr, finishCur],
      parseAux_content_all _ (bodyChunks_nonheader e sp fp cls) (entryFromNew hdr)]
  rw [he0] at hparse
  rw [hfold] at hparse
  exact ⟨_, hparse, rfl, rfl, rfl, rfl, rfl, rfl, rfl, rfl, rfl, rfl, rfl, rfl,
    rfl, rfl, rfl, rfl, rfl, rfl⟩

/-- A concrete entry populating every field group of the round-trip
theorem. -/
def entryRT : Entry :=
  { type? := some (str "note"), captured? := some (str "2024-05-06 07:08:09"),
    source? := some (str "browser"), title? := some (str "Lean Guide"),
    url := str "https://example.org/guide", tabGroup := none,
    selectedText := str "first sel\nsecond sel",
    notes := str "top note\ncont line", parentId := [],
    related := [], similar := [],
    pageMetadata := some ⟨str "A guide", str "https://img.example/x.png",
      str "Ann", str "2024-01-01", some 7⟩,
    screenshotData? := none, fileData? := none }

def clsRT : Classification :=
  ⟨str "Example", [str "lean", str "proofs"], [str "Ann B"]⟩

def spRT : Option Str := some (str "screenshots/screenshot_1.png")

def fpRT : Option Str := some (str "files/doc_1.pdf")

/-- C1 witness: the round-trip theorem applied to a concrete entry with
every field populated (linked url, multi-line selected text, notes with
a continuation line, both side files, full page metadata with a reading
time, and a classification). -/
theorem parse_serialize_roundtrip_witness :
    ∃ pe : ParsedEntry,
      parseKbMarkdown ((renderEntry entryRT spRT fpRT (some clsRT)).getD []) = [pe] ∧
      pe.type = str "note" ∧ pe.source = str "browser" ∧
      pe.timestamp = str "2024-05-06 07:08:09" ∧
      pe.title = str "Lean Guide" ∧
      pe.url = (if entryRT.url ≠ [] ∧ validUrlScheme entryRT.url then entryRT.url
        else []) ∧
      pe.group = [] ∧
      pe.selectedText = entryRT.selectedText ∧
      pe.content = entryRT.notes ∧
      pe.screenshot = spRT.getD [] ∧
      pe.file = fpRT.getD [] ∧
      pe.description = (entryRT.pageMetadata.map PageMeta.description).getD [] ∧
      pe.ogImage = (entryRT.pageMetadata.map PageMeta.ogImage).getD [] ∧
      pe.author = (entryRT.pageMetadata.map PageMeta.author).getD [] ∧
      pe.publishedDate = (entryRT.pageMetadata.map PageMeta.publishedDate).getD [] ∧
      pe.readingTime = ((entryRT.pageMetadata.bind PageMeta.readingTime).getD 0 : Int) ∧
      pe.entity = ((some clsRT).map Classification.entity).getD [] ∧
      pe.topics = ((some clsRT).map Classification.topics).getD [] ∧
      pe.people = ((some clsRT).map Classification.people).getD [] :=
  parse_serialize_roundtrip entryRT spRT fpRT (some clsRT)
    (str "note") (str "2024-05-06 07:08:09") (str "browser") (str "Lean Guide")
    rfl rfl rfl rfl
    (by decide) (by decide) (by decide)
    (by decide) (by decide) (by decide)
    (by decide) (by decide) (by decide)
    (by decide) (by decide) (by decide)
    rfl
    (by decide) (by decide)
    (by decide) (by decide) (by decide)
    rfl rfl rfl
    (by intro p hp; injection hp with h; rw [← h]; exact ⟨by decide, by decide⟩)
    (by intro p hp; injection hp with h; rw [← h]; exact ⟨by decide, by decide, by decide⟩)
    (by intro m hm; injection hm with h; rw [← h]
        refine ⟨⟨by decide, by decide, by decide⟩, ⟨by decide, by decide⟩,
          ⟨by decide, by decide⟩, ⟨by decide, by decide⟩, ?_⟩
        intro rt hrt
        injection hrt with h2
        rw [← h2]
        exact ⟨by decide, by decide, by decide, by decide⟩)
    (by intro c hc; injection hc with h; rw [← h]
        exact ⟨by decide, by decide, by decide⟩)
